import Mathlib

/-!
# Project / progress tracker: validators and write handlers

A shallow embedding of `backend/routes/projects.js`, `backend/routes/progress.js`
and the report handler of `backend/server.js`.

* JSON values are `JsVal`; a JSON object is an association list `Obj` read with
  `getField` (an absent key reads as `undefined`).
* A thrown `TypeError` (calling `.trim()` on something that is not a string) is
  the `Except.error` result; every handler catches it and answers 500.
* The two JSON files are the two lists of a `Store`; a handler maps the store it
  reads to the store it leaves and the response it sends.  The clock reading and
  the outcome of `fs.writeFileSync` are the fields of `Env`.
* Numbers are exact rationals: rounding to binary64 is not modelled.
-/

set_option autoImplicit false

namespace PM

/-! ## JavaScript values -/

/-- A JavaScript number: `NaN`, an infinity, or a finite value. -/
inductive JsNum where
  | nan
  | inf (neg : Bool)
  | fin (q : Rat)
  deriving DecidableEq

/-- A value found in a parsed JSON body or file.  `obj` stands for an array or a
nested object and carries what `ToString` gives for it. -/
inductive JsVal where
  | undefined
  | null
  | bool (b : Bool)
  | num (n : JsNum)
  | str (s : String)
  | obj (toStr : String)
  deriving DecidableEq

/-- A thrown exception. -/
inductive JsError where
  | typeError
  deriving DecidableEq

deriving instance DecidableEq for Except

/-- A JSON object: keys with their values, in insertion order. -/
abbrev Obj := List (String × JsVal)

/-- Property read `o[k]`. -/
def getField : Obj → String → JsVal
  | [], _ => JsVal.undefined
  | (k', v) :: rest, k => if k' = k then v else getField rest k

/-- Property write `o[k] = v`: in place when the key exists, appended otherwise. -/
def setField : Obj → String → JsVal → Obj
  | [], k, v => [(k, v)]
  | (k', v') :: rest, k, v =>
    if k' = k then (k', v) :: rest else (k', v') :: setField rest k v

/-- Object spread `{...a, ...b}`. -/
def spread (a b : Obj) : Obj :=
  b.foldl (fun acc kv => setField acc kv.1 kv.2) a

/-- ToBoolean. -/
def truthy : JsVal → Bool
  | JsVal.undefined => false
  | JsVal.null => false
  | JsVal.bool b => b
  | JsVal.num JsNum.nan => false
  | JsVal.num (JsNum.inf _) => true
  | JsVal.num (JsNum.fin q) => decide (q ≠ 0)
  | JsVal.str s => decide (s ≠ "")
  | JsVal.obj _ => true

/-- The operator `a || b`. -/
def jsOr (a b : JsVal) : JsVal := if truthy a then a else b

/-- The operator `a === b` between a stored value and a request value: two
arrays or objects parsed separately are never identical. -/
def strictEq : JsVal → JsVal → Bool
  | JsVal.undefined, JsVal.undefined => true
  | JsVal.null, JsVal.null => true
  | JsVal.bool a, JsVal.bool b => decide (a = b)
  | JsVal.num (JsNum.fin a), JsVal.num (JsNum.fin b) => decide (a = b)
  | JsVal.num (JsNum.inf a), JsVal.num (JsNum.inf b) => decide (a = b)
  | JsVal.str a, JsVal.str b => decide (a = b)
  | _, _ => false

/-- WhiteSpace and LineTerminator code points of ECMAScript. -/
def isJsWhiteSpace (c : Char) : Bool :=
  let n := c.toNat
  n = 9 || n = 10 || n = 11 || n = 12 || n = 13 || n = 32 || n = 160 ||
  n = 5760 || (8192 ≤ n && n ≤ 8202) || n = 8232 || n = 8233 || n = 8239 ||
  n = 8287 || n = 12288 || n = 65279

/-- String.prototype.trim on the characters of a string. -/
def trimChars (cs : List Char) : List Char :=
  ((cs.dropWhile isJsWhiteSpace).reverse.dropWhile isJsWhiteSpace).reverse

/-- String.prototype.trim. -/
def jsTrim (s : String) : String := String.mk (trimChars s.data)

/-- The call `v.trim()`: a `TypeError` unless `v` is a string. -/
def callTrim : JsVal → Except JsError String
  | JsVal.str s => Except.ok (jsTrim s)
  | _ => Except.error JsError.typeError

/-- The test `!v || v.trim() === ''`. -/
def isBlank (v : JsVal) : Except JsError Bool :=
  if truthy v then (callTrim v).map (fun t => decide (t = "")) else Except.ok true

/-! ## Numbers read from text -/

/-- Value of a decimal digit. -/
def digitVal (c : Char) : Nat := c.toNat - 48

/-- Is the character one of `0`..`9`. -/
def isDigit (c : Char) : Bool := 48 ≤ c.toNat && c.toNat ≤ 57

/-- Value of a run of decimal digits, most significant first. -/
def digitsToNat (cs : List Char) : Nat :=
  cs.foldl (fun acc c => 10 * acc + digitVal c) 0

/-- The longest run of leading digits and what follows it. -/
def spanDigits : List Char → List Char × List Char
  | [] => ([], [])
  | c :: cs =>
    if isDigit c then ((spanDigits cs).1.cons c, (spanDigits cs).2) else ([], c :: cs)

/-- The exponent part `e[+-]ddd` of a decimal literal, 0 when there is none. -/
def exponentPart : List Char → Int
  | [] => 0
  | e :: r =>
    if e = 'e' ∨ e = 'E' then
      match r with
      | '-' :: r' => - ((digitsToNat (spanDigits r').1 : Nat) : Int)
      | '+' :: r' => ((digitsToNat (spanDigits r').1 : Nat) : Int)
      | _ => ((digitsToNat (spanDigits r).1 : Nat) : Int)
    else 0

/-- The number `mant * 10 ^ e10`. -/
def scale10 (mant : Nat) (e10 : Int) : Rat :=
  if 0 ≤ e10 then mkRat ((mant * 10 ^ e10.toNat : Nat) : Int) 1
  else mkRat (mant : Int) (10 ^ (- e10).toNat)

/-- The whole number nearest to `n / d`, a half going to the even neighbour. -/
def roundHalfEven (n d : Nat) : Nat :=
  if 2 * (n % d) < d then n / d
  else if d < 2 * (n % d) then n / d + 1
  else if n / d % 2 = 0 then n / d else n / d + 1

/-- The number of binary digits of `n`, counted in at most `fuel` halvings. -/
def bitLenAux : Nat → Nat → Nat
  | 0, _ => 0
  | fuel + 1, n => if n = 0 then 0 else bitLenAux fuel (n / 2) + 1

/-- The number of binary digits of `n`. -/
def bitLen (n : Nat) : Nat := bitLenAux n n

/-- The exponent `k` with `2 ^ k ≤ n / d < 2 ^ (k + 1)`, for `n` and `d` not 0. -/
def floorLog2 (n d : Nat) : Int :=
  if bitLen d ≤ bitLen n then
    if d * 2 ^ (bitLen n - bitLen d) ≤ n then ((bitLen n - bitLen d : Nat) : Int)
    else ((bitLen n - bitLen d : Nat) : Int) - 1
  else
    if d ≤ n * 2 ^ (bitLen d - bitLen n) then - ((bitLen d - bitLen n : Nat) : Int)
    else - ((bitLen d - bitLen n : Nat) : Int) - 1

/-- The Number value for a rational: the binary64 number nearest to it (round to
nearest, ties to even), that is a multiple of `2 ^ e` with at most 53 binary
digits, `e` being at least -1074; from `2 ^ 1024` on it is an infinity.  There
is no negative zero here. -/
def roundDouble (q : Rat) : JsNum :=
  if q.num = 0 then JsNum.fin 0
  else
    let e := max (floorLog2 q.num.natAbs q.den - 52) (-1074)
    let m := if 0 ≤ e then roundHalfEven q.num.natAbs (q.den * 2 ^ e.toNat)
      else roundHalfEven (q.num.natAbs * 2 ^ (- e).toNat) q.den
    if 971 < e ∨ (e = 971 ∧ 2 ^ 53 ≤ m) then JsNum.inf (decide (q.num < 0))
    else if 0 ≤ e then JsNum.fin (mkRat (q.num.sign * ((m * 2 ^ e.toNat : Nat) : Int)) 1)
    else JsNum.fin (mkRat (q.num.sign * (m : Int)) (2 ^ (- e).toNat))

/-- The unsigned part of `parseFloat`: the longest leading StrDecimalLiteral,
as the Number value of the decimal it writes. -/
def parseUnsigned (neg : Bool) (cs : List Char) : JsNum :=
  if cs.take 8 = "Infinity".data then JsNum.inf neg
  else
    let ip := (spanDigits cs).1
    let r1 := (spanDigits cs).2
    let fp := match r1 with
      | '.' :: r => (spanDigits r).1
      | _ => []
    let r2 := match r1 with
      | '.' :: r => (spanDigits r).2
      | _ => r1
    if ip = [] ∧ fp = [] then JsNum.nan
    else
      let q := scale10 (digitsToNat (ip ++ fp)) (exponentPart r2 - (fp.length : Int))
      roundDouble (if neg then - q else q)

/-- The function `parseFloat` on the characters of a string. -/
def parseFloatChars (cs : List Char) : JsNum :=
  match cs.dropWhile isJsWhiteSpace with
  | '-' :: r => parseUnsigned true r
  | '+' :: r => parseUnsigned false r
  | r => parseUnsigned false r

/-- The function `parseFloat(v)`: the argument goes through `ToString` first,
which gives a number back unchanged. -/
def parseFloat : JsVal → JsNum
  | JsVal.num n => n
  | JsVal.str s => parseFloatChars s.data
  | JsVal.obj s => parseFloatChars s.data
  | _ => JsNum.nan

/-- The test `isNaN(n)`. -/
def JsNum.isNaN : JsNum → Bool
  | JsNum.nan => true
  | _ => false

/-- The comparison `a < b` of two numbers, false when one is `NaN`. -/
def JsNum.lt : JsNum → JsNum → Bool
  | JsNum.fin a, JsNum.fin b => decide (a < b)
  | JsNum.fin _, JsNum.inf neg => !neg
  | JsNum.inf neg, JsNum.fin _ => neg
  | JsNum.inf a, JsNum.inf b => a && !b
  | _, _ => false

/-- A number as a value, for `n || v`. -/
def numOr (n : JsNum) (v : JsVal) : JsVal := jsOr (JsVal.num n) v

/-! ## Dates

A `Date` object is `none` (Invalid Date) or its time value, the milliseconds
since 1970-01-01T00:00:00Z. -/

/-- Milliseconds in a day. -/
def msPerDay : Int := 86400000

/-- Day number (days since 1970-01-01) of a proleptic Gregorian date.  A day of
the month past the end of the month runs on into the next month, as `MakeDay`
does. -/
def daysFromCivil (y m d : Int) : Int :=
  let y' := if m ≤ 2 then y - 1 else y
  let era := y' / 400
  let yoe := y' - era * 400
  let mp := if m ≤ 2 then m + 9 else m - 3
  let doy := (153 * mp + 2) / 5 + d - 1
  let doe := yoe * 365 + yoe / 4 - yoe / 100 + doy
  era * 146097 + doe - 719468

/-- The date (year, month, day of month) of a day number. -/
def civilFromDays (z : Int) : Int × Int × Int :=
  let z' := z + 719468
  let era := z' / 146097
  let doe := z' - era * 146097
  let yoe := (doe - doe / 1460 + doe / 36524 - doe / 146096) / 365
  let doy := doe - (365 * yoe + yoe / 4 - yoe / 100)
  let mp := (5 * doy + 2) / 153
  let d := doy - (153 * mp + 2) / 5 + 1
  let m := if mp < 10 then mp + 3 else mp - 9
  let y := yoe + era * 400
  (if m ≤ 2 then y + 1 else y, m, d)

/-- A run of exactly these digits as a number, `none` when one is not a digit. -/
def readDigits (cs : List Char) : Option Nat :=
  if cs.all isDigit then some (digitsToNat cs) else none

/-- Time value of a date with a time of day, `none` when a field is out of range
(month 01-12, day 01-31, hour 00-24, minute and second 00-59; hour 24 only as
24:00:00.000). -/
def makeTime (y mo d h mi sec ms : Nat) : Option Int :=
  if 1 ≤ mo ∧ mo ≤ 12 ∧ 1 ≤ d ∧ d ≤ 31 ∧ h ≤ 24 ∧ mi ≤ 59 ∧ sec ≤ 59 ∧
      (h = 24 → mi = 0 ∧ sec = 0 ∧ ms = 0) then
    some (daysFromCivil y mo d * msPerDay + h * 3600000 + mi * 60000 + sec * 1000 + ms)
  else none

/-- The time of day `HH:mmZ`, `HH:mm:ssZ` or `HH:mm:ss.sssZ` after the `T`. -/
def readTimeOfDay : List Char → Option (Nat × Nat × Nat × Nat)
  | [h1, h2, ':', m1, m2, 'Z'] =>
    (readDigits [h1, h2]).bind fun h => (readDigits [m1, m2]).map fun mi => (h, mi, 0, 0)
  | [h1, h2, ':', m1, m2, ':', s1, s2, 'Z'] =>
    (readDigits [h1, h2]).bind fun h => (readDigits [m1, m2]).bind fun mi =>
      (readDigits [s1, s2]).map fun sec => (h, mi, sec, 0)
  | [h1, h2, ':', m1, m2, ':', s1, s2, '.', f1, f2, f3, 'Z'] =>
    (readDigits [h1, h2]).bind fun h => (readDigits [m1, m2]).bind fun mi =>
      (readDigits [s1, s2]).bind fun sec => (readDigits [f1, f2, f3]).map fun ms =>
        (h, mi, sec, ms)
  | _ => none

/-- The function `Date.parse` on the date-time string format of ECMAScript:
`YYYY`, `YYYY-MM`, `YYYY-MM-DD` (read as UTC) and `YYYY-MM-DDT` followed by a
time of day in UTC.  Other strings, which an engine reads by rules of its own or
in local time, are given as Invalid Date. -/
def dateParseChars : List Char → Option Int
  | [y1, y2, y3, y4] =>
    (readDigits [y1, y2, y3, y4]).bind fun y => makeTime y 1 1 0 0 0 0
  | [y1, y2, y3, y4, '-', m1, m2] =>
    (readDigits [y1, y2, y3, y4]).bind fun y => (readDigits [m1, m2]).bind fun mo =>
      makeTime y mo 1 0 0 0 0
  | y1 :: y2 :: y3 :: y4 :: '-' :: m1 :: m2 :: '-' :: d1 :: d2 :: rest =>
    (readDigits [y1, y2, y3, y4]).bind fun y => (readDigits [m1, m2]).bind fun mo =>
      (readDigits [d1, d2]).bind fun d =>
        match rest with
        | [] => makeTime y mo d 0 0 0 0
        | 'T' :: t => (readTimeOfDay t).bind fun hmsf =>
            makeTime y mo d hmsf.1 hmsf.2.1 hmsf.2.2.1 hmsf.2.2.2
        | _ => none
  | _ => none

/-- The function `Date.parse`. -/
def dateParse (s : String) : Option Int := dateParseChars s.data

/-- Truncation toward zero. -/
def truncRat (q : Rat) : Int := if 0 ≤ q then Rat.floor q else - Rat.floor (- q)

/-- The constructor `new Date(v)`: a string is parsed, a number is the time
value itself (clipped to the range of a Date), `null` and booleans go through
`ToNumber`, `undefined` gives Invalid Date. -/
def toDate : JsVal → Option Int
  | JsVal.undefined => none
  | JsVal.null => some 0
  | JsVal.bool b => some (if b then 1 else 0)
  | JsVal.num (JsNum.fin q) =>
    if - 8640000000000000 ≤ q ∧ q ≤ 8640000000000000 then some (truncRat q) else none
  | JsVal.num _ => none
  | JsVal.str s => dateParse s
  | JsVal.obj s => dateParse s

/-- The comparison `a < b` of two Date objects: false when one is invalid. -/
def dateLt : Option Int → Option Int → Bool
  | some a, some b => decide (a < b)
  | _, _ => false

/-- The character of a digit below ten. -/
def digitChar (n : Nat) : Char := Char.ofNat (48 + n % 10)

/-- A number written with two digits. -/
def pad2 (n : Nat) : List Char := [digitChar (n / 10), digitChar n]

/-- A number written with three digits. -/
def pad3 (n : Nat) : List Char := [digitChar (n / 100), digitChar (n / 10), digitChar n]

/-- A number written with four digits. -/
def pad4 (n : Nat) : List Char :=
  [digitChar (n / 1000), digitChar (n / 100), digitChar (n / 10), digitChar n]

/-- A year as `toISOString` writes it: four digits, or a sign and six digits
outside 0..9999. -/
def isoYear (y : Int) : List Char :=
  if 0 ≤ y ∧ y ≤ 9999 then pad4 y.toNat
  else (if y < 0 then '-' else '+') :: (pad2 (y.natAbs / 10000) ++ pad4 y.natAbs)

/-- A calendar date written `YYYY-MM-DD`. -/
def isoDate (y mo d : Nat) : String :=
  String.mk (pad4 y ++ '-' :: pad2 mo ++ '-' :: pad2 d)

/-- The method `toISOString` of a Date with time value `t`. -/
def toISOString (t : Int) : String :=
  let day := t / msPerDay
  let ms := (t % msPerDay).toNat
  let ymd := civilFromDays day
  String.mk (isoYear ymd.1 ++ '-' :: pad2 ymd.2.1.toNat ++ '-' :: pad2 ymd.2.2.toNat ++
    'T' :: pad2 (ms / 3600000) ++ ':' :: pad2 (ms / 60000 % 60) ++ ':' ::
    pad2 (ms / 1000 % 60) ++ '.' :: pad3 (ms % 1000) ++ ['Z'])

/-! ## Integers read from text -/

/-- An integer as a number. -/
def intNum (i : Int) : JsNum := JsNum.fin (i : Rat)

/-- Value of a hexadecimal digit, `none` for another character. -/
def hexVal (c : Char) : Option Nat :=
  if isDigit c then some (c.toNat - 48)
  else if 97 ≤ c.toNat ∧ c.toNat ≤ 102 then some (c.toNat - 87)
  else if 65 ≤ c.toNat ∧ c.toNat ≤ 70 then some (c.toNat - 55)
  else none

/-- The longest run of leading hexadecimal digits, as their values. -/
def spanHex : List Char → List Nat
  | [] => []
  | c :: cs =>
    match hexVal c with
    | some v => v :: spanHex cs
    | none => []

/-- The digits of `parseInt` after the sign: radix 16 after `0x`, else radix 10. -/
def parseIntUnsigned (neg : Bool) (cs : List Char) : JsNum :=
  let sign : Int := if neg then -1 else 1
  match cs with
  | '0' :: x :: r =>
    if x = 'x' ∨ x = 'X' then
      (if spanHex r = [] then JsNum.nan
       else intNum (sign * (((spanHex r).foldl (fun acc v => 16 * acc + v) 0 : Nat) : Int)))
    else intNum (sign * ((digitsToNat (spanDigits cs).1 : Nat) : Int))
  | _ =>
    if (spanDigits cs).1 = [] then JsNum.nan
    else intNum (sign * ((digitsToNat (spanDigits cs).1 : Nat) : Int))

/-- The function `parseInt` on the characters of a string. -/
def parseIntChars (cs : List Char) : JsNum :=
  match cs.dropWhile isJsWhiteSpace with
  | '-' :: r => parseIntUnsigned true r
  | '+' :: r => parseIntUnsigned false r
  | r => parseIntUnsigned false r

/-- First decimal digit of a natural number (the first argument bounds the
number of steps). -/
def leadingDigitNat : Nat → Nat → Nat
  | 0, n => n
  | f + 1, n => if n < 10 then n else leadingDigitNat f (n / 10)

/-- First significant decimal digit of `a / b` below one (the first argument
bounds the number of steps). -/
def leadingDigitFrac : Nat → Nat → Nat → Nat
  | 0, a, b => a / b
  | f + 1, a, b => if b ≤ a then a / b else leadingDigitFrac f (10 * a) b

/-- First significant decimal digit of a positive rational `a / b`. -/
def leadingDigit (a b : Nat) : Nat :=
  if b ≤ a then leadingDigitNat (a / b) (a / b) else leadingDigitFrac b a b

/-- The function `parseInt(v)`.  A number is first written out by `ToString`:
in positional notation when its size is in [1e-6, 1e21), which `parseInt`
truncates, and in exponent notation otherwise, of which `parseInt` reads the
leading digit. -/
def parseInt : JsVal → JsNum
  | JsVal.num (JsNum.fin q) =>
    if q = 0 then JsNum.fin 0
    else if mkRat 1 1000000 ≤ |q| ∧ |q| < 1000000000000000000000 then
      intNum (truncRat q)
    else intNum ((if q < 0 then -1 else 1) * ((leadingDigit q.num.natAbs q.den : Nat) : Int))
  | JsVal.str s => parseIntChars s.data
  | JsVal.obj s => parseIntChars s.data
  | _ => JsNum.nan

/-! ## Store, environment, responses -/

/-- The two JSON files, as what reading them returns. -/
structure Store where
  projects : List Obj
  progress : List Obj
  deriving DecidableEq

/-- What a handler gets from outside the request: the clock reading (ms since
the epoch; the clock reads of one request, `Date.now()` and each `new Date()`,
are taken as one reading) and whether `fs.writeFileSync` succeeds. -/
structure Env where
  now : Int
  writeOk : Bool

/-- The `data` (or `project` / `progress`) member of a response body. -/
inductive Payload where
  | none
  | record (o : Obj)
  | records (l : List Obj)
  deriving DecidableEq

/-- An HTTP answer: the status code and the members of the JSON body. -/
structure Response where
  status : Nat
  success : Option Bool
  error : Option String
  details : Option (List String)
  message : Option String
  data : Payload
  deriving DecidableEq

/-- The answer `res.status(code).json(\x7b success: false, error \x7d)`. -/
def failure (code : Nat) (error : String) : Response :=
  { status := code, success := some false, error := some error, details := Option.none,
    message := Option.none, data := Payload.none }

/-- The answer to a failed validation: 400 with the list of messages. -/
def validationFailure (errors : List String) : Response :=
  { status := 400, success := some false, error := some "資料驗證失敗",
    details := some errors, message := Option.none, data := Payload.none }

/-- A successful answer carrying one record. -/
def success (code : Nat) (message : Option String) (o : Obj) : Response :=
  { status := code, success := some true, error := Option.none, details := Option.none,
    message := message, data := Payload.record o }

/-- Array.prototype.findIndex, `none` for -1. -/
def findIndex (f : Obj → Bool) : List Obj → Option Nat
  | [] => Option.none
  | x :: xs => if f x then some 0 else (findIndex f xs).map (· + 1)

/-- The call `list.includes(v)` on a list of strings. -/
def includesStr (l : List String) : JsVal → Bool
  | JsVal.str s => decide (s ∈ l)
  | _ => false

/-- A time value as a number. -/
def timeNum (t : Int) : JsVal := JsVal.num (intNum t)

/-! ## routes/projects.js -/

/-- Message of the projectCode rule. -/
def msgCodeRequired : String := "專案代碼為必填欄位"

/-- Message of the name rule. -/
def msgNameRequired : String := "專案名稱為必填欄位"

/-- Message of the date-order rule. -/
def msgEndBeforeStart : String := "結束日期不能早於開始日期"

/-- Message of the status rule. -/
def msgStatusInvalid : String := "專案狀態無效"

/-- The constant `validStatuses`. -/
def validStatuses : List String := ["planning", "active", "on-hold", "completed"]

/-- The function `validateProjectData(project)`. -/
def validateProjectData (project : Obj) : Except JsError (List String) :=
  (isBlank (getField project "projectCode")).bind fun noCode =>
  (isBlank (getField project "name")).bind fun noName =>
  Except.ok (
    (if noCode then [msgCodeRequired] else []) ++
    (if noName then [msgNameRequired] else []) ++
    (if truthy (getField project "startDate") && truthy (getField project "endDate") &&
        dateLt (toDate (getField project "endDate")) (toDate (getField project "startDate"))
      then [msgEndBeforeStart] else []) ++
    (if truthy (getField project "status") &&
        !includesStr validStatuses (getField project "status")
      then [msgStatusInvalid] else []))

/-- The handler `router.get('/:projectCode')`. -/
def getProject (st : Store) (projectCode : String) : Response :=
  match st.projects.find? (fun p => strictEq (getField p "projectCode") (JsVal.str projectCode)) with
  | Option.none => failure 404 "專案不存在"
  | some project => success 200 Option.none project

/-- The object `newProject` built by the create handler. -/
def newProject (now : Int) (projectData : Obj) : Except JsError Obj :=
  (callTrim (getField projectData "projectCode")).bind fun code =>
  (callTrim (getField projectData "name")).bind fun name =>
  (if truthy (getField projectData "owner") then callTrim (getField projectData "owner")
    else Except.ok "").bind fun owner =>
  (if truthy (getField projectData "description")
    then callTrim (getField projectData "description") else Except.ok "").bind fun description =>
  Except.ok [
    ("id", timeNum now),
    ("projectCode", JsVal.str code),
    ("name", JsVal.str name),
    ("owner", JsVal.str owner),
    ("startDate", jsOr (getField projectData "startDate") (JsVal.str "")),
    ("endDate", jsOr (getField projectData "endDate") (JsVal.str "")),
    ("status", jsOr (getField projectData "status") (JsVal.str "planning")),
    ("description", JsVal.str description),
    ("createdAt", JsVal.str (toISOString now)),
    ("updatedAt", JsVal.str (toISOString now))]

/-- The handler `router.post('/')` of routes/projects.js. -/
def createProject (env : Env) (st : Store) (projectData : Obj) : Store × Response :=
  match validateProjectData projectData with
  | Except.error _ => (st, failure 500 "伺服器錯誤")
  | Except.ok validationErrors =>
    if validationErrors.length > 0 then (st, validationFailure validationErrors)
    else if st.projects.any
        (fun p => strictEq (getField p "projectCode") (getField projectData "projectCode")) then
      (st, failure 409 "專案代碼已存在")
    else
      match newProject env.now projectData with
      | Except.error _ => (st, failure 500 "伺服器錯誤")
      | Except.ok project =>
        if env.writeOk then
          ({ st with projects := st.projects ++ [project] },
            success 201 (some "專案建立成功") project)
        else (st, failure 500 "專案儲存失敗")

/-- The object `updatedProject` built by the update handler. -/
def updatedProject (now : Int) (old updateData : Obj) : Except JsError Obj :=
  let merged := setField (spread old updateData) "updatedAt" (JsVal.str (toISOString now))
  (if truthy (getField updateData "name")
    then (callTrim (getField updateData "name")).map fun t => setField merged "name" (JsVal.str t)
    else Except.ok merged).bind fun withName =>
  (if getField updateData "owner" ≠ JsVal.undefined
    then (callTrim (getField updateData "owner")).map fun t =>
      setField withName "owner" (JsVal.str t)
    else Except.ok withName).bind fun withOwner =>
  (if getField updateData "description" ≠ JsVal.undefined
    then (callTrim (getField updateData "description")).map fun t =>
      setField withOwner "description" (JsVal.str t)
    else Except.ok withOwner)

/-- The handler `router.put('/:projectCode')` of routes/projects.js. -/
def updateProject (env : Env) (st : Store) (projectCode : String) (updateData : Obj) :
    Store × Response :=
  match validateProjectData (setField updateData "projectCode" (JsVal.str projectCode)) with
  | Except.error _ => (st, failure 500 "伺服器錯誤")
  | Except.ok validationErrors =>
    if validationErrors.length > 0 then (st, validationFailure validationErrors)
    else
      match findIndex (fun p => strictEq (getField p "projectCode") (JsVal.str projectCode))
          st.projects with
      | Option.none => (st, failure 404 "專案不存在")
      | some projectIndex =>
        if truthy (getField updateData "projectCode") &&
            !strictEq (getField updateData "projectCode") (JsVal.str projectCode) &&
            st.projects.any
              (fun p => strictEq (getField p "projectCode") (getField updateData "projectCode"))
        then (st, failure 409 "新的專案代碼已存在")
        else
          match updatedProject env.now (st.projects.getD projectIndex []) updateData with
          | Except.error _ => (st, failure 500 "伺服器錯誤")
          | Except.ok project =>
            if env.writeOk then
              ({ st with projects := st.projects.set projectIndex project },
                success 200 (some "專案更新成功") project)
            else (st, failure 500 "專案更新失敗")

/-- The handler `router.delete('/:id')` of routes/projects.js. -/
def deleteProject (env : Env) (st : Store) (id : String) : Store × Response :=
  let projectId := parseInt (JsVal.str id)
  if projectId.isNaN then (st, failure 400 "無效的專案 ID")
  else
    match findIndex (fun p => strictEq (getField p "id") (JsVal.num projectId)) st.projects with
    | Option.none => (st, failure 404 "專案不存在")
    | some projectIndex =>
      if env.writeOk then
        ({ st with projects := st.projects.eraseIdx projectIndex },
          success 200 (some "專案刪除成功") (st.projects.getD projectIndex []))
      else (st, failure 500 "專案刪除失敗")

/-- One round of the `forEach` of a batch handler: the record whose id is
`parseInt(id)`, if there is one, gets `field = value` and a new `updatedAt`, and
is pushed on the list of updated records. -/
def batchStep (now : Int) (field : String) (value : JsVal)
    (acc : List Obj × List Obj) (id : JsVal) : List Obj × List Obj :=
  match findIndex (fun p => strictEq (getField p "id") (JsVal.num (parseInt id))) acc.1 with
  | Option.none => acc
  | some i =>
    let updated := setField (setField (acc.1.getD i []) field value) "updatedAt"
      (JsVal.str (toISOString now))
    (acc.1.set i updated, acc.2 ++ [updated])

/-- The handler `router.patch('/batch/status')` of routes/projects.js.
`projectIds` is `none` when the member is not an array. -/
def batchStatus (env : Env) (st : Store) (projectIds : Option (List JsVal)) (status : JsVal) :
    Store × Response :=
  match projectIds with
  | Option.none => (st, failure 400 "請提供有效的專案 ID 陣列")
  | some ids =>
    if ids.length = 0 then (st, failure 400 "請提供有效的專案 ID 陣列")
    else if !includesStr validStatuses status then (st, failure 400 "無效的專案狀態")
    else
      let result := ids.foldl (batchStep env.now "status" status) (st.projects, [])
      if env.writeOk then
        ({ st with projects := result.1 },
          { status := 200, success := some true, error := Option.none, details := Option.none,
            message := some ("成功更新 " ++ toString result.2.length ++ " 個專案狀態"),
            data := Payload.records result.2 })
      else (st, failure 500 "批量更新失敗")

/-! ## routes/progress.js -/

/-- Message of the reporter rule. -/
def msgReporterRequired : String := "回報人為必填欄位"

/-- Message of the date rule when the date is missing. -/
def msgDateRequired : String := "回報日期為必填欄位"

/-- Message of the date rule when the date does not parse. -/
def msgDateInvalid : String := "無效的日期格式"

/-- Message of the date rule when the date is too far ahead. -/
def msgDateFuture : String := "回報日期不能超過未來 7 天"

/-- Message of the work-hours rule. -/
def msgHoursRange : String := "工作時數必須在 0-24 小時之間"

/-- Message of the needHelp rule. -/
def msgHelpInvalid : String := "是否需要協助欄位值無效"

/-- The constant `validHelpOptions`. -/
def validHelpOptions : List String := ["是", "否"]

/-- The date branch of `validateProgressData`; `now` is the reading of
`new Date()`. -/
def dateErrors (now : Int) (date : JsVal) : List String :=
  if !truthy date then [msgDateRequired]
  else
    match toDate date with
    | Option.none => [msgDateInvalid]
    | some reportDate =>
      if now + 7 * 24 * 60 * 60 * 1000 < reportDate then [msgDateFuture] else []

/-- The test `isNaN(hours) || hours < 0 || hours > 24`. -/
def hoursOutOfRange (hours : JsNum) : Bool :=
  hours.isNaN || hours.lt (JsNum.fin 0) || (JsNum.fin 24).lt hours

/-- The function `validateProgressData(progress)`, run at clock reading `now`.
The two tests that can throw come first; the messages are in the order in which
the source pushes them. -/
def validateProgressData (now : Int) (progress : Obj) : Except JsError (List String) :=
  (isBlank (getField progress "reporter")).bind fun noReporter =>
  (isBlank (getField progress "projectCode")).bind fun noCode =>
  Except.ok (
    (if noReporter then [msgReporterRequired] else []) ++
    dateErrors now (getField progress "date") ++
    (if noCode then [msgCodeRequired] else []) ++
    (if getField progress "workHours" ≠ JsVal.undefined ∧
        hoursOutOfRange (parseFloat (getField progress "workHours"))
      then [msgHoursRange] else []) ++
    (if truthy (getField progress "needHelp") &&
        !includesStr validHelpOptions (getField progress "needHelp")
      then [msgHelpInvalid] else []))

/-- The function `checkProjectExists(projectCode)`. -/
def checkProjectExists (st : Store) (projectCode : JsVal) : Bool :=
  st.projects.any (fun p => strictEq (getField p "projectCode") projectCode)

/-- The object `newProgress` built by the create handler of routes/progress.js. -/
def newProgress (now : Int) (progressData : Obj) : Except JsError Obj :=
  (callTrim (getField progressData "reporter")).bind fun reporter =>
  (callTrim (getField progressData "projectCode")).bind fun code =>
  (if truthy (getField progressData "content") then callTrim (getField progressData "content")
    else Except.ok "").bind fun content =>
  (if truthy (getField progressData "blocker") then callTrim (getField progressData "blocker")
    else Except.ok "").bind fun blocker =>
  (if truthy (getField progressData "plan") then callTrim (getField progressData "plan")
    else Except.ok "").bind fun plan =>
  Except.ok [
    ("id", timeNum now),
    ("reporter", JsVal.str reporter),
    ("date", getField progressData "date"),
    ("projectCode", JsVal.str code),
    ("workHours", numOr (parseFloat (getField progressData "workHours")) (JsVal.num (JsNum.fin 0))),
    ("content", JsVal.str content),
    ("blocker", JsVal.str blocker),
    ("needHelp", jsOr (getField progressData "needHelp") (JsVal.str "否")),
    ("plan", JsVal.str plan),
    ("createdAt", JsVal.str (toISOString now)),
    ("updatedAt", JsVal.str (toISOString now))]

/-- The handler `router.post('/')` of routes/progress.js. -/
def createProgress (env : Env) (st : Store) (progressData : Obj) : Store × Response :=
  match validateProgressData env.now progressData with
  | Except.error _ => (st, failure 500 "伺服器錯誤")
  | Except.ok validationErrors =>
    if validationErrors.length > 0 then (st, validationFailure validationErrors)
    else if !checkProjectExists st (getField progressData "projectCode") then
      (st, failure 400 "指定的專案不存在")
    else
      match newProgress env.now progressData with
      | Except.error _ => (st, failure 500 "伺服器錯誤")
      | Except.ok report =>
        if env.writeOk then
          ({ st with progress := st.progress ++ [report] },
            success 201 (some "進度回報建立成功") report)
        else (st, failure 500 "進度回報儲存失敗")

/-- One of the conditional trims of the update handler: `field` of `o` becomes
the trimmed request value when `present` holds. -/
def trimInto (o : Obj) (updateData : Obj) (field : String) (present : Bool) : Except JsError Obj :=
  if present then
    (callTrim (getField updateData field)).map fun t => setField o field (JsVal.str t)
  else Except.ok o

/-- The object `updatedProgress` built by the update handler. -/
def updatedProgress (now : Int) (old updateData : Obj) : Except JsError Obj :=
  let merged := setField (setField (spread old updateData) "workHours"
      (numOr (parseFloat (getField updateData "workHours")) (getField old "workHours")))
    "updatedAt" (JsVal.str (toISOString now))
  (trimInto merged updateData "reporter" (truthy (getField updateData "reporter"))).bind fun o1 =>
  (trimInto o1 updateData "projectCode" (truthy (getField updateData "projectCode"))).bind fun o2 =>
  (trimInto o2 updateData "content"
    (decide (getField updateData "content" ≠ JsVal.undefined))).bind fun o3 =>
  (trimInto o3 updateData "blocker"
    (decide (getField updateData "blocker" ≠ JsVal.undefined))).bind fun o4 =>
  trimInto o4 updateData "plan" (decide (getField updateData "plan" ≠ JsVal.undefined))

/-- The handler `router.put('/:id')` of routes/progress.js. -/
def updateProgress (env : Env) (st : Store) (id : String) (updateData : Obj) :
    Store × Response :=
  let progressId := parseInt (JsVal.str id)
  if progressId.isNaN then (st, failure 400 "無效的回報 ID")
  else
    match validateProgressData env.now updateData with
    | Except.error _ => (st, failure 500 "伺服器錯誤")
    | Except.ok validationErrors =>
      if validationErrors.length > 0 then (st, validationFailure validationErrors)
      else if truthy (getField updateData "projectCode") &&
          !checkProjectExists st (getField updateData "projectCode") then
        (st, failure 400 "指定的專案不存在")
      else
        match findIndex (fun p => strictEq (getField p "id") (JsVal.num progressId))
            st.progress with
        | Option.none => (st, failure 404 "進度回報不存在")
        | some reportIndex =>
          match updatedProgress env.now (st.progress.getD reportIndex []) updateData with
          | Except.error _ => (st, failure 500 "伺服器錯誤")
          | Except.ok report =>
            if env.writeOk then
              ({ st with progress := st.progress.set reportIndex report },
                success 200 (some "進度回報更新成功") report)
            else (st, failure 500 "進度回報更新失敗")

/-! ## server.js -/

/-- The object `newProgress` built by `app.post('/api/progress')`. -/
def serverNewProgress (now : Int) (body : Obj) : Obj := [
  ("id", timeNum now),
  ("reporter", getField body "reporter"),
  ("date", getField body "date"),
  ("projectCode", getField body "projectCode"),
  ("workHours", numOr (parseFloat (getField body "workHours")) (JsVal.num (JsNum.fin 0))),
  ("content", jsOr (getField body "content") (JsVal.str "")),
  ("blocker", jsOr (getField body "blocker") (JsVal.str "")),
  ("needHelp", jsOr (getField body "needHelp") (JsVal.str "否")),
  ("plan", jsOr (getField body "plan") (JsVal.str "")),
  ("createdAt", JsVal.str (toISOString now))]

/-- The answer `res.status(code).json(\x7b error \x7d)` of server.js. -/
def serverFailure (code : Nat) (error : String) : Response :=
  { status := code, success := Option.none, error := some error, details := Option.none,
    message := Option.none, data := Payload.none }

/-- The handler `app.post('/api/progress')` of server.js. -/
def serverPostProgress (env : Env) (st : Store) (body : Obj) : Store × Response :=
  let report := serverNewProgress env.now body
  if !truthy (getField report "reporter") || !truthy (getField report "date") ||
      !truthy (getField report "projectCode") then
    (st, serverFailure 400 "回報人、日期和專案代碼為必填欄位")
  else if env.writeOk then
    ({ st with progress := st.progress ++ [report] },
      { status := 201, success := some true, error := Option.none, details := Option.none,
        message := Option.none, data := Payload.record report })
  else (st, serverFailure 500 "進度回報儲存失敗")

/-! ## Properties and sample data -/

/-- No two projects of the collection share a projectCode. -/
def uniqueCodes (projects : List Obj) : Prop :=
  (projects.map fun p => getField p "projectCode").Nodup

instance (projects : List Obj) : Decidable (uniqueCodes projects) := by
  unfold uniqueCodes; infer_instance

/-- A request value after the optional trim of a create handler: the trimmed
string, or the empty string for a value that is not a string. -/
def trimmedOrEmpty : JsVal → JsVal
  | JsVal.str s => JsVal.str (jsTrim s)
  | _ => JsVal.str ""

/-- Store used by the examples: one project with code `PRJ-001`. -/
def sampleStore : Store :=
  { projects := [[("id", timeNum 1717200000000), ("projectCode", JsVal.str "PRJ-001"),
      ("name", JsVal.str "Website"), ("owner", JsVal.str ""), ("startDate", JsVal.str ""),
      ("endDate", JsVal.str ""), ("status", JsVal.str "planning"),
      ("description", JsVal.str ""), ("createdAt", JsVal.str "2024-06-01T00:00:00.000Z"),
      ("updatedAt", JsVal.str "2024-06-01T00:00:00.000Z")]],
    progress := [] }

/-- Environment used by the examples: 2025-06-10T12:34:56.789Z, writes succeed. -/
def sampleEnv : Env := { now := 1749558896789, writeOk := true }

/-- The sample store after `PUT /PRJ-001` renamed its project to `" PRJ-009 "`:
the update handler stores the new code as the request wrote it. -/
def renamedStore : Store :=
  (updateProject sampleEnv sampleStore "PRJ-001"
    [("name", JsVal.str "Website"), ("projectCode", JsVal.str " PRJ-009 ")]).1

/-- A report request naming the project code `" PRJ-009 "`. -/
def paddedReport : Obj :=
  [("reporter", JsVal.str "amy"), ("date", JsVal.str "2025-06-10"),
    ("projectCode", JsVal.str " PRJ-009 "), ("workHours", JsVal.num (JsNum.fin 8))]

/-- A report request naming a project code that no project carries. -/
def orphanReport : Obj :=
  [("reporter", JsVal.str "amy"), ("date", JsVal.str "2025-06-10"),
    ("projectCode", JsVal.str "NOPE"), ("workHours", JsVal.num (JsNum.fin 8))]

/-- The value is a string with something besides white space in it. -/
def nonBlank (v : JsVal) : Prop := ∃ s, v = JsVal.str s ∧ jsTrim s ≠ ""

/-- The value is a string or is falsy (`undefined`, `null`, `false`, `0`, `NaN`):
the values on which `!v || v.trim() === ''` does not throw. -/
def strOrFalsy (v : JsVal) : Prop := truthy v = false ∨ ∃ s, v = JsVal.str s

/-- The value parses, with `parseFloat`, to a number `h` with `0 ≤ h ≤ 24`. -/
def parsesInRange (v : JsVal) : Prop :=
  ∃ h : Rat, parseFloat v = JsNum.fin h ∧ 0 ≤ h ∧ h ≤ 24

/-- The messages of `validateProgressData` in rule order. -/
def progressMessages : List String :=
  [msgReporterRequired, msgDateRequired, msgDateInvalid, msgDateFuture, msgCodeRequired,
    msgHoursRange, msgHelpInvalid]

/-- The messages of `validateProjectData` in rule order. -/
def projectMessages : List String :=
  [msgCodeRequired, msgNameRequired, msgEndBeforeStart, msgStatusInvalid]

/-- A store with two projects, `PRJ-001` and `PRJ-002`. -/
def twoProjects : Store :=
  { projects := sampleStore.projects ++
      [[("id", timeNum 1717300000000), ("projectCode", JsVal.str "PRJ-002"),
        ("name", JsVal.str "Shop"), ("owner", JsVal.str ""), ("startDate", JsVal.str ""),
        ("endDate", JsVal.str ""), ("status", JsVal.str "active"),
        ("description", JsVal.str ""), ("createdAt", JsVal.str "2024-06-02T03:46:40.000Z"),
        ("updatedAt", JsVal.str "2024-06-02T03:46:40.000Z")]],
    progress := [] }

/-- The two-project store after `PUT /PRJ-001` with an empty `projectCode` in
the body. -/
def blankedStore : Store :=
  (updateProject sampleEnv twoProjects "PRJ-001"
    [("name", JsVal.str "Website"), ("projectCode", JsVal.str "")]).1

/-! ## More of the language: arithmetic, comparison, strings, sorting, slicing -/

/-- Sum of two rationals, on numerators and denominators. -/
def ratAdd (a b : Rat) : Rat := mkRat (a.num * b.den + b.num * a.den) (a.den * b.den)

/-- Product of two rationals, on numerators and denominators. -/
def ratMul (a b : Rat) : Rat := mkRat (a.num * b.num) (a.den * b.den)

/-- Quotient of two rationals, the second not zero, on numerators and
denominators. -/
def ratDiv (a b : Rat) : Rat := mkRat (a.num * b.den * b.num.sign) (a.den * b.num.natAbs)

/-- Least integer not below a rational. -/
def ceilRat (q : Rat) : Int := - Rat.floor (- q)

/-- Unary minus on numbers. -/
def JsNum.neg : JsNum → JsNum
  | JsNum.nan => JsNum.nan
  | JsNum.inf s => JsNum.inf (!s)
  | JsNum.fin q => JsNum.fin (- q)

/-- The operator `+` on whole numbers (indices, page numbers): the exact sum,
which is the binary64 sum while it stays below `2 ^ 53`.  The `+` that adds
`workHours` is `JsNum.addDouble`. -/
def JsNum.add : JsNum → JsNum → JsNum
  | JsNum.fin a, JsNum.fin b => JsNum.fin (ratAdd a b)
  | JsNum.fin _, JsNum.inf s => JsNum.inf s
  | JsNum.inf s, JsNum.fin _ => JsNum.inf s
  | JsNum.inf s, JsNum.inf t => if s = t then JsNum.inf s else JsNum.nan
  | _, _ => JsNum.nan

/-- The operator `-` on whole numbers. -/
def JsNum.sub (a b : JsNum) : JsNum := JsNum.add a (JsNum.neg b)

/-- The operator `*` on whole numbers: the exact product, which is the
binary64 product while it stays below `2 ^ 53`. -/
def JsNum.mul : JsNum → JsNum → JsNum
  | JsNum.fin a, JsNum.fin b => JsNum.fin (ratMul a b)
  | JsNum.fin a, JsNum.inf s =>
    if a = 0 then JsNum.nan else JsNum.inf (if a < 0 then !s else s)
  | JsNum.inf s, JsNum.fin b =>
    if b = 0 then JsNum.nan else JsNum.inf (if b < 0 then !s else s)
  | JsNum.inf s, JsNum.inf t => JsNum.inf (s != t)
  | _, _ => JsNum.nan

/-- The operator `/` where the quotient goes into `Math.ceil` (a count by a
limit, milliseconds by a day): the exact quotient.  With whole operands below
`2 ^ 53` the ceiling of the binary64 quotient is the ceiling of the exact one.
There is no negative zero here: a division by zero takes the sign of the
dividend.  The `/` of the average is `JsNum.divDouble`. -/
def JsNum.div : JsNum → JsNum → JsNum
  | JsNum.fin a, JsNum.fin b =>
    if b = 0 then (if a = 0 then JsNum.nan else JsNum.inf (decide (a < 0)))
    else JsNum.fin (ratDiv a b)
  | JsNum.fin _, JsNum.inf _ => JsNum.fin 0
  | JsNum.inf s, JsNum.fin b => JsNum.inf (if b < 0 then !s else s)
  | _, _ => JsNum.nan

/-- The operator `+` on two numbers in binary64 arithmetic: the Number value of
the exact sum. -/
def JsNum.addDouble : JsNum → JsNum → JsNum
  | JsNum.fin a, JsNum.fin b => roundDouble (ratAdd a b)
  | JsNum.fin _, JsNum.inf s => JsNum.inf s
  | JsNum.inf s, JsNum.fin _ => JsNum.inf s
  | JsNum.inf s, JsNum.inf t => if s = t then JsNum.inf s else JsNum.nan
  | _, _ => JsNum.nan

/-- The operator `/` on two numbers in binary64 arithmetic: the Number value of
the exact quotient. -/
def JsNum.divDouble : JsNum → JsNum → JsNum
  | JsNum.fin a, JsNum.fin b =>
    if b = 0 then (if a = 0 then JsNum.nan else JsNum.inf (decide (a < 0)))
    else roundDouble (ratDiv a b)
  | JsNum.fin _, JsNum.inf _ => JsNum.fin 0
  | JsNum.inf s, JsNum.fin b => JsNum.inf (if b < 0 then !s else s)
  | _, _ => JsNum.nan

/-- The function `Math.ceil`. -/
def JsNum.ceil : JsNum → JsNum
  | JsNum.fin q => intNum (ceilRat q)
  | n => n

/-- A natural number as a number. -/
def natNum (n : Nat) : JsNum := intNum (n : Int)

/-- Does the list of characters begin with the given characters. -/
def startsWith : List Char → List Char → Bool
  | _, [] => true
  | [], _ :: _ => false
  | c :: cs, d :: ds => c = d && startsWith cs ds

/-- String.prototype.includes on the characters of two strings. -/
def containsChars : List Char → List Char → Bool
  | [], needle => needle.isEmpty
  | c :: cs, needle => startsWith (c :: cs) needle || containsChars cs needle

/-- The call `hay.includes(needle)` on two strings. -/
def strIncludes (hay needle : String) : Bool := containsChars hay.data needle.data

/-- The UTF-16 code units of a character. -/
def utf16Units (c : Char) : List Nat :=
  if c.toNat < 65536 then [c.toNat]
  else [55296 + (c.toNat - 65536) / 1024, 56320 + (c.toNat - 65536) % 1024]

/-- The UTF-16 code units of a string. -/
def toUtf16 (s : String) : List Nat := s.data.flatMap utf16Units

/-- Lexicographic order on code units. -/
def unitsLt : List Nat → List Nat → Bool
  | _, [] => false
  | [], _ :: _ => true
  | a :: as, b :: bs => a < b || (a = b && unitsLt as bs)

/-- The comparison `a < b` of two strings: by UTF-16 code units. -/
def strLt (a b : String) : Bool := unitsLt (toUtf16 a) (toUtf16 b)

/-- Is the text, after its sign, a whole StrDecimalLiteral other than
`Infinity`: digits with an optional fraction and an optional exponent. -/
def isDecimalBody (cs : List Char) : Bool :=
  let ip := (spanDigits cs).1
  let r1 := (spanDigits cs).2
  let fp := match r1 with
    | '.' :: r => (spanDigits r).1
    | _ => []
  let r2 := match r1 with
    | '.' :: r => (spanDigits r).2
    | _ => r1
  (!ip.isEmpty || !fp.isEmpty) &&
    (match r2 with
      | [] => true
      | e :: r =>
        (e = 'e' || e = 'E') &&
          (match r with
            | '-' :: r' => !(spanDigits r').1.isEmpty && (spanDigits r').2.isEmpty
            | '+' :: r' => !(spanDigits r').1.isEmpty && (spanDigits r').2.isEmpty
            | _ => !(spanDigits r).1.isEmpty && (spanDigits r).2.isEmpty))

/-- Value of digits in a radix, `none` when a digit is out of the radix or
there is no digit. -/
def radixValue (radix : Nat) (cs : List Char) : Option Nat :=
  if !cs.isEmpty && cs.all (fun c => match hexVal c with
      | some v => decide (v < radix)
      | none => false)
  then some (cs.foldl (fun acc c => radix * acc + (hexVal c).getD 0) 0) else none

/-- The unsigned part of `StringToNumber`. -/
def stringToNumberBody (cs : List Char) : JsNum :=
  match cs with
  | '0' :: x :: r =>
    if x = 'x' ∨ x = 'X' then ((radixValue 16 r).map natNum).getD JsNum.nan
    else if x = 'o' ∨ x = 'O' then ((radixValue 8 r).map natNum).getD JsNum.nan
    else if x = 'b' ∨ x = 'B' then ((radixValue 2 r).map natNum).getD JsNum.nan
    else if isDecimalBody cs then parseUnsigned false cs else JsNum.nan
  | _ =>
    if cs = "Infinity".data then JsNum.inf false
    else if isDecimalBody cs then parseUnsigned false cs else JsNum.nan

/-- The conversion `StringToNumber`: the whole trimmed text must be a numeric
literal; the empty text is 0. -/
def stringToNumber (s : String) : JsNum :=
  match trimChars s.data with
  | [] => JsNum.fin 0
  | '-' :: r =>
    if r = "Infinity".data then JsNum.inf true
    else if isDecimalBody r then JsNum.neg (parseUnsigned false r) else JsNum.nan
  | '+' :: r =>
    if r = "Infinity".data then JsNum.inf false
    else if isDecimalBody r then parseUnsigned false r else JsNum.nan
  | r => stringToNumberBody r

/-- The conversion `ToNumber`. -/
def toNumber : JsVal → JsNum
  | JsVal.undefined => JsNum.nan
  | JsVal.null => JsNum.fin 0
  | JsVal.bool b => JsNum.fin (if b then 1 else 0)
  | JsVal.num n => n
  | JsVal.str s => stringToNumber s
  | JsVal.obj s => stringToNumber s

/-- The text of a value that `ToPrimitive` turns into a string. -/
def primString : JsVal → Option String
  | JsVal.str s => some s
  | JsVal.obj s => some s
  | _ => Option.none

/-- The abstract relational comparison `a < b`: `none` when it is undefined
(one side is `NaN`).  Two strings compare by code units, anything else as
numbers. -/
def jsLt (a b : JsVal) : Option Bool :=
  match primString a, primString b with
  | some x, some y => some (strLt x y)
  | _, _ =>
    if (toNumber a).isNaN || (toNumber b).isNaN then Option.none
    else some ((toNumber a).lt (toNumber b))

/-- The operator `a >= b`. -/
def jsGe (a b : JsVal) : Bool := jsLt a b = some false

/-- The operator `a <= b`. -/
def jsLe (a b : JsVal) : Bool := jsLt b a = some false

/-- The built-ins whose result depends on Unicode or locale tables and on the
binary64 digits of a number; they are taken as given. -/
structure Engine where
  localeCompare : String → String → Int
  toLowerCase : String → String
  numToString : JsNum → String

/-- The conversion `ToString`. -/
def toStr (eng : Engine) : JsVal → String
  | JsVal.undefined => "undefined"
  | JsVal.null => "null"
  | JsVal.bool b => if b then "true" else "false"
  | JsVal.num n => eng.numToString n
  | JsVal.str s => s
  | JsVal.obj s => s

/-- The operator `a + b`: concatenation when one side is a string (or an
array or object, which `ToPrimitive` turns into a string), addition of numbers
otherwise. -/
def jsAdd (eng : Engine) (a b : JsVal) : JsVal :=
  if (primString a).isSome || (primString b).isSome then
    JsVal.str (toStr eng a ++ toStr eng b)
  else JsVal.num (JsNum.addDouble (toNumber a) (toNumber b))

/-- Insertion of an element before the first element it may precede. -/
def insertSorted (le : Obj → Obj → Bool) (a : Obj) : List Obj → List Obj
  | [] => [a]
  | b :: l => if le a b then a :: b :: l else b :: insertSorted le a l

/-- May `a` stay before `b` under a comparator: its result is not positive
(`NaN` counts as 0). -/
def notAfter (cmp : Obj → Obj → JsNum) (a b : Obj) : Bool := !(JsNum.fin 0).lt (cmp a b)

/-- Array.prototype.sort with a comparator, as a stable insertion sort.  When
the comparator is a consistent ordering every stable sort gives this result;
for another comparator ECMAScript leaves the order to the engine. -/
def jsSort (cmp : Obj → Obj → JsNum) (l : List Obj) : List Obj :=
  l.foldr (insertSorted (notAfter cmp)) []

/-- An index argument of `slice` relative to a length: `NaN` is 0, a negative
index counts from the end. -/
def relIndex (len : Nat) : JsNum → Nat
  | JsNum.nan => 0
  | JsNum.inf neg => if neg then 0 else len
  | JsNum.fin q =>
    if truncRat q < 0 then (len : Int).toNat - (- truncRat q).toNat
    else min (truncRat q).toNat len

/-- Array.prototype.slice(start, end). -/
def jsSlice (l : List Obj) (start stop : JsNum) : List Obj :=
  (l.drop (relIndex l.length start)).take
    (relIndex l.length stop - relIndex l.length start)

/-- Number.prototype.toFixed(1): the nearest tenth, a half going away from
zero.  From 1e21 on the method gives `ToString` of the number. -/
def toFixed1 (eng : Engine) : JsNum → String
  | JsNum.nan => "NaN"
  | JsNum.inf neg => if neg then "-Infinity" else "Infinity"
  | JsNum.fin q =>
    if 1000000000000000000000 ≤ q.num.natAbs / q.den then eng.numToString (JsNum.fin q)
    else
      let tenths := (20 * q.num.natAbs + q.den) / (2 * q.den)
      (if q < 0 then "-" else "") ++ toString (tenths / 10) ++ "." ++ toString (tenths % 10)

/-- An engine for the examples: code-unit order for `localeCompare`, ASCII
letters for `toLowerCase`, whole numbers for `numToString`. -/
def sampleEngine : Engine :=
  { localeCompare := fun a b => if strLt a b then -1 else if strLt b a then 1 else 0,
    toLowerCase := fun s => String.mk (s.data.map fun c =>
      if 65 ≤ c.toNat ∧ c.toNat ≤ 90 then Char.ofNat (c.toNat + 32) else c),
    numToString := fun n => match n with
      | JsNum.nan => "NaN"
      | JsNum.inf neg => if neg then "-Infinity" else "Infinity"
      | JsNum.fin q => toString (Rat.floor q) }

/-! ## routes/progress.js: the list queries -/

/-- A query parameter as a value: absent is `undefined`. -/
def param : Option String → JsVal
  | Option.none => JsVal.undefined
  | some s => JsVal.str s

/-- Is the query parameter given: present and not empty (truthy). -/
def given (p : Option String) : Bool := truthy (param p)

/-- The query parameters of `GET /api/progress`.  Each is absent or a string; a
repeated or bracketed parameter, which the query parser turns into an array or
an object, is outside the model. -/
structure ProgressQuery where
  projectCode : Option String
  reporter : Option String
  startDate : Option String
  endDate : Option String
  needHelp : Option String
  limit : Option String
  page : Option String
  sortBy : Option String
  sortOrder : Option String
  search : Option String

/-- Array.prototype.filter with a test that may throw. -/
def filterM (f : Obj → Except JsError Bool) : List Obj → Except JsError (List Obj)
  | [] => Except.ok []
  | x :: xs =>
    (f x).bind fun keep => (filterM f xs).bind fun rest =>
      Except.ok (if keep then x :: rest else rest)

/-- The call `v.includes(needle)` on a stored value: String.prototype.includes on
a string, a `TypeError` on a number or boolean.  An array has a method of that
name too; an array in this place is outside the model and is given as a
`TypeError`. -/
def callIncludes (v : JsVal) (needle : String) : Except JsError Bool :=
  match v with
  | JsVal.str s => Except.ok (strIncludes s needle)
  | _ => Except.error JsError.typeError

/-- The call `v.toLowerCase()`: a `TypeError` unless `v` is a string. -/
def callLower (eng : Engine) : JsVal → Except JsError String
  | JsVal.str s => Except.ok (eng.toLowerCase s)
  | _ => Except.error JsError.typeError

/-- The test `p.reporter && p.reporter.includes(reporter)`. -/
def reporterTest (reporter : String) (p : Obj) : Except JsError Bool :=
  if truthy (getField p "reporter") then callIncludes (getField p "reporter") reporter
  else Except.ok false

/-- The test `v && v.toLowerCase().includes(searchLower)`. -/
def fieldHas (eng : Engine) (v : JsVal) (searchLower : String) : Except JsError Bool :=
  if truthy v then (callLower eng v).map fun t => strIncludes t searchLower
  else Except.ok false

/-- The test of the keyword search: content, blocker and plan when truthy, then
the reporter, which is not guarded. -/
def searchTest (eng : Engine) (searchLower : String) (p : Obj) : Except JsError Bool :=
  (fieldHas eng (getField p "content") searchLower).bind fun inContent =>
  if inContent then Except.ok true else
  (fieldHas eng (getField p "blocker") searchLower).bind fun inBlocker =>
  if inBlocker then Except.ok true else
  (fieldHas eng (getField p "plan") searchLower).bind fun inPlan =>
  if inPlan then Except.ok true else
  (callLower eng (getField p "reporter")).map fun t => strIncludes t searchLower

/-- The filter stage of `router.get('/')`: one filter after the other, in the
order of the source. -/
def filterProgress (eng : Engine) (q : ProgressQuery) (progress : List Obj) :
    Except JsError (List Obj) :=
  let byCode := if given q.projectCode
    then progress.filter fun p => strictEq (getField p "projectCode") (param q.projectCode)
    else progress
  (if given q.reporter then filterM (reporterTest (q.reporter.getD "")) byCode
    else Except.ok byCode).bind fun byReporter =>
  let fromStart := if given q.startDate
    then byReporter.filter fun p => jsGe (getField p "date") (param q.startDate)
    else byReporter
  let toEnd := if given q.endDate
    then fromStart.filter fun p => jsLe (getField p "date") (param q.endDate)
    else fromStart
  let byHelp := if given q.needHelp
    then toEnd.filter fun p => strictEq (getField p "needHelp") (param q.needHelp)
    else toEnd
  if given q.search then filterM (searchTest eng (eng.toLowerCase (q.search.getD ""))) byHelp
  else Except.ok byHelp

/-- The constant `order` of the list query: 1 for `asc`, -1 otherwise. -/
def sortOrderOf (sortOrder : Option String) : Int := if sortOrder = some "asc" then 1 else -1

/-- The constant `sortField`: `sortBy || 'date'`. -/
def sortFieldOf (sortBy : Option String) : String := if given sortBy then sortBy.getD "" else "date"

/-- The value `parseFloat(v) || 0`. -/
def hoursKey (v : JsVal) : JsNum :=
  match numOr (parseFloat v) (JsVal.num (JsNum.fin 0)) with
  | JsVal.num n => n
  | _ => JsNum.fin 0

/-- The comparator of the list query.  For the field `date` the two values are
Date objects, for `workHours` numbers; two strings go through `localeCompare`;
anything else through `<` and `>`. -/
def sortCompare (eng : Engine) (sortField : String) (order : Int) (a b : Obj) : JsNum :=
  if sortField = "date" then
    if dateLt (toDate (getField a "date")) (toDate (getField b "date")) then intNum (-1 * order)
    else if dateLt (toDate (getField b "date")) (toDate (getField a "date")) then
      intNum (1 * order)
    else JsNum.fin 0
  else if sortField = "workHours" then
    if (hoursKey (getField a "workHours")).lt (hoursKey (getField b "workHours")) then
      intNum (-1 * order)
    else if (hoursKey (getField b "workHours")).lt (hoursKey (getField a "workHours")) then
      intNum (1 * order)
    else JsNum.fin 0
  else
    match getField a sortField, getField b sortField with
    | JsVal.str x, JsVal.str y => intNum (eng.localeCompare x y * order)
    | aVal, bVal =>
      if jsLt aVal bVal = some true then intNum (-1 * order)
      else if jsLt bVal aVal = some true then intNum (1 * order)
      else JsNum.fin 0

/-- The sort stage of `router.get('/')`. -/
def sortProgress (eng : Engine) (q : ProgressQuery) (progress : List Obj) : List Obj :=
  jsSort (sortCompare eng (sortFieldOf q.sortBy) (sortOrderOf q.sortOrder)) progress

/-- The pagination stage of `router.get('/')`. -/
def paginate (q : ProgressQuery) (progress : List Obj) : List Obj :=
  if given q.page && given q.limit then
    let pageNum := parseInt (param q.page)
    let limitNum := parseInt (param q.limit)
    let startIndex := JsNum.mul (JsNum.sub pageNum (JsNum.fin 1)) limitNum
    jsSlice progress startIndex (JsNum.add startIndex limitNum)
  else if given q.limit then jsSlice progress (JsNum.fin 0) (parseInt (param q.limit))
  else progress

/-- The member `pagination` of the answer of the list query. -/
structure Pagination where
  total : Nat
  page : JsNum
  limit : JsNum
  totalPages : JsNum
  deriving DecidableEq

/-- A number `n || d`. -/
def numOrNum (n d : JsNum) : JsNum := if truthy (JsVal.num n) then n else d

/-- The object `pagination` built by `router.get('/')` for `total` records. -/
def paginationOf (q : ProgressQuery) (total : Nat) : Pagination :=
  { total := total,
    page := numOrNum (parseInt (param q.page)) (JsNum.fin 1),
    limit := numOrNum (parseInt (param q.limit)) (natNum total),
    totalPages := if given q.limit
      then JsNum.ceil (JsNum.div (natNum total) (parseInt (param q.limit)))
      else JsNum.fin 1 }

/-- The answer of a list query: status, `success`, `error`, `data`, and `total`
or `pagination` where the handler sends them. -/
structure ListResponse where
  status : Nat
  success : Bool
  error : Option String
  data : List Obj
  total : Option Nat
  pagination : Option Pagination
  deriving DecidableEq

/-- A failed list query. -/
def listFailure (code : Nat) (error : String) : ListResponse :=
  { status := code, success := false, error := some error, data := [], total := Option.none,
    pagination := Option.none }

/-- The handler `router.get('/')` of routes/progress.js. -/
def listProgress (eng : Engine) (st : Store) (q : ProgressQuery) : ListResponse :=
  match filterProgress eng q st.progress with
  | Except.error _ => listFailure 500 "讀取進度資料失敗"
  | Except.ok filtered =>
    let progress := sortProgress eng q filtered
    { status := 200, success := true, error := Option.none, data := paginate q progress,
      total := Option.none, pagination := some (paginationOf q progress.length) }

/-- The difference `a - b` of two Date objects. -/
def dateDiff : Option Int → Option Int → JsNum
  | some a, some b => intNum (a - b)
  | _, _ => JsNum.nan

/-- The comparator `(new Date(a.date) - new Date(b.date)) * order`. -/
def dateCompare (order : Int) (a b : Obj) : JsNum :=
  JsNum.mul (dateDiff (toDate (getField a "date")) (toDate (getField b "date"))) (intNum order)

/-- The step `if (limit) progress = progress.slice(0, parseInt(limit))`. -/
def limitTo (limit : Option String) (progress : List Obj) : List Obj :=
  if given limit then jsSlice progress (JsNum.fin 0) (parseInt (param limit)) else progress

/-- The handler `router.get('/project/:projectCode')`. -/
def progressByProject (st : Store) (projectCode : String) (limit sortOrder : Option String) :
    ListResponse :=
  if !checkProjectExists st (JsVal.str projectCode) then listFailure 404 "專案不存在"
  else
    let matching := st.progress.filter fun p =>
      strictEq (getField p "projectCode") (JsVal.str projectCode)
    let progress := limitTo limit (jsSort (dateCompare (sortOrderOf sortOrder)) matching)
    { status := 200, success := true, error := Option.none, data := progress,
      total := some progress.length, pagination := Option.none }

/-- The handler `router.get('/reporter/:reporter')`. -/
def progressByReporter (st : Store) (reporter : String)
    (limit sortOrder startDate endDate : Option String) : ListResponse :=
  let matching := st.progress.filter fun p => strictEq (getField p "reporter") (JsVal.str reporter)
  let fromStart := if given startDate
    then matching.filter fun p => jsGe (getField p "date") (param startDate)
    else matching
  let toEnd := if given endDate
    then fromStart.filter fun p => jsLe (getField p "date") (param endDate)
    else fromStart
  let progress := limitTo limit (jsSort (dateCompare (sortOrderOf sortOrder)) toEnd)
  { status := 200, success := true, error := Option.none, data := progress,
    total := some progress.length, pagination := Option.none }

/-! ## The statistics handlers -/

/-- The reduction `progress.reduce((sum, p) => sum + (p.workHours || 0), 0)`. -/
def sumHours (eng : Engine) (progress : List Obj) : JsVal :=
  progress.foldl
    (fun sum p => jsAdd eng sum (jsOr (getField p "workHours") (JsVal.num (JsNum.fin 0))))
    (JsVal.num (JsNum.fin 0))

/-- The count `progress.filter(p => p.needHelp === '是').length`. -/
def countNeedHelp (progress : List Obj) : Nat :=
  (progress.filter fun p => strictEq (getField p "needHelp") (JsVal.str "是")).length

/-- The member `averageWorkHours` of the progress statistics: the text written
by `toFixed(1)`, or the number 0 for an empty collection. -/
def averageWorkHours (eng : Engine) (progress : List Obj) : JsVal :=
  if progress.length > 0 then
    JsVal.str (toFixed1 eng
      (JsNum.divDouble (toNumber (sumHours eng progress)) (natNum progress.length)))
  else JsVal.num (JsNum.fin 0)

/-- An entry of `byProject`. -/
structure ProjectStats where
  projectCode : JsVal
  projectName : JsVal
  reportCount : Nat
  totalHours : JsVal
  needHelpCount : Nat
  lastReportDate : JsVal
  deriving DecidableEq

/-- The comparator `(a, b) => new Date(b.date) - new Date(a.date)`. -/
def newestFirst (a b : Obj) : JsNum :=
  dateDiff (toDate (getField b "date")) (toDate (getField a "date"))

/-- The reports of a project: `progress.filter(p => p.projectCode === project.projectCode)`. -/
def reportsOf (progress : List Obj) (project : Obj) : List Obj :=
  progress.filter fun p => strictEq (getField p "projectCode") (getField project "projectCode")

/-- The entry that `byProject` computes for one project. -/
def projectEntry (eng : Engine) (progress : List Obj) (project : Obj) : ProjectStats :=
  { projectCode := getField project "projectCode",
    projectName := getField project "name",
    reportCount := (reportsOf progress project).length,
    totalHours := sumHours eng (reportsOf progress project),
    needHelpCount := countNeedHelp (reportsOf progress project),
    lastReportDate := if (reportsOf progress project).length > 0
      then getField ((jsSort newestFirst (reportsOf progress project)).headD []) "date"
      else JsVal.null }

/-- The member `byProject` of the progress statistics. -/
def statsByProject (eng : Engine) (st : Store) : List ProjectStats :=
  (st.projects.map (projectEntry eng st.progress)).filter fun e => decide (e.reportCount > 0)

/-- An entry of `byReporter`. -/
structure ReporterStats where
  reporter : JsVal
  reportCount : Nat
  totalHours : JsVal
  needHelpCount : Nat
  lastReportDate : JsVal
  deriving DecidableEq

/-- The property names every object inherits from `Object.prototype`.  Reading
one of them on the accumulator `acc` gives the inherited member, which is
truthy. -/
def protoKeys : List String :=
  ["constructor", "__proto__", "hasOwnProperty", "isPrototypeOf", "propertyIsEnumerable",
    "toLocaleString", "toString", "valueOf", "__defineGetter__", "__defineSetter__",
    "__lookupGetter__", "__lookupSetter__"]

/-- Own property read on the accumulator. -/
def lookupKey {β : Type} : List (String × β) → String → Option β
  | [], _ => Option.none
  | (k', v) :: rest, k => if k' = k then some v else lookupKey rest k

/-- Own property write on the accumulator: in place, or appended. -/
def setKey {β : Type} : List (String × β) → String → β → List (String × β)
  | [], k, v => [(k, v)]
  | (k', v') :: rest, k, v =>
    if k' = k then (k', v) :: rest else (k', v') :: setKey rest k v

/-- The entry a reporter starts with. -/
def freshReporter (report : Obj) : ReporterStats :=
  { reporter := getField report "reporter", reportCount := 0,
    totalHours := JsVal.num (JsNum.fin 0), needHelpCount := 0, lastReportDate := JsVal.null }

/-- The entry of a reporter after one more report. -/
def countReport (eng : Engine) (entry : ReporterStats) (report : Obj) : ReporterStats :=
  { reporter := entry.reporter,
    reportCount := entry.reportCount + 1,
    totalHours := jsAdd eng entry.totalHours
      (jsOr (getField report "workHours") (JsVal.num (JsNum.fin 0))),
    needHelpCount := if strictEq (getField report "needHelp") (JsVal.str "是")
      then entry.needHelpCount + 1 else entry.needHelpCount,
    lastReportDate := if !truthy entry.lastReportDate ||
        dateLt (toDate entry.lastReportDate) (toDate (getField report "date"))
      then getField report "date" else entry.lastReportDate }

/-- One round of the `reduce` of `byReporter`.  The accumulator starts as `{}`
and is indexed by `ToString` of the reporter.  When that name is one every
object inherits, `acc[name]` is the inherited member: it is truthy, so no entry
is made, and the four updates are written on that member, not on `acc` (for
`__proto__` on `Object.prototype` itself, an effect that outlasts the request
and is not modelled). -/
def reporterStep (eng : Engine) (acc : List (String × ReporterStats)) (report : Obj) :
    List (String × ReporterStats) :=
  if toStr eng (getField report "reporter") ∈ protoKeys then acc
  else
    setKey acc (toStr eng (getField report "reporter"))
      (countReport eng
        ((lookupKey acc (toStr eng (getField report "reporter"))).getD (freshReporter report))
        report)

/-- The array index a property name stands for, if it is one: the canonical
decimal text of an integer below 2^32 - 1. -/
def arrayIndex (k : String) : Option Nat :=
  match readDigits k.data with
  | some n => if toString n = k ∧ n < 4294967295 then some n else Option.none
  | Option.none => Option.none

/-- Insertion into a list ordered by index. -/
def insertIndexed {β : Type} (a : Nat × β) : List (Nat × β) → List (Nat × β)
  | [] => [a]
  | b :: l => if a.1 ≤ b.1 then a :: b :: l else b :: insertIndexed a l

/-- The function `Object.values`: the values under array-index names first, by
ascending index, then the others in the order of their creation. -/
def objectValues {β : Type} (acc : List (String × β)) : List β :=
  ((acc.filterMap fun kv => (arrayIndex kv.1).map fun n => (n, kv.2)).foldr insertIndexed
      []).map (fun e => e.2) ++
    (acc.filter fun kv => (arrayIndex kv.1).isNone).map fun kv => kv.2

/-- The member `byReporter` of the progress statistics. -/
def statsByReporter (eng : Engine) (progress : List Obj) : List ReporterStats :=
  objectValues (progress.foldl (reporterStep eng) [])

/-! ### routes/projects.js -/

/-- The comparator `(a, b) => new Date(b.createdAt) - new Date(a.createdAt)`. -/
def newestCreated (a b : Obj) : JsNum :=
  dateDiff (toDate (getField b "createdAt")) (toDate (getField a "createdAt"))

/-- The comparator `(a, b) => new Date(a.endDate) - new Date(b.endDate)`. -/
def earliestEnd (a b : Obj) : JsNum :=
  dateDiff (toDate (getField a "endDate")) (toDate (getField b "endDate"))

/-- The test `p.endDate && p.status !== 'completed'`. -/
def hasOpenDeadline (p : Obj) : Bool :=
  truthy (getField p "endDate") && !strictEq (getField p "status") (JsVal.str "completed")

/-- The member `daysUntilDeadline`:
`Math.ceil((new Date(p.endDate) - new Date()) / (1000 * 60 * 60 * 24))`. -/
def daysUntilDeadline (now : Int) (p : Obj) : JsNum :=
  JsNum.ceil (JsNum.div (dateDiff (toDate (getField p "endDate")) (some now))
    (JsNum.fin 86400000))

/-- The member `upcomingDeadlines` of the project statistics.  It is computed
after `recentProjects`, whose `projects.sort(...)` has by then reordered the
array in place (newest `createdAt` first). -/
def upcomingDeadlines (env : Env) (st : Store) : List Obj :=
  (((jsSort earliestEnd ((jsSort newestCreated st.projects).filter hasOpenDeadline)).take 5).map
    fun p => setField p "daysUntilDeadline" (JsVal.num (daysUntilDeadline env.now p)))

/-! ## Properties and sample data for the queries and statistics -/

/-- A stored report as the create handler writes it. -/
def sampleReport (id : Int) (reporter projectCode date : String) (hours : Rat)
    (needHelp : String) : Obj :=
  [("id", timeNum id), ("reporter", JsVal.str reporter), ("date", JsVal.str date),
    ("projectCode", JsVal.str projectCode), ("workHours", JsVal.num (JsNum.fin hours)),
    ("content", JsVal.str "Fixed Bug"), ("blocker", JsVal.str ""),
    ("needHelp", JsVal.str needHelp), ("plan", JsVal.str ""),
    ("createdAt", JsVal.str "2025-06-03T09:00:00.000Z"),
    ("updatedAt", JsVal.str "2025-06-03T09:00:00.000Z")]

/-- Two projects and three reports, all for `PRJ-001`: amy on 2025-06-01 (8 h),
bob on 2025-06-03 (8.5 h, needs help), amy on 2025-06-02 (4 h). -/
def reportStore : Store :=
  { projects := twoProjects.projects,
    progress := [sampleReport 1 "amy" "PRJ-001" "2025-06-01" 8 "否",
      sampleReport 2 "bob" "PRJ-001" "2025-06-03" (mkRat 17 2) "是",
      sampleReport 3 "amy" "PRJ-001" "2025-06-02" 4 "否"] }

/-- The query with no parameter. -/
def noQuery : ProgressQuery :=
  { projectCode := Option.none, reporter := Option.none, startDate := Option.none,
    endDate := Option.none, needHelp := Option.none, limit := Option.none, page := Option.none,
    sortBy := Option.none, sortOrder := Option.none, search := Option.none }

/-- The query `?page=..&limit=..`. -/
def pageQuery (page limit : String) : ProgressQuery :=
  { noQuery with page := some page, limit := some limit }

/-- The date of `a` is not later than the date of `b`, as parsed dates. -/
def notLater (a b : Obj) : Prop :=
  ∀ x y, toDate (getField a "date") = some x → toDate (getField b "date") = some y → x ≤ y

/-- A stored report whose text fields have the types of the data model:
reporter and date are strings; content, blocker and plan are strings or falsy. -/
def reportTyped (p : Obj) : Prop :=
  (∃ s, getField p "reporter" = JsVal.str s) ∧ (∃ d, getField p "date" = JsVal.str d) ∧
  strOrFalsy (getField p "content") ∧ strOrFalsy (getField p "blocker") ∧
  strOrFalsy (getField p "plan")

/-- The value is a string that contains the text. -/
def textContains (v : JsVal) (needle : String) : Bool :=
  match v with
  | JsVal.str s => strIncludes s needle
  | _ => false

/-- The value is a string that is not below the bound in string order. -/
def textAtLeast (v : JsVal) (bound : String) : Bool :=
  match v with
  | JsVal.str d => !strLt d bound
  | _ => false

/-- The value is a string that is not above the bound in string order. -/
def textAtMost (v : JsVal) (bound : String) : Bool :=
  match v with
  | JsVal.str d => !strLt bound d
  | _ => false

/-- The value is a string whose lower-case form contains the lower-case word. -/
def lowerContains (eng : Engine) (v : JsVal) (word : String) : Bool :=
  match v with
  | JsVal.str s => strIncludes (eng.toLowerCase s) (eng.toLowerCase word)
  | _ => false

/-- The report satisfies every filter that the query gives (a parameter that is
absent or empty gives none): projectCode equal; reporter containing the text;
startDate ≤ date and date ≤ endDate in string order; needHelp equal; the search
word, without regard to case, in a content, blocker or plan that is not empty
or in the reporter. -/
def matchesQuery (eng : Engine) (q : ProgressQuery) (p : Obj) : Bool :=
  (!given q.projectCode || decide (getField p "projectCode" = param q.projectCode)) &&
  (!given q.reporter || textContains (getField p "reporter") (q.reporter.getD "")) &&
  (!given q.startDate || textAtLeast (getField p "date") (q.startDate.getD "")) &&
  (!given q.endDate || textAtMost (getField p "date") (q.endDate.getD "")) &&
  (!given q.needHelp || decide (getField p "needHelp" = param q.needHelp)) &&
  (!given q.search ||
    (truthy (getField p "content") && lowerContains eng (getField p "content") (q.search.getD "")) ||
    (truthy (getField p "blocker") && lowerContains eng (getField p "blocker") (q.search.getD "")) ||
    (truthy (getField p "plan") && lowerContains eng (getField p "plan") (q.search.getD "")) ||
    lowerContains eng (getField p "reporter") (q.search.getD ""))

/-- The `workHours` of a report is a finite number, or a falsy value (absent,
`null`, `NaN`, `false`, the empty string), for which the sums take 0. -/
def hoursNumeric (p : Obj) : Prop :=
  (∃ h, getField p "workHours" = JsVal.num (JsNum.fin h)) ∨
    truthy (getField p "workHours") = false

/-- The hours that the sums add for a report: its `workHours` when that is a
finite number, 0 otherwise. -/
def hoursOf (p : Obj) : Rat :=
  match getField p "workHours" with
  | JsVal.num (JsNum.fin h) => h
  | _ => 0

/-- The sum of a list of hours as the reduce of the statistics adds it: from 0,
left to right, each `+` in binary64 arithmetic. -/
def sumDouble (hours : List Rat) : JsNum :=
  hours.foldl (fun sum h => JsNum.addDouble sum (JsNum.fin h)) (JsNum.fin 0)

/-- The quotient that `averageWorkHours` writes with `toFixed(1)`: the sum of
the hours divided by their number, in binary64 arithmetic. -/
def meanDouble (progress : List Obj) : JsNum :=
  JsNum.divDouble (sumDouble (progress.map hoursOf)) (natNum progress.length)

/-- The Number value of a decimal, 0 when it is not finite. -/
def doubleOf (q : Rat) : Rat :=
  match roundDouble q with
  | JsNum.fin r => r
  | _ => 0

/-- Two reports of 2.3 and 2.4 hours for `PRJ-001`. -/
def decimalHours : List Obj :=
  [sampleReport 1 "amy" "PRJ-001" "2025-06-01" (doubleOf (mkRat 23 10)) "否",
    sampleReport 2 "amy" "PRJ-001" "2025-06-02" (doubleOf (mkRat 24 10)) "否"]

/-- The two projects with the reports of `decimalHours`. -/
def decimalStore : Store :=
  { projects := twoProjects.projects, progress := decimalHours }

/-- The `date` of a report is a string that parses. -/
def dateOk (p : Obj) : Prop :=
  ∃ d t, getField p "date" = JsVal.str d ∧ toDate (JsVal.str d) = some t

/-- The value is the date of a report of the group, and no report of the group
has a later parsed date. -/
def latestIn (g : List Obj) (v : JsVal) : Prop :=
  ∃ r ∈ g, ∃ t, v = getField r "date" ∧ toDate v = some t ∧
    ∀ r' ∈ g, ∃ t', toDate (getField r' "date") = some t' ∧ t' ≤ t

/-- The property name under which `byReporter` counts a report. -/
def reporterKey (eng : Engine) (p : Obj) : String := toStr eng (getField p "reporter")

/-- The reports counted under a property name. -/
def reportsBy (eng : Engine) (progress : List Obj) (k : String) : List Obj :=
  progress.filter fun p => decide (reporterKey eng p = k)

/-- Two reports, the first by a reporter named `constructor`. -/
def inheritedNameReports : List Obj :=
  [sampleReport 1 "constructor" "PRJ-001" "2025-06-01" 8 "否",
    sampleReport 2 "amy" "PRJ-001" "2025-06-02" 4 "是"]

/-- The `endDate` of `a` is not later than the `endDate` of `b`, as parsed dates. -/
def endNotLater (a b : Obj) : Prop :=
  ∀ x y, toDate (getField a "endDate") = some x → toDate (getField b "endDate") = some y → x ≤ y

/-- A stored project with the given code, end date and status. -/
def sampleProject (id : Int) (projectCode endDate status : String) : Obj :=
  [("id", timeNum id), ("projectCode", JsVal.str projectCode), ("name", JsVal.str "Site"),
    ("owner", JsVal.str ""), ("startDate", JsVal.str ""), ("endDate", JsVal.str endDate),
    ("status", JsVal.str status), ("description", JsVal.str ""),
    ("createdAt", JsVal.str "2019-06-01T00:00:00.000Z"),
    ("updatedAt", JsVal.str "2019-06-01T00:00:00.000Z")]

/-- Three projects: one due at the end of 2025, one that was due on 2020-01-01
and is still active, one completed. -/
def overdueStore : Store :=
  { projects := [sampleProject 1 "NEW-001" "2025-12-31" "planning",
      sampleProject 2 "OLD-001" "2020-01-01" "active",
      sampleProject 3 "DONE-001" "2026-01-01" "completed"],
    progress := [] }

/-- The body of a `POST /api/progress` of server.js for a report of amy on
`PRJ-001` with the given `date`. -/
def datedBody (date : String) : Obj :=
  [("reporter", JsVal.str "amy"), ("date", JsVal.str date),
    ("projectCode", JsVal.str "PRJ-001"), ("workHours", JsVal.num (JsNum.fin 8))]

/-- The store after one `POST /api/progress` of server.js per date, in the
order of the list, a millisecond apart. -/
def postDates (env : Env) (st : Store) : List String → Store
  | [] => st
  | d :: ds =>
    postDates { env with now := env.now + 1 } (serverPostProgress env st (datedBody d)).1 ds

/-- Five reports posted with the dates 2025-06-05, 2025-06-01, `bad`,
2025-06-03 and 2025-06-02. -/
def unsortedDates : Store :=
  postDates sampleEnv twoProjects ["2025-06-05", "2025-06-01", "bad", "2025-06-03", "2025-06-02"]

/-- Three reports posted with the dates `bad`, 2025-06-01 and 2025-06-03. -/
def badDateFirst : Store :=
  postDates sampleEnv twoProjects ["bad", "2025-06-01", "2025-06-03"]

/-! ## routes/progress.js: the remaining handlers and the router -/

/-- The handler `router.get('/:id')` of routes/progress.js. -/
def getProgress (st : Store) (id : String) : Response :=
  let progressId := parseInt (JsVal.str id)
  if progressId.isNaN then failure 400 "無效的回報 ID"
  else
    match st.progress.find? fun p => strictEq (getField p "id") (JsVal.num progressId) with
    | Option.none => failure 404 "進度回報不存在"
    | some report => success 200 Option.none report

/-- The handler `router.delete('/:id')` of routes/progress.js. -/
def deleteProgress (env : Env) (st : Store) (id : String) : Store × Response :=
  let progressId := parseInt (JsVal.str id)
  if progressId.isNaN then (st, failure 400 "無效的回報 ID")
  else
    match findIndex (fun p => strictEq (getField p "id") (JsVal.num progressId)) st.progress with
    | Option.none => (st, failure 404 "進度回報不存在")
    | some reportIndex =>
      if env.writeOk then
        ({ st with progress := st.progress.eraseIdx reportIndex },
          success 200 (some "進度回報刪除成功") (st.progress.getD reportIndex []))
      else (st, failure 500 "進度回報刪除失敗")

/-- The handler `router.patch('/batch/help-status')` of routes/progress.js.
`progressIds` is `none` when the member is not an array. -/
def batchHelpStatus (env : Env) (st : Store) (progressIds : Option (List JsVal))
    (needHelp : JsVal) : Store × Response :=
  match progressIds with
  | Option.none => (st, failure 400 "請提供有效的回報 ID 陣列")
  | some ids =>
    if ids.length = 0 then (st, failure 400 "請提供有效的回報 ID 陣列")
    else if !includesStr validHelpOptions needHelp then (st, failure 400 "無效的協助狀態")
    else
      let result := ids.foldl (batchStep env.now "needHelp" needHelp) (st.progress, [])
      if env.writeOk then
        ({ st with progress := result.1 },
          { status := 200, success := some true, error := Option.none, details := Option.none,
            message := some ("成功更新 " ++ toString result.2.length ++ " 個進度回報的協助狀態"),
            data := Payload.records result.2 })
      else (st, failure 500 "批量更新失敗")

/-- The object the need-help handler returns for a report: the report with the
name and owner of the first project carrying its code. -/
def withProject (projects : List Obj) (report : Obj) : Obj :=
  match projects.find? fun p =>
      strictEq (getField p "projectCode") (getField report "projectCode") with
  | some project =>
    setField (setField report "projectName" (getField project "name")) "projectOwner"
      (getField project "owner")
  | Option.none =>
    setField (setField report "projectName" (JsVal.str "未知專案")) "projectOwner" JsVal.null

/-- The handler `router.get('/need-help')` of routes/progress.js. -/
def needHelpReports (st : Store) (limit projectCode : Option String) : ListResponse :=
  let needing := st.progress.filter fun p => strictEq (getField p "needHelp") (JsVal.str "是")
  let byCode := if given projectCode
    then needing.filter fun p => strictEq (getField p "projectCode") (param projectCode)
    else needing
  let progress := limitTo limit (jsSort newestFirst byCode)
  { status := 200, success := true, error := Option.none,
    data := progress.map (withProject st.projects),
    total := some (progress.map (withProject st.projects)).length, pagination := Option.none }

/-- HTTP methods the routers use. -/
inductive Method where
  | get
  | post
  | put
  | delete
  | patch
  deriving DecidableEq

/-- A segment of a route path: fixed text, or a named parameter (`:id`), which
stands for any one segment that is not empty. -/
inductive Seg where
  | lit (s : String)
  | par (name : String)
  deriving DecidableEq

/-- The handlers of routes/progress.js, by the path they are declared under. -/
inductive ProgressHandler where
  | list
  | byId
  | create
  | update
  | remove
  | statsSummary
  | byProject
  | byReporter
  | batchHelp
  | needHelp
  deriving DecidableEq

/-- The routes of routes/progress.js in the order of their declaration (lines
94, 210, 246, 309, 389, 436, 551, 591, 631, 685). -/
def progressRoutes : List (Method × List Seg × ProgressHandler) :=
  [(Method.get, [], ProgressHandler.list),
    (Method.get, [Seg.par "id"], ProgressHandler.byId),
    (Method.post, [], ProgressHandler.create),
    (Method.put, [Seg.par "id"], ProgressHandler.update),
    (Method.delete, [Seg.par "id"], ProgressHandler.remove),
    (Method.get, [Seg.lit "stats", Seg.lit "summary"], ProgressHandler.statsSummary),
    (Method.get, [Seg.lit "project", Seg.par "projectCode"], ProgressHandler.byProject),
    (Method.get, [Seg.lit "reporter", Seg.par "reporter"], ProgressHandler.byReporter),
    (Method.patch, [Seg.lit "batch", Seg.lit "help-status"], ProgressHandler.batchHelp),
    (Method.get, [Seg.lit "need-help"], ProgressHandler.needHelp)]

/-- Does a route path match the segments of a request path. -/
def pathMatches : List Seg → List String → Bool
  | [], [] => true
  | Seg.lit s :: ps, x :: xs => decide (s = x) && pathMatches ps xs
  | Seg.par _ :: ps, x :: xs => decide (x ≠ "") && pathMatches ps xs
  | _, _ => false

/-- The value of the first parameter of a route path on a request path. -/
def firstParam : List Seg → List String → String
  | Seg.par _ :: _, x :: _ => x
  | _ :: ps, _ :: xs => firstParam ps xs
  | _, _ => ""

/-- Dispatch of an Express router: the routes are tried in the order of their
declaration and the first whose method and path match runs; its handler answers
the request (no handler of this router calls `next`).  The result is the
handler and the value of its path parameter. -/
def dispatch {h : Type} (routes : List (Method × List Seg × h)) (m : Method)
    (path : List String) : Option (h × String) :=
  (routes.find? fun r => decide (r.1 = m) && pathMatches r.2.1 path).map fun r =>
    (r.2.2, firstParam r.2.1 path)

/-! ## The frontend: assets/js/components -/

/-- The result of a frontend validator. -/
structure Validation where
  isValid : Bool
  errors : List String
  deriving DecidableEq

/-- The method `Progress.validateProgressData(data)` of components/progress.js,
run at clock reading `now`.  The reporter test is the only one that can throw. -/
def frontValidateProgressData (now : Int) (data : Obj) : Except JsError Validation :=
  (isBlank (getField data "reporter")).bind fun noReporter =>
  let errors :=
    (if noReporter then ["回報人為必填欄位"] else []) ++
    (if !truthy (getField data "date") then ["回報日期為必填欄位"]
      else if dateLt (some (now + 24 * 60 * 60 * 1000)) (toDate (getField data "date"))
        then ["回報日期不能是未來日期"] else []) ++
    (if !truthy (getField data "projectCode") then ["請選擇專案"] else []) ++
    (if getField data "workHours" ≠ JsVal.undefined ∧
        hoursOutOfRange (parseFloat (getField data "workHours"))
      then [msgHoursRange] else []) ++
    (if !truthy (getField data "content") && !truthy (getField data "blocker") &&
        !truthy (getField data "plan")
      then ["請至少填寫一個內容欄位（完成項目、遇到問題或明日計劃）"] else [])
  Except.ok { isValid := decide (errors.length = 0), errors := errors }

/-- The test of the `overdue` count in `Projects.calculateStats` of
components/projects.js; `now` is the reading of `new Date()`. -/
def countsOverdue (now : Int) (p : Obj) : Bool :=
  if !truthy (getField p "endDate") || strictEq (getField p "status") (JsVal.str "completed")
  then false
  else dateLt (toDate (getField p "endDate")) (some now)

/-- The member `overdue` of `Projects.calculateStats()`. -/
def overdueCount (now : Int) (projects : List Obj) : Nat :=
  (projects.filter (countsOverdue now)).length

/-- The result of `Projects.calculateProgressDays`. -/
structure ProgressDays where
  daysText : Option String
  isOverdue : Bool
  deriving DecidableEq

/-- The function `Math.abs`. -/
def JsNum.abs : JsNum → JsNum
  | JsNum.nan => JsNum.nan
  | JsNum.inf _ => JsNum.inf false
  | JsNum.fin q => JsNum.fin (if q < 0 then - q else q)

/-- The value `diffDays` of `Projects.calculateProgressDays`:
`Math.ceil((endDate - now) / (1000 * 60 * 60 * 24))`. -/
def diffDays (now : Int) (project : Obj) : JsNum :=
  JsNum.ceil (JsNum.div (dateDiff (toDate (getField project "endDate")) (some now))
    (JsNum.fin 86400000))

/-- The method `Projects.calculateProgressDays(project)` of
components/projects.js. -/
def calculateProgressDays (eng : Engine) (now : Int) (project : Obj) : ProgressDays :=
  if !truthy (getField project "endDate") then { daysText := Option.none, isOverdue := false }
  else if strictEq (getField project "status") (JsVal.str "completed") then
    { daysText := some "已完成", isOverdue := false }
  else if (diffDays now project).lt (JsNum.fin 0) then
    { daysText := some ("逾期 " ++ eng.numToString (diffDays now project).abs ++ " 天"),
      isOverdue := true }
  else if strictEq (JsVal.num (diffDays now project)) (JsVal.num (JsNum.fin 0)) then
    { daysText := some "今天截止", isOverdue := false }
  else if (diffDays now project).lt (JsNum.fin 7) ||
      strictEq (JsVal.num (diffDays now project)) (JsVal.num (JsNum.fin 7)) then
    { daysText := some (eng.numToString (diffDays now project) ++ " 天內截止"),
      isOverdue := false }
  else { daysText := Option.none, isOverdue := false }

/-! ### components/report.js -/

/-- The object `currentFilters` of the Reports module. -/
structure Filters where
  search : String
  projectCode : String
  reporter : String
  startDate : String
  endDate : String
  needHelp : String
  sortBy : String
  sortOrder : String
  deriving DecidableEq

/-- The state of the Reports module that its paging reads and writes.  The
page numbers are the integers the pagination buttons pass. -/
structure Reports where
  progressReports : List Obj
  filteredReports : List Obj
  currentFilters : Filters
  currentPage : Int
  pageSize : Nat
  totalPages : JsNum

/-- The state the constructor leaves. -/
def Reports.initial : Reports :=
  { progressReports := [], filteredReports := [],
    currentFilters :=
      { search := "", projectCode := "", reporter := "", startDate := "", endDate := "",
        needHelp := "", sortBy := "date", sortOrder := "desc" },
    currentPage := 1, pageSize := 20, totalPages := JsNum.fin 1 }

/-- The test of the keyword search of `applyFilters`: content, blocker and plan
when truthy, then the reporter and the project code, which are not guarded. -/
def frontSearchTest (eng : Engine) (searchLower : String) (report : Obj) :
    Except JsError Bool :=
  (fieldHas eng (getField report "content") searchLower).bind fun inContent =>
  if inContent then Except.ok true else
  (fieldHas eng (getField report "blocker") searchLower).bind fun inBlocker =>
  if inBlocker then Except.ok true else
  (fieldHas eng (getField report "plan") searchLower).bind fun inPlan =>
  if inPlan then Except.ok true else
  (callLower eng (getField report "reporter")).bind fun r =>
  if strIncludes r searchLower then Except.ok true else
  (callLower eng (getField report "projectCode")).map fun c => strIncludes c searchLower

/-- A filter of `applyFilters` that an empty filter value switches off. -/
def filterIf (value : String) (test : Obj → Bool) (l : List Obj) : List Obj :=
  if truthy (JsVal.str value) then l.filter test else l

/-- The filter stage of `Reports.applyFilters`. -/
def frontFilter (eng : Engine) (f : Filters) (reports : List Obj) : Except JsError (List Obj) :=
  (if truthy (JsVal.str f.search)
    then filterM (frontSearchTest eng (eng.toLowerCase f.search)) reports
    else Except.ok reports).map fun found =>
  filterIf f.needHelp (fun r => strictEq (getField r "needHelp") (JsVal.str f.needHelp))
    (filterIf f.endDate (fun r => jsLe (getField r "date") (JsVal.str f.endDate))
      (filterIf f.startDate (fun r => jsGe (getField r "date") (JsVal.str f.startDate))
        (filterIf f.reporter (fun r => strictEq (getField r "reporter") (JsVal.str f.reporter))
          (filterIf f.projectCode
            (fun r => strictEq (getField r "projectCode") (JsVal.str f.projectCode)) found))))

/-- The values `aVal`, `bVal` the comparator of `applyFilters` compares with `<`
and `>`: is the first below the second. -/
def frontBelow (sortBy : String) (a b : Obj) : Bool :=
  if sortBy = "date" then dateLt (toDate (getField a "date")) (toDate (getField b "date"))
  else if sortBy = "workHours" then
    (hoursKey (getField a "workHours")).lt (hoursKey (getField b "workHours"))
  else jsLt (getField a sortBy) (getField b sortBy) = some true

/-- The comparator of `Reports.applyFilters`. -/
def frontCompare (f : Filters) (a b : Obj) : JsNum :=
  let result : Int :=
    if frontBelow f.sortBy a b then -1 else if frontBelow f.sortBy b a then 1 else 0
  intNum (if f.sortOrder = "desc" then - result else result)

/-- The method `Reports.applyFilters()`.  When the search throws, no member has
been assigned yet. -/
def applyFilters (eng : Engine) (s : Reports) : Except JsError Reports :=
  (frontFilter eng s.currentFilters s.progressReports).map fun filtered =>
  { s with
    filteredReports := jsSort (frontCompare s.currentFilters) filtered,
    currentPage := 1,
    totalPages := JsNum.ceil (JsNum.div
      (natNum (jsSort (frontCompare s.currentFilters) filtered).length) (natNum s.pageSize)) }

/-- The state change of `Reports.goToPage(page)`. -/
def goToPage (s : Reports) (page : Int) : Reports :=
  if page < 1 ∨ s.totalPages.lt (intNum page) then s else { s with currentPage := page }

/-- The slice `pageReports` that `updateReportsDisplay` shows when
`filteredReports` is not empty. -/
def pageReports (s : Reports) : List Obj :=
  jsSlice s.filteredReports (intNum ((s.currentPage - 1) * s.pageSize))
    (intNum (min ((s.currentPage - 1) * s.pageSize + s.pageSize) s.filteredReports.length))

/-- What happens to the Reports module between two renderings: the data or the
filters are replaced (`loadInitialData`, `updateFilters`), or one of the two
paging methods runs. -/
inductive Call where
  | setReports (reports : List Obj)
  | setFilters (f : Filters)
  | applyFilters
  | goToPage (page : Int)

/-- The state after a call; a call that throws leaves the state as it was. -/
def Reports.step (eng : Engine) (s : Reports) : Call → Reports
  | Call.setReports reports => { s with progressReports := reports }
  | Call.setFilters f => { s with currentFilters := f }
  | Call.applyFilters =>
    match applyFilters eng s with
    | Except.ok s' => s'
    | Except.error _ => s
  | Call.goToPage page => goToPage s page

/-- The state after a sequence of calls from the initial state. -/
def Reports.run (eng : Engine) (calls : List Call) : Reports :=
  calls.foldl (Reports.step eng) Reports.initial

/-! ## Properties and sample data for the batch updates and the invariants -/

/-- Does the record carry the id that the list entry parses to: the test
`p.id === parseInt(id)` of the batch handlers. -/
def idMatches (p : Obj) (id : JsVal) : Bool :=
  strictEq (getField p "id") (JsVal.num (parseInt id))

/-- Does the id of the record occur in the list. -/
def idListed (ids : List JsVal) (p : Obj) : Bool := ids.any (idMatches p)

/-- A record after a batch handler updated it: `field` and `updatedAt` set. -/
def stamped (now : Int) (field : String) (value : JsVal) (p : Obj) : Obj :=
  setField (setField p field value) "updatedAt" (JsVal.str (toISOString now))

/-- No two stored records have the same id. -/
def distinctIds (l : List Obj) : Prop :=
  (l.map fun p => getField p "id").Pairwise fun a b => strictEq a b = false

/-- No two entries of the id list parse to the same number. -/
def distinctEntries (ids : List JsVal) : Prop := (ids.map parseInt).Nodup

/-- Three projects with the ids 1, 2 and 3. -/
def threeProjects : Store :=
  { projects := [sampleProject 1 "P-1" "" "planning", sampleProject 2 "P-2" "" "planning",
      sampleProject 3 "P-3" "" "planning"],
    progress := [] }

/-- The collection in which exactly the records whose id is listed are updated. -/
def batchUpdated (now : Int) (field : String) (value : JsVal) (ids : List JsVal)
    (l : List Obj) : List Obj :=
  l.map fun p => if idListed ids p then stamped now field value p else p

/-- For every entry of the id list, in order, the updated record it matches. -/
def batchData (now : Int) (field : String) (value : JsVal) (ids : List JsVal)
    (l : List Obj) : List Obj :=
  ids.flatMap fun id => (l.filter fun p => idMatches p id).map (stamped now field value)

/-- The number of entries of the id list that match a stored record. -/
def matchingEntries (ids : List JsVal) (l : List Obj) : Nat :=
  (ids.filter fun id => l.any fun p => idMatches p id).length

/-- Two projects that were given the same id. -/
def twinStore : Store :=
  { projects := [sampleProject 1 "P-1" "" "planning", sampleProject 1 "P-2" "" "planning"],
    progress := [] }

/-- The query `?projectCode=..`. -/
def codeQuery (projectCode : String) : ProgressQuery :=
  { noQuery with projectCode := some projectCode }

/-- A body for `PUT /:id` of routes/progress.js that passes validation on
2025-06-10, with further members. -/
def reportUpdate (extra : Obj) : Obj :=
  [("reporter", JsVal.str "amy"), ("date", JsVal.str "2025-06-10"),
    ("projectCode", JsVal.str "PRJ-001")] ++ extra

/-- The `workHours` of a stored report is a number `h` with `0 ≤ h ≤ 24`. -/
def hoursInRange (p : Obj) : Prop :=
  ∃ h : Rat, getField p "workHours" = JsVal.num (JsNum.fin h) ∧ 0 ≤ h ∧ h ≤ 24

/-- The `needHelp` of a stored report is 是 or 否. -/
def helpOk (p : Obj) : Prop :=
  getField p "needHelp" = JsVal.str "是" ∨ getField p "needHelp" = JsVal.str "否"

instance (p : Obj) : Decidable (helpOk p) := by
  unfold helpOk; infer_instance

/-- A report form as the frontend collects it, valid for both validators on
2025-06-10, with three of its members given. -/
def reportForm (date projectCode needHelp : String) : Obj :=
  [("reporter", JsVal.str "amy"), ("date", JsVal.str date),
    ("projectCode", JsVal.str projectCode), ("workHours", JsVal.str "8"),
    ("content", JsVal.str "done"), ("blocker", JsVal.str ""), ("needHelp", JsVal.str needHelp),
    ("plan", JsVal.str "")]

/-- The page state of the Reports module is valid: the current page is at
least 1; `totalPages` is `ceil(filteredReports.length / pageSize)`, or still the
1 of the constructor with no report filtered yet; and when `filteredReports` is
not empty the current page is at most that number and the slice shown is not
empty. -/
def Reports.valid (s : Reports) : Prop :=
  1 ≤ s.currentPage ∧ s.pageSize = 20 ∧
  (s.totalPages = intNum ⌈(s.filteredReports.length : ℚ) / (s.pageSize : ℚ)⌉ ∨
    (s.filteredReports = [] ∧ s.totalPages = JsNum.fin 1)) ∧
  (s.filteredReports ≠ [] →
    s.currentPage ≤ ⌈(s.filteredReports.length : ℚ) / (s.pageSize : ℚ)⌉ ∧ pageReports s ≠ [])

/-- Filters that let every report pass. -/
def noFilters : Filters :=
  { search := "", projectCode := "", reporter := "", startDate := "", endDate := "",
    needHelp := "", sortBy := "date", sortOrder := "desc" }

/-! ## Lemmas on the validators -/

theorem isBlank_str (s : String) : isBlank (JsVal.str s) = Except.ok (decide (jsTrim s = "")) := by
  unfold isBlank
  by_cases h : s = ""
  · subst h; decide
  · simp [truthy, h, callTrim, Except.map]

theorem isBlank_ok_false {v : JsVal} (h : isBlank v = Except.ok false) :
    ∃ s, v = JsVal.str s ∧ jsTrim s ≠ "" := by
  cases v with
  | str s => refine ⟨s, rfl, ?_⟩; rw [isBlank_str] at h; simpa using h
  | undefined => simp [isBlank, truthy] at h
  | null => simp [isBlank, truthy] at h
  | bool b => cases b <;> simp [isBlank, truthy, callTrim, Except.map] at h
  | num n => 
    unfold isBlank at h
    split at h
    · simp [callTrim, Except.map] at h
    · simp at h
  | obj o => simp [isBlank, truthy, callTrim, Except.map] at h

theorem validateProjectData_ok {project : Obj} {errs : List String}
    (h : validateProjectData project = Except.ok errs) :
    ∃ noCode noName, isBlank (getField project "projectCode") = Except.ok noCode ∧
      isBlank (getField project "name") = Except.ok noName ∧
      errs = (if noCode then [msgCodeRequired] else []) ++
        (if noName then [msgNameRequired] else []) ++
        (if truthy (getField project "startDate") && truthy (getField project "endDate") &&
            dateLt (toDate (getField project "endDate")) (toDate (getField project "startDate"))
          then [msgEndBeforeStart] else []) ++
        (if truthy (getField project "status") &&
            !includesStr validStatuses (getField project "status")
          then [msgStatusInvalid] else []) := by
  unfold validateProjectData at h
  cases h1 : isBlank (getField project "projectCode") with
  | error e => rw [h1] at h; simp [Except.bind] at h
  | ok b1 =>
    cases h2 : isBlank (getField project "name") with
    | error e => rw [h1, h2] at h; simp [Except.bind] at h
    | ok b2 =>
      rw [h1, h2] at h
      simp only [Except.bind, Except.ok.injEq] at h
      exact ⟨b1, b2, rfl, rfl, h.symm⟩

theorem validateProjectData_nil {project : Obj}
    (h : validateProjectData project = Except.ok []) :
    (∃ s, getField project "projectCode" = JsVal.str s ∧ jsTrim s ≠ "") ∧
    (∃ s, getField project "name" = JsVal.str s ∧ jsTrim s ≠ "") := by
  obtain ⟨b1, b2, h1, h2, he⟩ := validateProjectData_ok h
  cases b1 <;> cases b2 <;> simp at he
  exact ⟨isBlank_ok_false h1, isBlank_ok_false h2⟩

theorem jsTrim_empty : jsTrim "" = "" := by decide

theorem nonBlank_truthy {v : JsVal} (h : nonBlank v) : truthy v = true := by
  obtain ⟨s, rfl, hs⟩ := h
  by_cases he : s = ""
  · subst he; exact absurd jsTrim_empty hs
  · simp [truthy, he]

theorem isBlank_typed {v : JsVal} (h : strOrFalsy v) :
    ∃ b, isBlank v = Except.ok b ∧ (b = true ↔ ¬ nonBlank v) := by
  rcases h with h | ⟨s, rfl⟩
  · refine ⟨true, by simp [isBlank, h], ?_⟩
    simp only [true_iff]
    intro hn
    rw [nonBlank_truthy hn] at h
    exact Bool.noConfusion h
  · refine ⟨decide (jsTrim s = ""), isBlank_str s, ?_⟩
    simp [nonBlank]

theorem includesStr_iff (l : List String) (v : JsVal) :
    includesStr l v = true ↔ ∃ s ∈ l, v = JsVal.str s := by
  cases v <;> simp [includesStr]

theorem hoursOutOfRange_iff (v : JsVal) :
    hoursOutOfRange (parseFloat v) = true ↔ ¬ parsesInRange v := by
  unfold parsesInRange
  cases h : parseFloat v with
  | nan => simp [hoursOutOfRange, JsNum.isNaN]
  | inf neg => cases neg <;> simp [hoursOutOfRange, JsNum.isNaN, JsNum.lt]
  | fin q =>
    simp only [hoursOutOfRange, JsNum.isNaN, JsNum.lt, Bool.false_or, Bool.or_eq_true,
      decide_eq_true_eq, JsNum.fin.injEq, exists_eq_left']
    constructor
    · rintro (h1 | h1) ⟨h2, h3⟩
      · exact absurd h2 (not_le.mpr h1)
      · exact absurd h3 (not_le.mpr h1)
    · intro hn
      by_contra hc
      push_neg at hc
      exact hn ⟨hc.1, hc.2⟩

theorem dateErrors_cases (now : Int) (v : JsVal) :
    (dateErrors now v = [msgDateRequired] ∧ truthy v = false) ∨
    (dateErrors now v = [msgDateInvalid] ∧ truthy v = true ∧ toDate v = Option.none) ∨
    (dateErrors now v = [msgDateFuture] ∧ truthy v = true ∧
      ∃ t, toDate v = some t ∧ now + 7 * msPerDay < t) ∨
    (dateErrors now v = [] ∧ truthy v = true ∧
      ∃ t, toDate v = some t ∧ t ≤ now + 7 * msPerDay) := by
  unfold dateErrors
  cases ht : truthy v with
  | false => left; simp
  | true =>
    right
    cases hd : toDate v with
    | none => left; simp
    | some t =>
      right
      by_cases hlt : now + 7 * msPerDay < t
      · left
        have h1 : now + 604800000 < t := by unfold msPerDay at hlt; omega
        simp [h1, hlt]
      · right
        have h1 : t ≤ now + 604800000 := by unfold msPerDay at hlt; omega
        simp [h1, not_lt.mp hlt]

theorem validateProgressData_typed (now : Int) (progress : Obj)
    (hr : strOrFalsy (getField progress "reporter"))
    (hc : strOrFalsy (getField progress "projectCode")) :
    ∃ noReporter noCode,
      (noReporter = true ↔ ¬ nonBlank (getField progress "reporter")) ∧
      (noCode = true ↔ ¬ nonBlank (getField progress "projectCode")) ∧
      validateProgressData now progress = Except.ok (
        (if noReporter then [msgReporterRequired] else []) ++
        dateErrors now (getField progress "date") ++
        (if noCode then [msgCodeRequired] else []) ++
        (if getField progress "workHours" ≠ JsVal.undefined ∧
            hoursOutOfRange (parseFloat (getField progress "workHours"))
          then [msgHoursRange] else []) ++
        (if truthy (getField progress "needHelp") &&
            !includesStr validHelpOptions (getField progress "needHelp")
          then [msgHelpInvalid] else [])) := by
  obtain ⟨b1, h1, hb1⟩ := isBlank_typed hr
  obtain ⟨b3, h3, hb3⟩ := isBlank_typed hc
  exact ⟨b1, b3, hb1, hb3, by simp [validateProgressData, h1, h3, Except.bind]⟩

theorem progress_list_rules (b1 b3 : Bool) (cH cN : Prop) [Decidable cH] [Decidable cN]
    (de : List String)
    (hde : de = [] ∨ de = [msgDateRequired] ∨ de = [msgDateInvalid] ∨ de = [msgDateFuture]) :
    ((if b1 then [msgReporterRequired] else []) ++ de ++
        (if b3 then [msgCodeRequired] else []) ++ (if cH then [msgHoursRange] else []) ++
        (if cN then [msgHelpInvalid] else [])).Sublist progressMessages ∧
    (msgReporterRequired ∈ (if b1 then [msgReporterRequired] else []) ++ de ++
        (if b3 then [msgCodeRequired] else []) ++ (if cH then [msgHoursRange] else []) ++
        (if cN then [msgHelpInvalid] else []) ↔ b1 = true) ∧
    (msgDateRequired ∈ (if b1 then [msgReporterRequired] else []) ++ de ++
        (if b3 then [msgCodeRequired] else []) ++ (if cH then [msgHoursRange] else []) ++
        (if cN then [msgHelpInvalid] else []) ↔ de = [msgDateRequired]) ∧
    (msgDateInvalid ∈ (if b1 then [msgReporterRequired] else []) ++ de ++
        (if b3 then [msgCodeRequired] else []) ++ (if cH then [msgHoursRange] else []) ++
        (if cN then [msgHelpInvalid] else []) ↔ de = [msgDateInvalid]) ∧
    (msgDateFuture ∈ (if b1 then [msgReporterRequired] else []) ++ de ++
        (if b3 then [msgCodeRequired] else []) ++ (if cH then [msgHoursRange] else []) ++
        (if cN then [msgHelpInvalid] else []) ↔ de = [msgDateFuture]) ∧
    (msgCodeRequired ∈ (if b1 then [msgReporterRequired] else []) ++ de ++
        (if b3 then [msgCodeRequired] else []) ++ (if cH then [msgHoursRange] else []) ++
        (if cN then [msgHelpInvalid] else []) ↔ b3 = true) ∧
    (msgHoursRange ∈ (if b1 then [msgReporterRequired] else []) ++ de ++
        (if b3 then [msgCodeRequired] else []) ++ (if cH then [msgHoursRange] else []) ++
        (if cN then [msgHelpInvalid] else []) ↔ cH) ∧
    (msgHelpInvalid ∈ (if b1 then [msgReporterRequired] else []) ++ de ++
        (if b3 then [msgCodeRequired] else []) ++ (if cH then [msgHoursRange] else []) ++
        (if cN then [msgHelpInvalid] else []) ↔ cN) ∧
    ((if b1 then [msgReporterRequired] else []) ++ de ++
        (if b3 then [msgCodeRequired] else []) ++ (if cH then [msgHoursRange] else []) ++
        (if cN then [msgHelpInvalid] else []) = [] ↔
      b1 = false ∧ de = [] ∧ b3 = false ∧ ¬ cH ∧ ¬ cN) := by
  rcases hde with rfl | rfl | rfl | rfl <;> cases b1 <;> cases b3 <;>
    by_cases h1 : cH <;> by_cases h2 : cN <;>
    simp only [h1, h2, if_true, if_false, true_iff, false_iff, iff_true, iff_false,
      not_true_eq_false, not_false_eq_true, and_true, and_false, true_and, false_and,
      Bool.false_eq_true, reduceCtorEq] <;>
    decide

theorem dateErrors_shape (now : Int) (v : JsVal) :
    dateErrors now v = [] ∨ dateErrors now v = [msgDateRequired] ∨
      dateErrors now v = [msgDateInvalid] ∨ dateErrors now v = [msgDateFuture] := by
  rcases dateErrors_cases now v with h | h | h | h <;> simp [h.1]

theorem dateErrors_required_iff (now : Int) (v : JsVal) :
    dateErrors now v = [msgDateRequired] ↔ truthy v = false := by
  rcases dateErrors_cases now v with ⟨hd, ht⟩ | ⟨hd, ht, _⟩ | ⟨hd, ht, _⟩ | ⟨hd, ht, _⟩ <;>
    simp [hd, ht, msgDateRequired, msgDateInvalid, msgDateFuture]

theorem dateErrors_invalid_iff (now : Int) (v : JsVal) :
    dateErrors now v = [msgDateInvalid] ↔ (truthy v = true ∧ toDate v = Option.none) := by
  rcases dateErrors_cases now v with
    ⟨hd, ht⟩ | ⟨hd, ht, hn⟩ | ⟨hd, ht, t, hn, _⟩ | ⟨hd, ht, t, hn, _⟩
  · simp [hd, ht, msgDateRequired, msgDateInvalid, msgDateFuture]
  · simp [hd, ht, hn, msgDateRequired, msgDateInvalid, msgDateFuture]
  · simp [hd, ht, hn, msgDateRequired, msgDateInvalid, msgDateFuture]
  · simp [hd, ht, hn, msgDateRequired, msgDateInvalid, msgDateFuture]

theorem dateErrors_future_iff (now : Int) (v : JsVal) :
    dateErrors now v = [msgDateFuture] ↔
      (truthy v = true ∧ ∃ t, toDate v = some t ∧ now + 7 * msPerDay < t) := by
  rcases dateErrors_cases now v with
    ⟨hd, ht⟩ | ⟨hd, ht, hn⟩ | ⟨hd, ht, t, hn, hlt⟩ | ⟨hd, ht, t, hn, hle⟩
  · simp [hd, ht, msgDateRequired, msgDateInvalid, msgDateFuture]
  · simp [hd, ht, hn, msgDateRequired, msgDateInvalid, msgDateFuture]
  · simp [hd, ht, hn, hlt, msgDateRequired, msgDateInvalid, msgDateFuture]
  · simp [hd, ht, hn, hle, msgDateRequired, msgDateInvalid, msgDateFuture]

theorem dateErrors_nil_iff (now : Int) (v : JsVal) :
    dateErrors now v = [] ↔
      (truthy v = true ∧ ∃ t, toDate v = some t ∧ t ≤ now + 7 * msPerDay) := by
  rcases dateErrors_cases now v with
    ⟨hd, ht⟩ | ⟨hd, ht, hn⟩ | ⟨hd, ht, t, hn, hlt⟩ | ⟨hd, ht, t, hn, hle⟩
  · simp [hd, ht]
  · simp [hd, ht, hn]
  · simp [hd, ht, hn, hlt]
  · simp [hd, ht, hn, hle]

theorem strOrFalsy_of_isBlank {v : JsVal} {b : Bool} (h : isBlank v = Except.ok b) :
    strOrFalsy v := by
  cases ht : truthy v with
  | false => exact Or.inl ht
  | true =>
    cases v with
    | str s => exact Or.inr ⟨s, rfl⟩
    | undefined => simp [truthy] at ht
    | null => simp [truthy] at ht
    | bool b' => simp [isBlank, ht, callTrim, Except.map] at h
    | num n => simp [isBlank, ht, callTrim, Except.map] at h
    | obj o => simp [isBlank, ht, callTrim, Except.map] at h

theorem validateProgressData_returns_iff (now : Int) (progress : Obj) :
    (∃ errs, validateProgressData now progress = Except.ok errs) ↔
      (strOrFalsy (getField progress "reporter") ∧
        strOrFalsy (getField progress "projectCode")) := by
  constructor
  · rintro ⟨errs, h⟩
    unfold validateProgressData at h
    cases h1 : isBlank (getField progress "reporter") with
    | error e => rw [h1] at h; simp [Except.bind] at h
    | ok b1 =>
      cases h3 : isBlank (getField progress "projectCode") with
      | error e => rw [h1, h3] at h; simp [Except.bind] at h
      | ok b3 => exact ⟨strOrFalsy_of_isBlank h1, strOrFalsy_of_isBlank h3⟩
  · rintro ⟨hr, hc⟩
    obtain ⟨b1, b3, _, _, hv⟩ := validateProgressData_typed now progress hr hc
    exact ⟨_, hv⟩

/-! ## Uniqueness of projectCode -/

theorem getField_setField_ne (o : Obj) (k k' : String) (v : JsVal) (h : k ≠ k') :
    getField (setField o k v) k' = getField o k' := by
  induction o with
  | nil => simp [setField, getField, h]
  | cons kv rest ih =>
    obtain ⟨a, b⟩ := kv
    unfold setField
    by_cases hak : a = k
    · subst hak
      simp [getField, h]
    · simp only [hak, if_false]
      unfold getField
      rw [ih]

theorem map_set_same {β : Type} (f : Obj → β) (l : List Obj) (i : Nat) (x : Obj)
    (hx : f x = f (l.getD i [])) : (l.set i x).map f = l.map f := by
  induction l generalizing i with
  | nil => rfl
  | cons a l ih =>
    cases i with
    | zero => simpa using hx
    | succ i =>
      simp only [List.set_cons_succ, List.map_cons, List.cons.injEq, true_and]
      exact ih i (by simpa using hx)

theorem batchStep_codes (now : Int) (field : String) (value : JsVal) (hf : field ≠ "projectCode")
    (acc : List Obj × List Obj) (id : JsVal) :
    (batchStep now field value acc id).1.map (fun p => getField p "projectCode") =
      acc.1.map (fun p => getField p "projectCode") := by
  unfold batchStep
  cases findIndex (fun p => strictEq (getField p "id") (JsVal.num (parseInt id))) acc.1 with
  | none => rfl
  | some i =>
    apply map_set_same
    rw [getField_setField_ne _ _ _ _ (by decide), getField_setField_ne _ _ _ _ hf]

theorem batchFold_codes (now : Int) (field : String) (value : JsVal) (hf : field ≠ "projectCode")
    (ids : List JsVal) (acc : List Obj × List Obj) :
    (ids.foldl (batchStep now field value) acc).1.map (fun p => getField p "projectCode") =
      acc.1.map (fun p => getField p "projectCode") := by
  induction ids generalizing acc with
  | nil => rfl
  | cons id ids ih => rw [List.foldl_cons, ih, batchStep_codes now field value hf]

/-- The delete handler leaves no two projects with the same projectCode when
there were none. -/
theorem deleteProject_unique (env : Env) (st : Store) (id : String)
    (h : uniqueCodes st.projects) : uniqueCodes (deleteProject env st id).1.projects := by
  unfold deleteProject
  simp only
  split
  · exact h
  · split
    · exact h
    · split
      · exact List.Nodup.sublist ((List.eraseIdx_sublist _ _).map _) h
      · exact h

/-- The batch-status handler leaves the projectCode of every project as it was. -/
theorem batchStatus_unique (env : Env) (st : Store) (projectIds : Option (List JsVal))
    (status : JsVal) (h : uniqueCodes st.projects) :
    uniqueCodes (batchStatus env st projectIds status).1.projects := by
  unfold batchStatus
  cases projectIds with
  | none => exact h
  | some ids =>
    simp only
    split
    · exact h
    · split
      · exact h
      · split
        · unfold uniqueCodes
          rw [batchFold_codes env.now "status" status (by decide)]
          exact h
        · exact h

/-- The update handler, too, can leave two projects with the same projectCode:
an empty `projectCode` in the body skips the duplicate check and is stored by
the spread.  Here the second update with an empty code is answered 200. -/
theorem updateProject_duplicates_code :
    (blankedStore.projects.map fun p => getField p "projectCode") =
      [JsVal.str "", JsVal.str "PRJ-002"] ∧
    uniqueCodes blankedStore.projects ∧
    (updateProject sampleEnv blankedStore "PRJ-002"
      [("name", JsVal.str "Shop"), ("projectCode", JsVal.str "")]).2.status = 200 ∧
    ¬ uniqueCodes (updateProject sampleEnv blankedStore "PRJ-002"
      [("name", JsVal.str "Shop"), ("projectCode", JsVal.str "")]).1.projects := by
  decide

/-- C1 (defect in the create handler): the duplicate check of `router.post('/')`
compares the untrimmed request code and the handler stores the trimmed one, so a
request with code `" PRJ-001"` against a store holding `"PRJ-001"` passes
validation, is answered 201, and leaves two projects with the same projectCode. -/
theorem createProject_duplicates_code :
    uniqueCodes sampleStore.projects ∧
    validateProjectData [("projectCode", JsVal.str " PRJ-001"), ("name", JsVal.str "Copy")] =
      Except.ok [] ∧
    (createProject sampleEnv sampleStore
      [("projectCode", JsVal.str " PRJ-001"), ("name", JsVal.str "Copy")]).2.status = 201 ∧
    ((createProject sampleEnv sampleStore
      [("projectCode", JsVal.str " PRJ-001"), ("name", JsVal.str "Copy")]).1.projects.map
        fun p => getField p "projectCode") = [JsVal.str "PRJ-001", JsVal.str "PRJ-001"] ∧
    ¬ uniqueCodes (createProject sampleEnv sampleStore
      [("projectCode", JsVal.str " PRJ-001"), ("name", JsVal.str "Copy")]).1.projects := by
  decide

/-! ## Duplicate projectCode on create -/

theorem strictEq_str {v : JsVal} {s : String} : strictEq v (JsVal.str s) = true ↔ v = JsVal.str s := by
  cases v <;> simp [strictEq]

theorem any_code_iff (l : List Obj) (s : String) :
    l.any (fun p => strictEq (getField p "projectCode") (JsVal.str s)) = true ↔
      ∃ p ∈ l, getField p "projectCode" = JsVal.str s := by
  simp [List.any_eq_true, strictEq_str]

/-- C2: a create request that passes validation and carries the projectCode of a
stored project is answered 409 and the store is left as it was. -/
theorem createProject_conflict (env : Env) (st : Store) (projectData : Obj)
    (hvalid : validateProjectData projectData = Except.ok [])
    (hdup : ∃ p ∈ st.projects, getField p "projectCode" = getField projectData "projectCode") :
    createProject env st projectData = (st, failure 409 "專案代碼已存在") := by
  obtain ⟨⟨s, hs, _⟩, _⟩ := validateProjectData_nil hvalid
  have hany : st.projects.any
      (fun p => strictEq (getField p "projectCode") (getField projectData "projectCode")) = true := by
    rw [hs, any_code_iff]; rw [hs] at hdup; exact hdup
  simp [createProject, hvalid, hany]

theorem createProject_conflict_witness :
    createProject sampleEnv sampleStore
      [("projectCode", JsVal.str "PRJ-001"), ("name", JsVal.str "Copy")] =
      (sampleStore, failure 409 "專案代碼已存在") :=
  createProject_conflict sampleEnv sampleStore
    [("projectCode", JsVal.str "PRJ-001"), ("name", JsVal.str "Copy")] (by decide)
    ⟨_, List.mem_singleton.mpr rfl, by decide⟩

/-! ## Create then fetch -/

theorem getField_newProject {now : Int} {projectData project : Obj} {code name : String}
    (hcode : getField projectData "projectCode" = JsVal.str code)
    (hname : getField projectData "name" = JsVal.str name)
    (h : newProject now projectData = Except.ok project) :
    project = [
      ("id", timeNum now),
      ("projectCode", JsVal.str (jsTrim code)),
      ("name", JsVal.str (jsTrim name)),
      ("owner", trimmedOrEmpty (getField projectData "owner")),
      ("startDate", jsOr (getField projectData "startDate") (JsVal.str "")),
      ("endDate", jsOr (getField projectData "endDate") (JsVal.str "")),
      ("status", jsOr (getField projectData "status") (JsVal.str "planning")),
      ("description", trimmedOrEmpty (getField projectData "description")),
      ("createdAt", JsVal.str (toISOString now)),
      ("updatedAt", JsVal.str (toISOString now))] := by
  have key : ∀ v : JsVal, ∀ t : String,
      (if truthy v then callTrim v else Except.ok "") = Except.ok t →
        JsVal.str t = trimmedOrEmpty v := by
    intro v t hv
    cases v with
    | str s =>
      by_cases hs : s = ""
      · subst hs
        simp [truthy] at hv
        subst hv
        decide
      · simp [truthy, hs, callTrim] at hv
        simp [trimmedOrEmpty, hv]
    | undefined => simp [truthy] at hv; simp [trimmedOrEmpty, hv]
    | null => simp [truthy] at hv; simp [trimmedOrEmpty, hv]
    | bool b => cases b <;> simp [truthy, callTrim] at hv; simp [trimmedOrEmpty, hv]
    | num n =>
      by_cases ht : truthy (JsVal.num n) = true
      · simp [ht, callTrim] at hv
      · simp [ht] at hv; simp [trimmedOrEmpty, hv]
    | obj o => simp [truthy, callTrim] at hv
  unfold newProject at h
  rw [hcode, hname] at h
  cases ho : (if truthy (getField projectData "owner") then callTrim (getField projectData "owner")
      else Except.ok "") with
  | error e => rw [ho] at h; simp [callTrim, Except.bind] at h
  | ok o =>
    cases hd : (if truthy (getField projectData "description")
        then callTrim (getField projectData "description") else Except.ok "") with
    | error e => rw [ho, hd] at h; simp [callTrim, Except.bind] at h
    | ok d =>
      rw [ho, hd] at h
      simp only [callTrim, Except.bind, Except.ok.injEq] at h
      rw [← h, key _ _ ho, key _ _ hd]

theorem createProject_created {env : Env} {st : Store} {projectData : Obj}
    (hok : (createProject env st projectData).2.status = 201) :
    ∃ project, newProject env.now projectData = Except.ok project ∧
      createProject env st projectData =
        ({ st with projects := st.projects ++ [project] },
          success 201 (some "專案建立成功") project) := by
  unfold createProject at hok ⊢
  cases hv : validateProjectData projectData with
  | error e => rw [hv] at hok; simp [failure] at hok
  | ok errs =>
    rw [hv] at hok
    simp only at hok ⊢
    split at hok
    · simp [validationFailure] at hok
    · split at hok
      · simp [failure] at hok
      · cases hnew : newProject env.now projectData with
        | error e => rw [hnew] at hok; simp [failure] at hok
        | ok project =>
          rw [hnew] at hok
          cases hw : env.writeOk with
          | false => rw [hw] at hok; simp [failure] at hok
          | true => exact ⟨project, rfl, by simp_all⟩

/-- C3, as the claim states it, fails: the request `" PRJ-002 "` / `" Shop "`
passes validation, its code equals no stored code and the create is answered
201, yet the fetch by the request's projectCode answers 404 (the code and the
name were stored trimmed). -/
theorem create_then_fetch_untrimmed :
    validateProjectData [("projectCode", JsVal.str " PRJ-002 "), ("name", JsVal.str " Shop ")] =
      Except.ok [] ∧
    (∀ p ∈ sampleStore.projects, getField p "projectCode" ≠ JsVal.str " PRJ-002 ") ∧
    (createProject sampleEnv sampleStore
      [("projectCode", JsVal.str " PRJ-002 "), ("name", JsVal.str " Shop ")]).2.status = 201 ∧
    getProject (createProject sampleEnv sampleStore
      [("projectCode", JsVal.str " PRJ-002 "), ("name", JsVal.str " Shop ")]).1 " PRJ-002 " =
      failure 404 "專案不存在" ∧
    ((createProject sampleEnv sampleStore
      [("projectCode", JsVal.str " PRJ-002 "), ("name", JsVal.str " Shop ")]).1.projects.map
        fun p => (getField p "projectCode", getField p "name")) =
      [(JsVal.str "PRJ-001", JsVal.str "Website"), (JsVal.str "PRJ-002", JsVal.str "Shop")] := by
  decide

/-- C3, amended: when the request passes validation, its trimmed projectCode
equals no stored projectCode and the create is answered 201, the fetch by the
trimmed projectCode finds a project whose projectCode, name, owner and
description are the request's values trimmed (empty for an owner or description
that is absent or falsy), whose startDate, endDate and status are the request's
(`''`, `''` and `'planning'` for a value that is absent or falsy), and whose
id, createdAt and updatedAt are the clock reading of the server. -/
theorem create_then_fetch (env : Env) (st : Store) (projectData : Obj) (code name : String)
    (hcode : getField projectData "projectCode" = JsVal.str code)
    (hname : getField projectData "name" = JsVal.str name)
    (_hvalid : validateProjectData projectData = Except.ok [])
    (hfresh : ∀ p ∈ st.projects, getField p "projectCode" ≠ JsVal.str (jsTrim code))
    (hok : (createProject env st projectData).2.status = 201) :
    ∃ project,
      getProject (createProject env st projectData).1 (jsTrim code) =
        success 200 Option.none project ∧
      getField project "projectCode" = JsVal.str (jsTrim code) ∧
      getField project "name" = JsVal.str (jsTrim name) ∧
      getField project "owner" = trimmedOrEmpty (getField projectData "owner") ∧
      getField project "startDate" = jsOr (getField projectData "startDate") (JsVal.str "") ∧
      getField project "endDate" = jsOr (getField projectData "endDate") (JsVal.str "") ∧
      getField project "status" =
        jsOr (getField projectData "status") (JsVal.str "planning") ∧
      getField project "description" = trimmedOrEmpty (getField projectData "description") ∧
      getField project "id" = timeNum env.now ∧
      getField project "createdAt" = JsVal.str (toISOString env.now) ∧
      getField project "updatedAt" = JsVal.str (toISOString env.now) := by
  obtain ⟨project, hnew, hcreate⟩ := createProject_created hok
  have hp := getField_newProject hcode hname hnew
  have hnone : List.find?
      (fun p => strictEq (getField p "projectCode") (JsVal.str (jsTrim code))) st.projects =
        Option.none := by
    rw [List.find?_eq_none]
    intro p hpmem
    simp only [Bool.not_eq_true]
    cases hse : strictEq (getField p "projectCode") (JsVal.str (jsTrim code)) with
    | false => rfl
    | true => exact absurd (strictEq_str.mp hse) (hfresh p hpmem)
  have hself : strictEq (getField project "projectCode") (JsVal.str (jsTrim code)) = true := by
    rw [hp]; simp [getField, strictEq]
  refine ⟨project, ?_, ?_⟩
  · rw [hcreate]
    simp [getProject, List.find?_append, hnone, List.find?, hself]
  · rw [hp]
    simp [getField]

theorem create_then_fetch_witness :
    ∃ project,
      getProject (createProject sampleEnv sampleStore
        [("projectCode", JsVal.str " PRJ-002 "), ("name", JsVal.str " Shop ")]).1
          (jsTrim " PRJ-002 ") = success 200 Option.none project ∧
      getField project "projectCode" = JsVal.str (jsTrim " PRJ-002 ") ∧
      getField project "name" = JsVal.str (jsTrim " Shop ") ∧
      getField project "owner" = trimmedOrEmpty JsVal.undefined ∧
      getField project "startDate" = jsOr JsVal.undefined (JsVal.str "") ∧
      getField project "endDate" = jsOr JsVal.undefined (JsVal.str "") ∧
      getField project "status" = jsOr JsVal.undefined (JsVal.str "planning") ∧
      getField project "description" = trimmedOrEmpty JsVal.undefined ∧
      getField project "id" = timeNum sampleEnv.now ∧
      getField project "createdAt" = JsVal.str (toISOString sampleEnv.now) ∧
      getField project "updatedAt" = JsVal.str (toISOString sampleEnv.now) :=
  create_then_fetch sampleEnv sampleStore
    [("projectCode", JsVal.str " PRJ-002 "), ("name", JsVal.str " Shop ")] " PRJ-002 " " Shop "
    (by decide) (by decide) (by decide) (by decide) (by decide)

/-! ## Reports and the project they name -/

theorem checkProjectExists_iff (st : Store) (v : JsVal) :
    checkProjectExists st v = true ↔
      ∃ p ∈ st.projects, strictEq (getField p "projectCode") v = true := by
  simp [checkProjectExists, List.any_eq_true]

/-- First half of C4, which holds: a report request whose projectCode is the
projectCode of no stored project is answered with an error (400 or, when the
request makes the handler throw, 500) and nothing is written. -/
theorem createProgress_unknown_project (env : Env) (st : Store) (progressData : Obj)
    (hnone : ∀ p ∈ st.projects, getField p "projectCode" ≠ getField progressData "projectCode") :
    (createProgress env st progressData).1 = st ∧
    ((createProgress env st progressData).2.status = 400 ∨
      (createProgress env st progressData).2.status = 500) := by
  have hex : checkProjectExists st (getField progressData "projectCode") = false := by
    cases h : checkProjectExists st (getField progressData "projectCode") with
    | false => rfl
    | true =>
      obtain ⟨p, hp, he⟩ := (checkProjectExists_iff st _).mp h
      have : getField p "projectCode" = getField progressData "projectCode" := by
        revert he
        cases getField p "projectCode" <;> cases getField progressData "projectCode" <;>
          simp [strictEq]
        all_goals (rename_i a b; cases a <;> cases b <;> simp [strictEq])
      exact absurd this (hnone p hp)
  unfold createProgress
  cases hv : validateProgressData env.now progressData with
  | error e => simp [failure]
  | ok errs =>
    by_cases hl : errs.length > 0
    · simp [hl, validationFailure]
    · simp [hl, hex, failure]

theorem createProgress_unknown_project_witness :
    (createProgress sampleEnv sampleStore orphanReport).1 = sampleStore ∧
    ((createProgress sampleEnv sampleStore orphanReport).2.status = 400 ∨
      (createProgress sampleEnv sampleStore orphanReport).2.status = 500) :=
  createProgress_unknown_project sampleEnv sampleStore orphanReport (by decide)

/-- C4 (defect in the create handler of routes/progress.js): the existence check
runs on the untrimmed request code and the report is stored with the trimmed
one.  With the project code `" PRJ-009 "` in the store (left there by the
project update handler), the request with projectCode `" PRJ-009 "` is answered
201 and the stored report carries `"PRJ-009"`, the code of no stored project. -/
theorem createProgress_stores_unknown_code :
    (renamedStore.projects.map fun p => getField p "projectCode") = [JsVal.str " PRJ-009 "] ∧
    (createProgress sampleEnv renamedStore paddedReport).2.status = 201 ∧
    ((createProgress sampleEnv renamedStore paddedReport).1.progress.map
      fun r => getField r "projectCode") = [JsVal.str "PRJ-009"] ∧
    (createProgress sampleEnv renamedStore paddedReport).1.projects = renamedStore.projects ∧
    ¬ ∃ p ∈ (createProgress sampleEnv renamedStore paddedReport).1.projects,
      ∃ r ∈ (createProgress sampleEnv renamedStore paddedReport).1.progress,
        getField p "projectCode" = getField r "projectCode" := by
  decide

/-- C5 (defect in server.js): `app.post('/api/progress')` never reads the
project collection.  The request naming project `NOPE`, which no stored project
carries, is answered 201 and the report is appended to the progress collection;
the handler of routes/progress.js answers the same request 400 and writes
nothing. -/
theorem serverPostProgress_accepts_unknown_project :
    (∀ p ∈ sampleStore.projects, getField p "projectCode" ≠ getField orphanReport "projectCode") ∧
    (serverPostProgress sampleEnv sampleStore orphanReport).2.status = 201 ∧
    (serverPostProgress sampleEnv sampleStore orphanReport).1.progress =
      sampleStore.progress ++ [serverNewProgress sampleEnv.now orphanReport] ∧
    (serverPostProgress sampleEnv sampleStore orphanReport).1.progress ≠ sampleStore.progress ∧
    createProgress sampleEnv sampleStore orphanReport =
      (sampleStore, failure 400 "指定的專案不存在") := by
  decide

/-! ## The rules of validateProgressData -/

/-- C6, as the claim states it, fails: in this request `needHelp` is present as
the empty string, which is neither 是 nor 否, and the validator returns the
empty list.  The needHelp rule looks at truthy values only. -/
theorem validateProgressData_empty_needHelp :
    getField [("reporter", JsVal.str "amy"), ("date", JsVal.str "2025-06-10"),
      ("projectCode", JsVal.str "PRJ-001"), ("needHelp", JsVal.str "")] "needHelp" ≠
        JsVal.undefined ∧
    (∀ s ∈ validHelpOptions, JsVal.str "" ≠ JsVal.str s) ∧
    validateProgressData sampleEnv.now
      [("reporter", JsVal.str "amy"), ("date", JsVal.str "2025-06-10"),
        ("projectCode", JsVal.str "PRJ-001"), ("needHelp", JsVal.str "")] = Except.ok [] := by
  decide

/-- C6, amended: `validateProgressData` returns a list exactly when reporter and
projectCode are each a string or falsy (on another value `.trim()` throws).  The
list it returns is a sublist of the messages in rule order and holds each
message exactly when its rule is violated: reporter blank; date missing or
empty / not parseable / more than 7 days after the validation instant;
projectCode blank; workHours present (not `undefined`) and not parsing to a
number in [0, 24]; needHelp truthy and neither 是 nor 否.  The list is empty
exactly when none of these holds. -/
theorem validateProgressData_all_rules (now : Int) (progress : Obj) :
    ((∃ errs, validateProgressData now progress = Except.ok errs) ↔
      (strOrFalsy (getField progress "reporter") ∧
        strOrFalsy (getField progress "projectCode"))) ∧
    ∀ errs, validateProgressData now progress = Except.ok errs →
      errs.Sublist progressMessages ∧
      (msgReporterRequired ∈ errs ↔ ¬ nonBlank (getField progress "reporter")) ∧
      (msgDateRequired ∈ errs ↔ truthy (getField progress "date") = false) ∧
      (msgDateInvalid ∈ errs ↔
        truthy (getField progress "date") = true ∧
          toDate (getField progress "date") = Option.none) ∧
      (msgDateFuture ∈ errs ↔
        truthy (getField progress "date") = true ∧
          ∃ t, toDate (getField progress "date") = some t ∧ now + 7 * msPerDay < t) ∧
      (msgCodeRequired ∈ errs ↔ ¬ nonBlank (getField progress "projectCode")) ∧
      (msgHoursRange ∈ errs ↔
        getField progress "workHours" ≠ JsVal.undefined ∧
          ¬ parsesInRange (getField progress "workHours")) ∧
      (msgHelpInvalid ∈ errs ↔
        truthy (getField progress "needHelp") = true ∧
          ¬ ∃ s ∈ validHelpOptions, getField progress "needHelp" = JsVal.str s) ∧
      (errs = [] ↔
        nonBlank (getField progress "reporter") ∧
        (truthy (getField progress "date") = true ∧
          ∃ t, toDate (getField progress "date") = some t ∧ t ≤ now + 7 * msPerDay) ∧
        nonBlank (getField progress "projectCode") ∧
        (getField progress "workHours" = JsVal.undefined ∨
          parsesInRange (getField progress "workHours")) ∧
        (truthy (getField progress "needHelp") = false ∨
          ∃ s ∈ validHelpOptions, getField progress "needHelp" = JsVal.str s)) := by
  refine ⟨validateProgressData_returns_iff now progress, ?_⟩
  intro errs herrs
  obtain ⟨hr, hc⟩ := (validateProgressData_returns_iff now progress).mp ⟨errs, herrs⟩
  obtain ⟨b1, b3, hb1, hb3, hv⟩ := validateProgressData_typed now progress hr hc
  rw [hv] at herrs
  cases herrs
  have hH : (getField progress "workHours" ≠ JsVal.undefined ∧
      hoursOutOfRange (parseFloat (getField progress "workHours")) = true) ↔
      (getField progress "workHours" ≠ JsVal.undefined ∧
        ¬ parsesInRange (getField progress "workHours")) := by
    rw [hoursOutOfRange_iff]
  have hN : (truthy (getField progress "needHelp") &&
      !includesStr validHelpOptions (getField progress "needHelp")) = true ↔
      (truthy (getField progress "needHelp") = true ∧
        ¬ ∃ s ∈ validHelpOptions, getField progress "needHelp" = JsVal.str s) := by
    rw [← includesStr_iff]; simp
  obtain ⟨g0, g1, g2, g3, g4, g5, g6, g7, g8⟩ := progress_list_rules b1 b3
    (getField progress "workHours" ≠ JsVal.undefined ∧
      hoursOutOfRange (parseFloat (getField progress "workHours")) = true)
    ((truthy (getField progress "needHelp") &&
      !includesStr validHelpOptions (getField progress "needHelp")) = true)
    (dateErrors now (getField progress "date")) (dateErrors_shape now _)
  have d1 := dateErrors_required_iff now (getField progress "date")
  have d2 := dateErrors_invalid_iff now (getField progress "date")
  have d3 := dateErrors_future_iff now (getField progress "date")
  have d4 := dateErrors_nil_iff now (getField progress "date")
  have hb1f : b1 = false ↔ nonBlank (getField progress "reporter") := by
    cases b1 <;> simp_all
  have hb3f : b3 = false ↔ nonBlank (getField progress "projectCode") := by
    cases b3 <;> simp_all
  refine ⟨g0, g1.trans hb1, g2.trans d1, g3.trans d2, g4.trans d3, g5.trans hb3,
    g6.trans hH, g7.trans hN, g8.trans ?_⟩
  rw [hb1f, d4, hb3f, hH, hN]
  have e1 : (¬ (getField progress "workHours" ≠ JsVal.undefined ∧
      ¬ parsesInRange (getField progress "workHours"))) ↔
      (getField progress "workHours" = JsVal.undefined ∨
        parsesInRange (getField progress "workHours")) := by
    by_cases h : getField progress "workHours" = JsVal.undefined <;> simp [h]
  have e2 : (¬ (truthy (getField progress "needHelp") = true ∧
      ¬ ∃ s ∈ validHelpOptions, getField progress "needHelp" = JsVal.str s)) ↔
      (truthy (getField progress "needHelp") = false ∨
        ∃ s ∈ validHelpOptions, getField progress "needHelp" = JsVal.str s) := by
    cases truthy (getField progress "needHelp") <;> simp
  rw [e1, e2]

theorem validateProgressData_all_rules_witness :
    validateProgressData sampleEnv.now
      [("reporter", JsVal.str "amy"), ("date", JsVal.str "2025-06-30"),
        ("projectCode", JsVal.str "PRJ-001"), ("workHours", JsVal.str "abc")] =
      Except.ok [msgDateFuture, msgHoursRange] ∧
    nonBlank (JsVal.str "amy") ∧
    ¬ parsesInRange (JsVal.str "abc") ∧
    (∃ t, toDate (JsVal.str "2025-06-30") = some t ∧ sampleEnv.now + 7 * msPerDay < t) :=
  let h := (validateProgressData_all_rules sampleEnv.now
    [("reporter", JsVal.str "amy"), ("date", JsVal.str "2025-06-30"),
      ("projectCode", JsVal.str "PRJ-001"), ("workHours", JsVal.str "abc")]).2
    [msgDateFuture, msgHoursRange] (by decide)
  ⟨by decide,
    Classical.not_not.mp (fun hn => absurd (h.2.1.mpr hn) (by decide)),
    (h.2.2.2.2.2.2.1.mp (by decide)).2,
    (h.2.2.2.2.1.mp (by decide)).2⟩

/-! ## The work-hours rule -/

/-- C7: for every request in which workHours is present, every list returned by
`validateProgressData` holds the work-hours error exactly when the value does
not parse to a number `h` with `0 ≤ h ≤ 24`, and a list is returned exactly when
reporter and projectCode are each a string or falsy (on another value `.trim()`
throws before any rule is reported).  -1, 25 and "abc" do not parse to a number
in [0, 24]; 0, 24 and 8.5 do. -/
theorem hours_rule (now : Int) (progress : Obj)
    (hpresent : getField progress "workHours" ≠ JsVal.undefined) :
    (∀ errs, validateProgressData now progress = Except.ok errs →
      (msgHoursRange ∈ errs ↔ ¬ parsesInRange (getField progress "workHours"))) ∧
    ((∃ errs, validateProgressData now progress = Except.ok errs) ↔
      (strOrFalsy (getField progress "reporter") ∧
        strOrFalsy (getField progress "projectCode"))) ∧
    (∀ v ∈ [JsVal.num (JsNum.fin (-1)), JsVal.num (JsNum.fin 25), JsVal.str "abc"],
      ¬ parsesInRange v) ∧
    (∀ v ∈ [JsVal.num (JsNum.fin 0), JsVal.num (JsNum.fin 24),
      JsVal.num (JsNum.fin (mkRat 17 2))], parsesInRange v) := by
  refine ⟨?_, validateProgressData_returns_iff now progress, ?_, ?_⟩
  · intro errs herrs
    obtain ⟨hr, hc⟩ := (validateProgressData_returns_iff now progress).mp ⟨errs, herrs⟩
    obtain ⟨b1, b3, _, _, hv⟩ := validateProgressData_typed now progress hr hc
    rw [hv] at herrs
    cases herrs
    obtain ⟨_, _, _, _, _, _, g6, _, _⟩ := progress_list_rules b1 b3
      (getField progress "workHours" ≠ JsVal.undefined ∧
        hoursOutOfRange (parseFloat (getField progress "workHours")) = true)
      ((truthy (getField progress "needHelp") &&
        !includesStr validHelpOptions (getField progress "needHelp")) = true)
      (dateErrors now (getField progress "date")) (dateErrors_shape now _)
    rw [g6, hoursOutOfRange_iff]
    exact ⟨fun h => h.2, fun h => ⟨hpresent, h⟩⟩
  · intro v hv
    simp only [List.mem_cons, List.mem_singleton, List.not_mem_nil, or_false] at hv
    rcases hv with rfl | rfl | rfl <;> exact (hoursOutOfRange_iff _).mp (by decide)
  · intro v hv
    simp only [List.mem_cons, List.mem_singleton, List.not_mem_nil, or_false] at hv
    rcases hv with rfl | rfl | rfl
    · exact ⟨0, rfl, le_refl _, by norm_num⟩
    · exact ⟨24, rfl, by norm_num, le_refl _⟩
    · exact ⟨mkRat 17 2, rfl, by decide, by decide⟩

theorem hours_rule_witness :
    validateProgressData sampleEnv.now
        [("reporter", JsVal.str "amy"), ("date", JsVal.str "2025-06-10"),
          ("projectCode", JsVal.str "PRJ-001"), ("workHours", JsVal.str "24.5")] =
        Except.ok [msgHoursRange] ∧
    ¬ parsesInRange (JsVal.str "24.5") ∧
    validateProgressData sampleEnv.now
        [("reporter", JsVal.str "amy"), ("date", JsVal.str "2025-06-10"),
          ("projectCode", JsVal.str "PRJ-001"), ("workHours", JsVal.str "8.5")] =
        Except.ok [] :=
  ⟨by decide,
    ((hours_rule sampleEnv.now
      [("reporter", JsVal.str "amy"), ("date", JsVal.str "2025-06-10"),
        ("projectCode", JsVal.str "PRJ-001"), ("workHours", JsVal.str "24.5")]
      (by decide)).1 [msgHoursRange] (by decide)).mp (by decide),
    by decide⟩

/-! ## The future-date rule -/

theorem digitChar_spec (n : Nat) :
    isDigit (digitChar n) = true ∧ digitVal (digitChar n) = n % 10 := by
  have h : n % 10 < 10 := Nat.mod_lt _ (by decide)
  unfold digitChar
  generalize n % 10 = k at h
  interval_cases k <;> decide

theorem readDigits_pad2 (n : Nat) (h : n ≤ 99) : readDigits (pad2 n) = some n := by
  have h1 := digitChar_spec (n / 10)
  have h2 := digitChar_spec n
  simp only [readDigits, pad2, List.all_cons, List.all_nil, h1.1, h2.1, Bool.and_self,
    if_true, digitsToNat, List.foldl, h1.2, h2.2, Option.some.injEq]
  omega

theorem readDigits_pad4 (n : Nat) (h : n ≤ 9999) : readDigits (pad4 n) = some n := by
  have h1 := digitChar_spec (n / 1000)
  have h2 := digitChar_spec (n / 100)
  have h3 := digitChar_spec (n / 10)
  have h4 := digitChar_spec n
  simp only [readDigits, pad4, List.all_cons, List.all_nil, h1.1, h2.1, h3.1, h4.1,
    Bool.and_self, if_true, digitsToNat, List.foldl, h1.2, h2.2, h3.2, h4.2,
    Option.some.injEq]
  omega

theorem dateParse_isoDate (y mo d : Nat) (hy : y ≤ 9999) (hmo : 1 ≤ mo ∧ mo ≤ 12)
    (hd : 1 ≤ d ∧ d ≤ 31) :
    dateParse (isoDate y mo d) = some (daysFromCivil y mo d * msPerDay) := by
  have e4 := readDigits_pad4 y hy
  have e2 := readDigits_pad2 mo (by omega)
  have e3 := readDigits_pad2 d (by omega)
  simp only [pad4, pad2] at e4 e2 e3
  simp only [dateParse, isoDate, pad4, pad2, List.cons_append, List.nil_append,
    dateParseChars, e4, e2, e3, Option.bind, makeTime]
  simp [hmo.1, hmo.2, hd.1, hd.2]

theorem isoDate_truthy (y mo d : Nat) : truthy (JsVal.str (isoDate y mo d)) = true := by
  have h : isoDate y mo d ≠ "" := by
    intro he
    have := congrArg String.data he
    simp [isoDate, pad4] at this
  simp [truthy, h]

/-- C8: for every validation instant `now` and every date `YYYY-MM-DD` (year up
to 9999, month 1..12, day 1..31, which covers every calendar date), on every
request carrying that date: when the date is 8 or more days after the UTC date
of `now` the request is not accepted and every list `validateProgressData`
returns holds the future-date error; when it is at most 7 days after it, no
list returned holds any of the three date errors.  A list is returned exactly
when reporter and projectCode are each a string or falsy (on another value
`.trim()` throws). -/
theorem future_date_rule (now : Int) (y mo d : Nat) (progress : Obj)
    (hy : y ≤ 9999) (hmo : 1 ≤ mo ∧ mo ≤ 12) (hd : 1 ≤ d ∧ d ≤ 31)
    (hdate : getField progress "date" = JsVal.str (isoDate y mo d)) :
    (now / msPerDay + 8 ≤ daysFromCivil y mo d →
      validateProgressData now progress ≠ Except.ok [] ∧
      ∀ errs, validateProgressData now progress = Except.ok errs → msgDateFuture ∈ errs) ∧
    (daysFromCivil y mo d ≤ now / msPerDay + 7 →
      ∀ errs, validateProgressData now progress = Except.ok errs →
        msgDateRequired ∉ errs ∧ msgDateInvalid ∉ errs ∧ msgDateFuture ∉ errs) ∧
    ((∃ errs, validateProgressData now progress = Except.ok errs) ↔
      (strOrFalsy (getField progress "reporter") ∧
        strOrFalsy (getField progress "projectCode"))) := by
  have key : ∀ errs, validateProgressData now progress = Except.ok errs →
      (now / msPerDay + 8 ≤ daysFromCivil y mo d → msgDateFuture ∈ errs) ∧
      (daysFromCivil y mo d ≤ now / msPerDay + 7 →
        msgDateRequired ∉ errs ∧ msgDateInvalid ∉ errs ∧ msgDateFuture ∉ errs) := by
    intro errs herrs
    obtain ⟨hr, hc⟩ := (validateProgressData_returns_iff now progress).mp ⟨errs, herrs⟩
    obtain ⟨b1, b3, _, _, hv⟩ := validateProgressData_typed now progress hr hc
    rw [hv] at herrs
    cases herrs
    obtain ⟨_, _, g2, g3, g4, _, _, _, _⟩ := progress_list_rules b1 b3
      (getField progress "workHours" ≠ JsVal.undefined ∧
        hoursOutOfRange (parseFloat (getField progress "workHours")) = true)
      ((truthy (getField progress "needHelp") &&
        !includesStr validHelpOptions (getField progress "needHelp")) = true)
      (dateErrors now (getField progress "date")) (dateErrors_shape now _)
    rw [g2, g3, g4, dateErrors_required_iff, dateErrors_invalid_iff, dateErrors_future_iff,
      hdate, isoDate_truthy]
    have hp : toDate (JsVal.str (isoDate y mo d)) = some (daysFromCivil y mo d * msPerDay) :=
      dateParse_isoDate y mo d hy hmo hd
    rw [hp]
    generalize daysFromCivil y mo d = day
    unfold msPerDay
    constructor
    · intro h
      exact ⟨rfl, _, rfl, by omega⟩
    · intro h
      refine ⟨by simp, by simp, ?_⟩
      rintro ⟨_, t, ht, hlt⟩
      have : t = day * 86400000 := by simpa using ht.symm
      omega
  refine ⟨?_, ?_, validateProgressData_returns_iff now progress⟩
  · intro h
    refine ⟨?_, fun errs herrs => (key errs herrs).1 h⟩
    intro hnil
    exact List.not_mem_nil _ ((key [] hnil).1 h)
  · intro h errs herrs
    exact (key errs herrs).2 h

theorem future_date_rule_witness :
    (validateProgressData sampleEnv.now
        [("reporter", JsVal.str "amy"), ("date", JsVal.str (isoDate 2025 6 18)),
          ("projectCode", JsVal.str "PRJ-001")] ≠ Except.ok [] ∧
      ∀ errs, validateProgressData sampleEnv.now
        [("reporter", JsVal.str "amy"), ("date", JsVal.str (isoDate 2025 6 18)),
          ("projectCode", JsVal.str "PRJ-001")] = Except.ok errs → msgDateFuture ∈ errs) ∧
    civilFromDays (sampleEnv.now / msPerDay) = (2025, 6, 10) ∧
    validateProgressData sampleEnv.now
        [("reporter", JsVal.str "amy"), ("date", JsVal.str "2025-06-18"),
          ("projectCode", JsVal.str "PRJ-001")] = Except.ok [msgDateFuture] ∧
    validateProgressData sampleEnv.now
        [("reporter", JsVal.str "amy"), ("date", JsVal.str "2025-06-17"),
          ("projectCode", JsVal.str "PRJ-001")] = Except.ok [] ∧
    validateProgressData sampleEnv.now
        [("reporter", JsVal.str "amy"), ("date", JsVal.str "2025-06-16"),
          ("projectCode", JsVal.str "PRJ-001")] = Except.ok [] :=
  ⟨(future_date_rule sampleEnv.now 2025 6 18
      [("reporter", JsVal.str "amy"), ("date", JsVal.str (isoDate 2025 6 18)),
        ("projectCode", JsVal.str "PRJ-001")]
      (by decide) (by decide) (by decide) rfl).1 (by decide),
    by decide, by decide, by decide, by decide⟩

/-! ## The rules of validateProjectData -/

theorem dateLt_iff (a b : Option Int) :
    dateLt a b = true ↔ ∃ x y, a = some x ∧ b = some y ∧ x < y := by
  cases a <;> cases b <;> simp [dateLt]

theorem project_list_rules (b1 b2 : Bool) (cD cS : Prop) [Decidable cD] [Decidable cS] :
    ((if b1 then [msgCodeRequired] else []) ++ (if b2 then [msgNameRequired] else []) ++
        (if cD then [msgEndBeforeStart] else []) ++
        (if cS then [msgStatusInvalid] else [])).Sublist projectMessages ∧
    (msgCodeRequired ∈ (if b1 then [msgCodeRequired] else []) ++
        (if b2 then [msgNameRequired] else []) ++ (if cD then [msgEndBeforeStart] else []) ++
        (if cS then [msgStatusInvalid] else []) ↔ b1 = true) ∧
    (msgNameRequired ∈ (if b1 then [msgCodeRequired] else []) ++
        (if b2 then [msgNameRequired] else []) ++ (if cD then [msgEndBeforeStart] else []) ++
        (if cS then [msgStatusInvalid] else []) ↔ b2 = true) ∧
    (msgEndBeforeStart ∈ (if b1 then [msgCodeRequired] else []) ++
        (if b2 then [msgNameRequired] else []) ++ (if cD then [msgEndBeforeStart] else []) ++
        (if cS then [msgStatusInvalid] else []) ↔ cD) ∧
    (msgStatusInvalid ∈ (if b1 then [msgCodeRequired] else []) ++
        (if b2 then [msgNameRequired] else []) ++ (if cD then [msgEndBeforeStart] else []) ++
        (if cS then [msgStatusInvalid] else []) ↔ cS) ∧
    ((if b1 then [msgCodeRequired] else []) ++ (if b2 then [msgNameRequired] else []) ++
        (if cD then [msgEndBeforeStart] else []) ++
        (if cS then [msgStatusInvalid] else []) = [] ↔
      b1 = false ∧ b2 = false ∧ ¬ cD ∧ ¬ cS) := by
  cases b1 <;> cases b2 <;> by_cases h1 : cD <;> by_cases h2 : cS <;>
    simp only [h1, h2, if_true, if_false, true_iff, false_iff, iff_true, iff_false,
      not_true_eq_false, not_false_eq_true, and_true, and_false, true_and, false_and,
      Bool.false_eq_true, reduceCtorEq] <;>
    decide

theorem validateProjectData_returns_iff (project : Obj) :
    (∃ errs, validateProjectData project = Except.ok errs) ↔
      (strOrFalsy (getField project "projectCode") ∧ strOrFalsy (getField project "name")) := by
  constructor
  · rintro ⟨errs, h⟩
    obtain ⟨b1, b2, h1, h2, _⟩ := validateProjectData_ok h
    exact ⟨strOrFalsy_of_isBlank h1, strOrFalsy_of_isBlank h2⟩
  · rintro ⟨hc, hn⟩
    obtain ⟨b1, h1, _⟩ := isBlank_typed hc
    obtain ⟨b2, h2, _⟩ := isBlank_typed hn
    unfold validateProjectData
    rw [h1, h2]
    exact ⟨_, rfl⟩

/-- C9, as the claim states it, fails: in this request `status` is present as
the empty string, which is none of planning, active, on-hold, completed, and the
validator returns the empty list.  The status rule looks at truthy values
only. -/
theorem validateProjectData_empty_status :
    getField [("projectCode", JsVal.str "PRJ-002"), ("name", JsVal.str "Shop"),
      ("status", JsVal.str "")] "status" ≠ JsVal.undefined ∧
    (∀ s ∈ validStatuses, JsVal.str "" ≠ JsVal.str s) ∧
    validateProjectData [("projectCode", JsVal.str "PRJ-002"), ("name", JsVal.str "Shop"),
      ("status", JsVal.str "")] = Except.ok [] := by
  decide

/-- C9, amended: `validateProjectData` returns a list exactly when projectCode
and name are each a string or falsy (on another value `.trim()` throws).  The
list it returns is a sublist of the messages in rule order and holds each
message exactly when its rule is violated: projectCode blank; name blank;
startDate and endDate both truthy, both parseable and endDate earlier than
startDate; status truthy and none of planning, active, on-hold, completed.  The
list is empty exactly when none of these holds. -/
theorem validateProjectData_all_rules (project : Obj) :
    ((∃ errs, validateProjectData project = Except.ok errs) ↔
      (strOrFalsy (getField project "projectCode") ∧ strOrFalsy (getField project "name"))) ∧
    ∀ errs, validateProjectData project = Except.ok errs →
      errs.Sublist projectMessages ∧
      (msgCodeRequired ∈ errs ↔ ¬ nonBlank (getField project "projectCode")) ∧
      (msgNameRequired ∈ errs ↔ ¬ nonBlank (getField project "name")) ∧
      (msgEndBeforeStart ∈ errs ↔
        truthy (getField project "startDate") = true ∧
        truthy (getField project "endDate") = true ∧
        ∃ e s, toDate (getField project "endDate") = some e ∧
          toDate (getField project "startDate") = some s ∧ e < s) ∧
      (msgStatusInvalid ∈ errs ↔
        truthy (getField project "status") = true ∧
          ¬ ∃ s ∈ validStatuses, getField project "status" = JsVal.str s) ∧
      (errs = [] ↔
        nonBlank (getField project "projectCode") ∧
        nonBlank (getField project "name") ∧
        ¬ (truthy (getField project "startDate") = true ∧
          truthy (getField project "endDate") = true ∧
          ∃ e s, toDate (getField project "endDate") = some e ∧
            toDate (getField project "startDate") = some s ∧ e < s) ∧
        (truthy (getField project "status") = false ∨
          ∃ s ∈ validStatuses, getField project "status" = JsVal.str s)) := by
  refine ⟨validateProjectData_returns_iff project, ?_⟩
  intro errs herrs
  obtain ⟨b1, b2, h1, h2, he⟩ := validateProjectData_ok herrs
  obtain ⟨hc, hn⟩ := (validateProjectData_returns_iff project).mp ⟨errs, herrs⟩
  obtain ⟨b1', h1', hb1⟩ := isBlank_typed hc
  obtain ⟨b2', h2', hb2⟩ := isBlank_typed hn
  rw [h1] at h1'
  rw [h2] at h2'
  cases h1'
  cases h2'
  subst he
  obtain ⟨g0, g1, g2, g3, g4, g5⟩ := project_list_rules b1 b2
    ((truthy (getField project "startDate") && truthy (getField project "endDate") &&
      dateLt (toDate (getField project "endDate")) (toDate (getField project "startDate"))) = true)
    ((truthy (getField project "status") &&
      !includesStr validStatuses (getField project "status")) = true)
  have hD : (truthy (getField project "startDate") && truthy (getField project "endDate") &&
      dateLt (toDate (getField project "endDate")) (toDate (getField project "startDate"))) = true ↔
      (truthy (getField project "startDate") = true ∧
        truthy (getField project "endDate") = true ∧
        ∃ e s, toDate (getField project "endDate") = some e ∧
          toDate (getField project "startDate") = some s ∧ e < s) := by
    rw [Bool.and_eq_true, Bool.and_eq_true, dateLt_iff, and_assoc]
  have hS : (truthy (getField project "status") &&
      !includesStr validStatuses (getField project "status")) = true ↔
      (truthy (getField project "status") = true ∧
        ¬ ∃ s ∈ validStatuses, getField project "status" = JsVal.str s) := by
    rw [← includesStr_iff]; simp
  have hb1f : b1 = false ↔ nonBlank (getField project "projectCode") := by
    cases b1 <;> simp_all
  have hb2f : b2 = false ↔ nonBlank (getField project "name") := by
    cases b2 <;> simp_all
  refine ⟨g0, g1.trans hb1, g2.trans hb2, g3.trans hD, g4.trans hS, g5.trans ?_⟩
  rw [hb1f, hb2f, hD, hS]
  have e2 : (¬ (truthy (getField project "status") = true ∧
      ¬ ∃ s ∈ validStatuses, getField project "status" = JsVal.str s)) ↔
      (truthy (getField project "status") = false ∨
        ∃ s ∈ validStatuses, getField project "status" = JsVal.str s) := by
    cases truthy (getField project "status") <;> simp
  rw [e2]

theorem validateProjectData_all_rules_witness :
    validateProjectData
      [("projectCode", JsVal.str "PRJ-002"), ("name", JsVal.str "Shop"),
        ("startDate", JsVal.str "2025-06-10"), ("endDate", JsVal.str "2025-06-09"),
        ("status", JsVal.str "done")] = Except.ok [msgEndBeforeStart, msgStatusInvalid] ∧
    nonBlank (JsVal.str "Shop") ∧
    (∃ e s, toDate (JsVal.str "2025-06-09") = some e ∧
      toDate (JsVal.str "2025-06-10") = some s ∧ e < s) ∧
    ¬ ∃ s ∈ validStatuses, JsVal.str "done" = JsVal.str s :=
  let h := (validateProjectData_all_rules
    [("projectCode", JsVal.str "PRJ-002"), ("name", JsVal.str "Shop"),
      ("startDate", JsVal.str "2025-06-10"), ("endDate", JsVal.str "2025-06-09"),
      ("status", JsVal.str "done")]).2 [msgEndBeforeStart, msgStatusInvalid] (by decide)
  ⟨by decide,
    Classical.not_not.mp (fun hn => absurd (h.2.2.1.mpr hn) (by decide)),
    (h.2.2.2.1.mp (by decide)).2.2,
    (h.2.2.2.2.1.mp (by decide)).2⟩

/-! ## No partial writes -/

theorem length_pos_of_ne_nil {errs : List String} (h : errs ≠ []) : errs.length > 0 :=
  List.length_pos.mpr h

/-- C10: no partial writes.  When the validator returns a non-empty list, the
create and update handlers of routes/projects.js and the create handler of
routes/progress.js answer 400 with that list and leave the store as it was; so
does the update handler of routes/progress.js once its `:id` parameter parsed as
a number (the step before the validator), and with an `:id` that does not parse
it answers 400 and writes nothing either. -/
theorem no_partial_writes (env : Env) (st : Store) (errs : List String) (hne : errs ≠ []) :
    (∀ projectData, validateProjectData projectData = Except.ok errs →
      createProject env st projectData = (st, validationFailure errs)) ∧
    (∀ projectCode updateData,
      validateProjectData (setField updateData "projectCode" (JsVal.str projectCode)) =
        Except.ok errs →
      updateProject env st projectCode updateData = (st, validationFailure errs)) ∧
    (∀ progressData, validateProgressData env.now progressData = Except.ok errs →
      createProgress env st progressData = (st, validationFailure errs)) ∧
    (∀ id updateData, validateProgressData env.now updateData = Except.ok errs →
      (updateProgress env st id updateData).1 = st ∧
      (updateProgress env st id updateData).2.status = 400 ∧
      ((parseInt (JsVal.str id)).isNaN = false →
        updateProgress env st id updateData = (st, validationFailure errs))) := by
  have hl := length_pos_of_ne_nil hne
  refine ⟨?_, ?_, ?_, ?_⟩
  · intro projectData hv
    simp [createProject, hv, hl]
  · intro projectCode updateData hv
    simp [updateProject, hv, hl]
  · intro progressData hv
    simp [createProgress, hv, hl]
  · intro id updateData hv
    cases hid : (parseInt (JsVal.str id)).isNaN with
    | true => simp [updateProgress, hid, failure]
    | false => simp [updateProgress, hid, hv, hl, validationFailure]

theorem no_partial_writes_witness :
    createProject sampleEnv sampleStore [("projectCode", JsVal.str "PRJ-002")] =
      (sampleStore, validationFailure [msgNameRequired]) ∧
    updateProgress sampleEnv sampleStore "17"
        [("reporter", JsVal.str "amy"), ("projectCode", JsVal.str "PRJ-001")] =
      (sampleStore, validationFailure [msgDateRequired]) :=
  ⟨(no_partial_writes sampleEnv sampleStore [msgNameRequired] (by decide)).1
      [("projectCode", JsVal.str "PRJ-002")] (by decide),
    ((no_partial_writes sampleEnv sampleStore [msgDateRequired] (by decide)).2.2.2
      "17" [("reporter", JsVal.str "amy"), ("projectCode", JsVal.str "PRJ-001")]
      (by decide)).2.2 (by decide)⟩

/-! ## Lemmas on arithmetic, sorting and slicing -/

theorem ratAdd_eq (a b : Rat) : ratAdd a b = a + b := (Rat.add_def' a b).symm

theorem ratMul_eq (a b : Rat) : ratMul a b = a * b := by
  unfold ratMul
  rw [Rat.mkRat_eq_div]
  conv_rhs => rw [← Rat.num_div_den a, ← Rat.num_div_den b]
  push_cast
  rw [div_mul_div_comm]

theorem ratDiv_eq (a b : Rat) (hb : b ≠ 0) : ratDiv a b = a / b := by
  unfold ratDiv
  have hbn : b.num ≠ 0 := Rat.num_ne_zero.mpr hb
  rw [Rat.mkRat_eq_div]
  have hda : (a.den : ℚ) ≠ 0 := by exact_mod_cast a.den_ne_zero
  have hdb : (b.den : ℚ) ≠ 0 := by exact_mod_cast b.den_ne_zero
  have hnb : (b.num : ℚ) ≠ 0 := by exact_mod_cast hbn
  conv_rhs => rw [← Rat.num_div_den a, ← Rat.num_div_den b]
  rcases lt_or_gt_of_ne hbn with h | h
  · have h1 : b.num.sign = -1 := Int.sign_eq_neg_one_of_neg h
    have h3 : ((b.num.natAbs : ℕ) : ℚ) = - (b.num : ℚ) := by
      rw [Nat.cast_natAbs, Int.cast_abs, abs_of_neg (by exact_mod_cast h)]
    rw [h1]
    push_cast
    rw [h3]
    field_simp
  · have h1 : b.num.sign = 1 := Int.sign_eq_one_of_pos h
    have h3 : ((b.num.natAbs : ℕ) : ℚ) = (b.num : ℚ) := by
      rw [Nat.cast_natAbs, Int.cast_abs, abs_of_pos (by exact_mod_cast h)]
    rw [h1]
    push_cast
    rw [h3]
    field_simp

theorem ceilRat_eq (q : Rat) : ceilRat q = ⌈q⌉ := by
  unfold ceilRat
  have h : Rat.floor (- q) = ⌊- q⌋ := by rw [Rat.floor_def', Rat.floor_def]
  rw [h, Int.floor_neg, neg_neg]

theorem truncRat_intCast (i : Int) : truncRat (i : Rat) = i := by
  unfold truncRat
  have hf : ∀ j : Int, Rat.floor (j : Rat) = j := by
    intro j
    rw [Rat.floor_def']
    simp
  by_cases h : (0 : Rat) ≤ (i : Rat)
  · rw [if_pos h, hf]
  · rw [if_neg h]
    have : (-(i : Rat)) = ((-i : Int) : Rat) := by push_cast; rfl
    rw [this, hf, neg_neg]

theorem add_intNum (a b : Int) : JsNum.add (intNum a) (intNum b) = intNum (a + b) := by
  simp [JsNum.add, intNum, ratAdd_eq]

theorem sub_intNum_one (a : Int) : JsNum.sub (intNum a) (JsNum.fin 1) = intNum (a - 1) := by
  simp [JsNum.sub, JsNum.neg, JsNum.add, intNum, ratAdd_eq, sub_eq_add_neg]

theorem mul_intNum (a b : Int) : JsNum.mul (intNum a) (intNum b) = intNum (a * b) := by
  simp [JsNum.mul, intNum, ratMul_eq]

theorem insertSorted_perm (le : Obj → Obj → Bool) (a : Obj) (l : List Obj) :
    (insertSorted le a l).Perm (a :: l) := by
  induction l with
  | nil => exact List.Perm.refl _
  | cons b l ih =>
    unfold insertSorted
    split
    · exact List.Perm.refl _
    · exact (List.Perm.cons b ih).trans (List.Perm.swap a b l)

theorem jsSort_perm (cmp : Obj → Obj → JsNum) (l : List Obj) : (jsSort cmp l).Perm l := by
  induction l with
  | nil => exact List.Perm.refl _
  | cons a l ih =>
    show (insertSorted (notAfter cmp) a (jsSort cmp l)).Perm (a :: l)
    exact (insertSorted_perm _ a _).trans (List.Perm.cons a ih)

theorem jsSort_length (cmp : Obj → Obj → JsNum) (l : List Obj) :
    (jsSort cmp l).length = l.length := (jsSort_perm cmp l).length_eq

theorem mem_jsSort (cmp : Obj → Obj → JsNum) (l : List Obj) (x : Obj) :
    x ∈ jsSort cmp l ↔ x ∈ l := (jsSort_perm cmp l).mem_iff

theorem insertSorted_pairwise (le : Obj → Obj → Bool) (R : Obj → Obj → Prop) (S : Obj → Prop)
    (hle : ∀ a b, S a → S b → le a b = true → R a b)
    (hnle : ∀ a b, S a → S b → le a b = false → R b a)
    (htrans : ∀ a b c, S a → S b → S c → R a b → R b c → R a c)
    (a : Obj) (l : List Obj) (ha : S a) (hl : ∀ x ∈ l, S x) (hp : l.Pairwise R) :
    (insertSorted le a l).Pairwise R := by
  induction l with
  | nil => simp [insertSorted]
  | cons b l ih =>
    have hb : S b := hl b (List.mem_cons_self _ _)
    have hl' : ∀ x ∈ l, S x := fun x hx => hl x (List.mem_cons_of_mem _ hx)
    rw [List.pairwise_cons] at hp
    unfold insertSorted
    cases h : le a b with
    | true =>
      simp only [if_true]
      refine List.pairwise_cons.mpr ⟨?_, List.pairwise_cons.mpr hp⟩
      intro x hx
      rcases List.mem_cons.mp hx with rfl | hx
      · exact hle a x ha hb h
      · exact htrans a b x ha hb (hl' x hx) (hle a b ha hb h) (hp.1 x hx)
    | false =>
      simp only [Bool.false_eq_true, if_false]
      refine List.pairwise_cons.mpr ⟨?_, ih hl' hp.2⟩
      intro x hx
      rcases List.mem_cons.mp ((insertSorted_perm le a l).mem_iff.mp hx) with rfl | hx
      · exact hnle x b ha hb h
      · exact hp.1 x hx

theorem jsSort_pairwise (cmp : Obj → Obj → JsNum) (R : Obj → Obj → Prop) (S : Obj → Prop)
    (hle : ∀ a b, S a → S b → notAfter cmp a b = true → R a b)
    (hnle : ∀ a b, S a → S b → notAfter cmp a b = false → R b a)
    (htrans : ∀ a b c, S a → S b → S c → R a b → R b c → R a c)
    (l : List Obj) (hl : ∀ x ∈ l, S x) : (jsSort cmp l).Pairwise R := by
  induction l with
  | nil => exact List.Pairwise.nil
  | cons a l ih =>
    have hl' : ∀ x ∈ l, S x := fun x hx => hl x (List.mem_cons_of_mem _ hx)
    show (insertSorted (notAfter cmp) a (jsSort cmp l)).Pairwise R
    exact insertSorted_pairwise _ R S hle hnle htrans a _ (hl a (List.mem_cons_self _ _))
      (fun x hx => hl' x ((mem_jsSort cmp l x).mp hx)) (ih hl')

theorem relIndex_natNum (len k : Nat) : relIndex len (natNum k) = min k len := by
  unfold natNum intNum relIndex
  simp only [truncRat_intCast]
  have : ¬ ((k : Int) < 0) := by omega
  simp [this]

theorem relIndex_zero (len : Nat) : relIndex len (JsNum.fin 0) = 0 := by
  have h := relIndex_natNum len 0
  simpa [natNum, intNum] using h

theorem drop_take_min (l : List Obj) (s e : Nat) :
    (l.drop (min s l.length)).take (min e l.length - min s l.length) =
      (l.drop s).take (e - s) := by
  by_cases hs : s ≤ l.length
  · rw [Nat.min_eq_left hs]
    by_cases he : e ≤ l.length
    · rw [Nat.min_eq_left he]
    · have he' : l.length ≤ e := by omega
      rw [Nat.min_eq_right he']
      rw [List.take_of_length_le (by simp), List.take_of_length_le (by simp; omega)]
  · have hs' : l.length ≤ s := by omega
    rw [Nat.min_eq_right hs']
    simp [List.drop_of_length_le hs']

theorem jsSlice_natNum (l : List Obj) (s e : Nat) :
    jsSlice l (natNum s) (natNum e) = (l.drop s).take (e - s) := by
  unfold jsSlice
  rw [relIndex_natNum, relIndex_natNum, drop_take_min]

/-! ## The report list: filter, sort, paginate -/

theorem given_of_parseInt {x : Option String} {k : Nat} (h : parseInt (param x) = natNum k) :
    given x = true := by
  cases x with
  | none => simp [param, parseInt, natNum, intNum] at h
  | some s =>
    by_cases hs : s = ""
    · subst hs
      revert h
      simp only [param, natNum, intNum]
      intro h
      have : parseInt (JsVal.str "") = JsNum.nan := by decide
      rw [this] at h
      exact JsNum.noConfusion h
    · simp [given, param, truthy, hs]

theorem paginate_page (q : ProgressQuery) (l : List Obj) (p n : Nat) (hp : 1 ≤ p)
    (hpage : parseInt (param q.page) = natNum p) (hlimit : parseInt (param q.limit) = natNum n) :
    paginate q l = (l.drop ((p - 1) * n)).take n := by
  have g1 := given_of_parseInt hpage
  have g2 := given_of_parseInt hlimit
  unfold paginate
  simp only [g1, g2, Bool.and_self, if_true, hpage, hlimit]
  have e1 : JsNum.mul (JsNum.sub (natNum p) (JsNum.fin 1)) (natNum n) = natNum ((p - 1) * n) := by
    unfold natNum
    rw [sub_intNum_one, mul_intNum]
    congr 1
    push_cast
    rw [Nat.cast_sub hp]
    simp
  rw [e1]
  have e2 : JsNum.add (natNum ((p - 1) * n)) (natNum n) = natNum ((p - 1) * n + n) := by
    unfold natNum
    rw [add_intNum]
    congr 1
  rw [e2, jsSlice_natNum]
  congr 1
  omega

theorem paginate_limit (q : ProgressQuery) (l : List Obj) (n : Nat) (hpage : given q.page = false)
    (hlimit : parseInt (param q.limit) = natNum n) : paginate q l = l.take n := by
  have g2 := given_of_parseInt hlimit
  unfold paginate
  simp only [hpage, g2, Bool.false_and, Bool.false_eq_true, if_false, if_true, hlimit]
  have h0 : JsNum.fin 0 = natNum 0 := by simp [natNum, intNum]
  rw [h0, jsSlice_natNum]
  simp

theorem paginate_all (q : ProgressQuery) (l : List Obj) (hlimit : given q.limit = false) :
    paginate q l = l := by
  unfold paginate
  simp [hlimit]

theorem listProgress_ok {eng : Engine} {st : Store} {q : ProgressQuery} {filtered : List Obj}
    (hf : filterProgress eng q st.progress = Except.ok filtered) :
    listProgress eng st q =
      { status := 200, success := true, error := Option.none,
        data := paginate q (sortProgress eng q filtered), total := Option.none,
        pagination := some (paginationOf q (sortProgress eng q filtered).length) } := by
  unfold listProgress
  rw [hf]

theorem sortProgress_length (eng : Engine) (q : ProgressQuery) (l : List Obj) :
    (sortProgress eng q l).length = l.length := jsSort_length _ l

/-- C11: whenever the filter stage returns the sequence `filtered` (it throws,
and the answer is 500, only on a stored record with a field of the wrong type),
the list query answers 200, `pagination.total` is the length of `filtered`, and
`data` is cut out of the filtered-then-sorted sequence: for page `p ≥ 1` and
limit `n ≥ 1` the elements at positions `(p-1)*n` up to but excluding `p*n`,
with only a limit the first `n`, with no limit all of it. -/
theorem list_filter_sort_paginate (eng : Engine) (st : Store) (q : ProgressQuery)
    (filtered : List Obj) (hf : filterProgress eng q st.progress = Except.ok filtered) :
    (listProgress eng st q).status = 200 ∧
    (listProgress eng st q).pagination.map (fun p => p.total) = some filtered.length ∧
    (∀ p n : Nat, 1 ≤ p → 1 ≤ n → parseInt (param q.page) = natNum p →
      parseInt (param q.limit) = natNum n →
      (listProgress eng st q).data =
        ((sortProgress eng q filtered).drop ((p - 1) * n)).take n) ∧
    (∀ n : Nat, 1 ≤ n → given q.page = false → parseInt (param q.limit) = natNum n →
      (listProgress eng st q).data = (sortProgress eng q filtered).take n) ∧
    (given q.limit = false → (listProgress eng st q).data = sortProgress eng q filtered) := by
  rw [listProgress_ok hf]
  refine ⟨rfl, ?_, ?_, ?_, ?_⟩
  · simp [paginationOf, sortProgress_length]
  · intro p n hp _ hpage hlimit
    exact paginate_page q _ p n hp hpage hlimit
  · intro n _ hpage hlimit
    exact paginate_limit q _ n hpage hlimit
  · intro hlimit
    exact paginate_all q _ hlimit

theorem list_filter_sort_paginate_witness :
    (listProgress sampleEngine reportStore (pageQuery "2" "2")).data =
      ((sortProgress sampleEngine (pageQuery "2" "2") reportStore.progress).drop
        ((2 - 1) * 2)).take 2 ∧
    (listProgress sampleEngine reportStore (pageQuery "2" "2")).data =
      [sampleReport 1 "amy" "PRJ-001" "2025-06-01" 8 "否"] :=
  ⟨(list_filter_sort_paginate sampleEngine reportStore (pageQuery "2" "2")
      reportStore.progress (by decide)).2.2.1 2 2 (by decide) (by decide) (by decide) (by decide),
    by decide⟩

/-! ## The number of pages -/

theorem totalPages_eq (q : ProgressQuery) (total n : Nat) (hn : 1 ≤ n)
    (hlimit : parseInt (param q.limit) = natNum n) :
    (paginationOf q total).totalPages = intNum ⌈(total : ℚ) / (n : ℚ)⌉ := by
  have g := given_of_parseInt hlimit
  have hn0 : ((n : ℤ) : ℚ) ≠ 0 := by
    have : (n : ℤ) ≠ 0 := by omega
    exact_mod_cast this
  simp only [paginationOf, g, if_true, hlimit, natNum, intNum, JsNum.div, hn0, if_false,
    JsNum.ceil]
  rw [ratDiv_eq _ _ hn0, ceilRat_eq]
  push_cast
  rfl

theorem page_nonempty_iff (l : List Obj) (p n : Nat) (hn : 1 ≤ n) :
    (l.drop ((p - 1) * n)).take n ≠ [] ↔ (p - 1) * n < l.length := by
  rw [← List.length_pos, List.length_take, List.length_drop]
  omega

theorem le_ceil_div_iff (total p n : Nat) (hp : 1 ≤ p) (hn : 1 ≤ n) :
    (p : ℤ) ≤ ⌈(total : ℚ) / (n : ℚ)⌉ ↔ (p - 1) * n < total := by
  have hnq : (0 : ℚ) < (n : ℚ) := by exact_mod_cast hn
  have h1 : (p : ℤ) ≤ ⌈(total : ℚ) / (n : ℚ)⌉ ↔ ((p : ℤ) - 1) < ⌈(total : ℚ) / (n : ℚ)⌉ := by
    omega
  rw [h1, Int.lt_ceil, lt_div_iff₀ hnq]
  have h2 : (((p : ℤ) - 1 : ℤ) : ℚ) * (n : ℚ) = (((p - 1) * n : ℕ) : ℚ) := by
    push_cast
    rw [Nat.cast_sub hp]
    simp
  rw [h2]
  exact_mod_cast Iff.rfl

/-- C12, as the claim states it, fails.  With `limit=0` and three reports,
`totalPages` is Infinity and page 1, which lies between 1 and `totalPages`, is
empty.  With `page=-1&limit=1` the page is below 1 and the answer holds a
record: a negative start index of `slice` counts from the end. -/
theorem totalPages_not_page_bound :
    (listProgress sampleEngine reportStore (pageQuery "1" "0")).pagination.map
      (fun p => p.totalPages) = some (JsNum.inf false) ∧
    (listProgress sampleEngine reportStore (pageQuery "1" "0")).data = [] ∧
    parseInt (JsVal.str "-1") = intNum (-1) ∧
    (listProgress sampleEngine reportStore (pageQuery "-1" "1")).pagination.map
      (fun p => p.totalPages) = some (JsNum.fin 3) ∧
    (listProgress sampleEngine reportStore (pageQuery "-1" "1")).data =
      [sampleReport 3 "amy" "PRJ-001" "2025-06-02" 4 "否"] := by
  decide

/-- C12, amended: whenever the filter stage returns and the limit parses to an
integer `n ≥ 1`, `pagination.totalPages` is `ceil(total / n)`, and for every
page that parses to an integer `p ≥ 0` the data is non-empty exactly when
`1 ≤ p ≤ totalPages`. -/
theorem totalPages_bounds_pages (eng : Engine) (st : Store) (q : ProgressQuery)
    (filtered : List Obj) (n : Nat)
    (hf : filterProgress eng q st.progress = Except.ok filtered) (hn : 1 ≤ n)
    (hlimit : parseInt (param q.limit) = natNum n) :
    (listProgress eng st q).pagination.map (fun p => p.totalPages) =
      some (intNum ⌈(filtered.length : ℚ) / (n : ℚ)⌉) ∧
    ∀ p : Nat, parseInt (param q.page) = natNum p →
      ((listProgress eng st q).data ≠ [] ↔
        1 ≤ p ∧ (p : ℤ) ≤ ⌈(filtered.length : ℚ) / (n : ℚ)⌉) := by
  rw [listProgress_ok hf]
  refine ⟨?_, ?_⟩
  · simp only [Option.map_some', sortProgress_length]
    rw [totalPages_eq q _ n hn hlimit]
  · intro p hpage
    simp only
    by_cases hp : 1 ≤ p
    · rw [paginate_page q _ p n hp hpage hlimit, page_nonempty_iff _ p n hn,
        sortProgress_length, le_ceil_div_iff _ p n hp hn]
      simp [hp]
    · have hp0 : p = 0 := by omega
      subst hp0
      have g1 := given_of_parseInt hpage
      have g2 := given_of_parseInt hlimit
      have hempty : paginate q (sortProgress eng q filtered) = [] := by
        unfold paginate
        simp only [g1, g2, Bool.and_self, if_true, hpage, hlimit]
        have e1 : JsNum.mul (JsNum.sub (natNum 0) (JsNum.fin 1)) (natNum n) =
            intNum (-(n : ℤ)) := by
          unfold natNum
          rw [sub_intNum_one, mul_intNum]
          congr 1
          simp
        have e2 : JsNum.add (intNum (-(n : ℤ))) (natNum n) = natNum 0 := by
          unfold natNum
          rw [add_intNum]
          congr 1
          simp
        rw [e1, e2]
        unfold jsSlice
        rw [relIndex_natNum]
        simp
      rw [hempty]
      simp

theorem totalPages_bounds_pages_witness :
    (listProgress sampleEngine reportStore (pageQuery "2" "2")).pagination.map
      (fun p => p.totalPages) = some (intNum ⌈((3 : ℕ) : ℚ) / ((2 : ℕ) : ℚ)⌉) ∧
    ((listProgress sampleEngine reportStore (pageQuery "2" "2")).data ≠ [] ↔
      1 ≤ 2 ∧ ((2 : ℕ) : ℤ) ≤ ⌈((3 : ℕ) : ℚ) / ((2 : ℕ) : ℚ)⌉) :=
  ⟨(totalPages_bounds_pages sampleEngine reportStore (pageQuery "2" "2")
      reportStore.progress 2 (by decide) (by decide) (by decide)).1,
    (totalPages_bounds_pages sampleEngine reportStore (pageQuery "2" "2")
      reportStore.progress 2 (by decide) (by decide) (by decide)).2 2 (by decide)⟩

/-! ## The filters of the report list -/

theorem filterM_eq_filter (f : Obj → Except JsError Bool) (g : Obj → Bool) (l : List Obj)
    (h : ∀ x ∈ l, f x = Except.ok (g x)) : filterM f l = Except.ok (l.filter g) := by
  induction l with
  | nil => rfl
  | cons x xs ih =>
    have hx := h x (List.mem_cons_self _ _)
    have hxs := ih fun y hy => h y (List.mem_cons_of_mem _ hy)
    unfold filterM
    rw [hx, hxs]
    cases hg : g x <;> simp [Except.bind, List.filter, hg]

theorem given_some {x : Option String} (h : given x = true) :
    ∃ s, x = some s ∧ s ≠ "" := by
  cases x with
  | none => simp [given, param, truthy] at h
  | some s => exact ⟨s, rfl, by simpa [given, param, truthy] using h⟩

theorem startsWith_nil_left (needle : List Char) (h : needle ≠ []) :
    startsWith [] needle = false := by
  cases needle with
  | nil => exact absurd rfl h
  | cons c cs => rfl

theorem strIncludes_empty (needle : String) (h : needle ≠ "") : strIncludes "" needle = false := by
  unfold strIncludes
  have hd : needle.data ≠ [] := by
    intro he
    apply h
    cases needle
    simp_all
  cases hn : needle.data with
  | nil => exact absurd hn hd
  | cons c cs => rfl

theorem strictEq_param {v : JsVal} {x : Option String} (h : given x = true) :
    strictEq v (param x) = decide (v = param x) := by
  obtain ⟨s, rfl, _⟩ := given_some h
  simp only [param]
  cases hv : strictEq v (JsVal.str s) with
  | true => simp [strictEq_str.mp hv]
  | false =>
    have : v ≠ JsVal.str s := fun he => by
      rw [strictEq_str.mpr he] at hv
      exact Bool.noConfusion hv
    simp [this]

theorem reporterTest_typed {needle : String} {p : Obj} (hn : needle ≠ "")
    (hp : ∃ s, getField p "reporter" = JsVal.str s) :
    reporterTest needle p = Except.ok (textContains (getField p "reporter") needle) := by
  obtain ⟨s, hs⟩ := hp
  unfold reporterTest
  rw [hs]
  by_cases he : s = ""
  · subst he
    simp [truthy, textContains, strIncludes_empty needle hn]
  · simp [truthy, he, callIncludes, textContains]

theorem fieldHas_typed (eng : Engine) {v : JsVal} (word : String) (hv : strOrFalsy v) :
    fieldHas eng v (eng.toLowerCase word) = Except.ok (truthy v && lowerContains eng v word) := by
  unfold fieldHas
  rcases hv with hv | ⟨s, rfl⟩
  · simp [hv]
  · by_cases he : s = ""
    · subst he; simp [truthy]
    · simp [truthy, he, callLower, Except.map, lowerContains]

theorem searchTest_typed (eng : Engine) (word : String) {p : Obj} (hp : reportTyped p) :
    searchTest eng (eng.toLowerCase word) p = Except.ok (
      (truthy (getField p "content") && lowerContains eng (getField p "content") word) ||
      (truthy (getField p "blocker") && lowerContains eng (getField p "blocker") word) ||
      (truthy (getField p "plan") && lowerContains eng (getField p "plan") word) ||
      lowerContains eng (getField p "reporter") word) := by
  obtain ⟨⟨s, hs⟩, _, hc, hb, hpl⟩ := hp
  unfold searchTest
  rw [fieldHas_typed eng word hc, fieldHas_typed eng word hb, fieldHas_typed eng word hpl, hs]
  generalize (truthy (getField p "content") && lowerContains eng (getField p "content") word) = a
  generalize (truthy (getField p "blocker") && lowerContains eng (getField p "blocker") word) = b
  generalize (truthy (getField p "plan") && lowerContains eng (getField p "plan") word) = c
  cases a <;> cases b <;> cases c <;>
    simp [Except.bind, callLower, Except.map, lowerContains]

theorem jsGe_typed {v : JsVal} {x : Option String} (hx : given x = true)
    (hv : ∃ d, v = JsVal.str d) : jsGe v (param x) = textAtLeast v (x.getD "") := by
  obtain ⟨s, rfl, _⟩ := given_some hx
  obtain ⟨d, rfl⟩ := hv
  simp [jsGe, jsLt, primString, param, textAtLeast]

theorem jsLe_typed {v : JsVal} {x : Option String} (hx : given x = true)
    (hv : ∃ d, v = JsVal.str d) : jsLe v (param x) = textAtMost v (x.getD "") := by
  obtain ⟨s, rfl, _⟩ := given_some hx
  obtain ⟨d, rfl⟩ := hv
  simp [jsLe, jsLt, primString, param, textAtMost]

theorem filter_congr_mem {l : List Obj} {f g : Obj → Bool} (h : ∀ x ∈ l, f x = g x) :
    l.filter f = l.filter g := List.filter_congr h

theorem filterProgress_typed (eng : Engine) (q : ProgressQuery) (progress : List Obj)
    (htyped : ∀ p ∈ progress, reportTyped p) :
    filterProgress eng q progress = Except.ok (progress.filter (matchesQuery eng q)) := by
  unfold filterProgress
  dsimp only
  have s1 : (if given q.projectCode
      then progress.filter fun p => strictEq (getField p "projectCode") (param q.projectCode)
      else progress) = progress.filter fun p =>
        (!given q.projectCode || decide (getField p "projectCode" = param q.projectCode)) := by
    cases h : given q.projectCode with
    | false => simp
    | true => simp only [if_true, Bool.not_true, Bool.false_or]; exact
        filter_congr_mem fun x _ => strictEq_param h
  rw [s1]
  set l1 := progress.filter fun p =>
    (!given q.projectCode || decide (getField p "projectCode" = param q.projectCode)) with hl1
  have t1 : ∀ p ∈ l1, reportTyped p := fun p hp => htyped p (List.mem_of_mem_filter hp)
  have s2 : (if given q.reporter then filterM (reporterTest (q.reporter.getD "")) l1
      else Except.ok l1) = Except.ok (l1.filter fun p =>
        (!given q.reporter || textContains (getField p "reporter") (q.reporter.getD ""))) := by
    cases h : given q.reporter with
    | false => simp
    | true =>
      obtain ⟨s, hs, hne⟩ := given_some h
      simp only [if_true, Bool.not_true, Bool.false_or]
      apply filterM_eq_filter
      intro x hx
      rw [hs]
      exact reporterTest_typed hne (t1 x hx).1
  rw [s2]
  simp only [Except.bind]
  set l2 := l1.filter fun p =>
    (!given q.reporter || textContains (getField p "reporter") (q.reporter.getD "")) with hl2
  have t2 : ∀ p ∈ l2, reportTyped p := fun p hp => t1 p (List.mem_of_mem_filter hp)
  have s3 : (if given q.startDate
      then l2.filter fun p => jsGe (getField p "date") (param q.startDate)
      else l2) = l2.filter fun p =>
        (!given q.startDate || textAtLeast (getField p "date") (q.startDate.getD "")) := by
    cases h : given q.startDate with
    | false => simp
    | true => simp only [if_true, Bool.not_true, Bool.false_or]; exact
        filter_congr_mem fun x hx => jsGe_typed h (t2 x hx).2.1
  rw [s3]
  set l3 := l2.filter fun p =>
    (!given q.startDate || textAtLeast (getField p "date") (q.startDate.getD "")) with hl3
  have t3 : ∀ p ∈ l3, reportTyped p := fun p hp => t2 p (List.mem_of_mem_filter hp)
  have s4 : (if given q.endDate
      then l3.filter fun p => jsLe (getField p "date") (param q.endDate)
      else l3) = l3.filter fun p =>
        (!given q.endDate || textAtMost (getField p "date") (q.endDate.getD "")) := by
    cases h : given q.endDate with
    | false => simp
    | true => simp only [if_true, Bool.not_true, Bool.false_or]; exact
        filter_congr_mem fun x hx => jsLe_typed h (t3 x hx).2.1
  rw [s4]
  set l4 := l3.filter fun p =>
    (!given q.endDate || textAtMost (getField p "date") (q.endDate.getD "")) with hl4
  have t4 : ∀ p ∈ l4, reportTyped p := fun p hp => t3 p (List.mem_of_mem_filter hp)
  have s5 : (if given q.needHelp
      then l4.filter fun p => strictEq (getField p "needHelp") (param q.needHelp)
      else l4) = l4.filter fun p =>
        (!given q.needHelp || decide (getField p "needHelp" = param q.needHelp)) := by
    cases h : given q.needHelp with
    | false => simp
    | true => simp only [if_true, Bool.not_true, Bool.false_or]; exact
        filter_congr_mem fun x _ => strictEq_param h
  rw [s5]
  set l5 := l4.filter fun p =>
    (!given q.needHelp || decide (getField p "needHelp" = param q.needHelp)) with hl5
  have t5 : ∀ p ∈ l5, reportTyped p := fun p hp => t4 p (List.mem_of_mem_filter hp)
  have s6 : (if given q.search
      then filterM (searchTest eng (eng.toLowerCase (q.search.getD ""))) l5
      else Except.ok l5) = Except.ok (l5.filter fun p =>
        (!given q.search ||
          (truthy (getField p "content") &&
            lowerContains eng (getField p "content") (q.search.getD "")) ||
          (truthy (getField p "blocker") &&
            lowerContains eng (getField p "blocker") (q.search.getD "")) ||
          (truthy (getField p "plan") &&
            lowerContains eng (getField p "plan") (q.search.getD "")) ||
          lowerContains eng (getField p "reporter") (q.search.getD ""))) := by
    cases h : given q.search with
    | false => simp
    | true =>
      simp only [if_true, Bool.not_true, Bool.false_or]
      apply filterM_eq_filter
      intro x hx
      exact searchTest_typed eng _ (t5 x hx)
  rw [s6]
  congr 1
  rw [hl5, hl4, hl3, hl2, hl1]
  simp only [List.filter_filter]
  apply List.filter_congr
  intro x _
  simp only [matchesQuery]
  cases (!given q.projectCode || decide (getField x "projectCode" = param q.projectCode)) <;>
    cases (!given q.reporter || textContains (getField x "reporter") (q.reporter.getD "")) <;>
    cases (!given q.startDate || textAtLeast (getField x "date") (q.startDate.getD "")) <;>
    cases (!given q.endDate || textAtMost (getField x "date") (q.endDate.getD "")) <;>
    cases (!given q.needHelp || decide (getField x "needHelp" = param q.needHelp)) <;>
    simp

theorem reportStore_typed : ∀ p ∈ reportStore.progress, reportTyped p := by
  intro p hp
  simp only [reportStore, List.mem_cons, List.mem_singleton, List.not_mem_nil, or_false] at hp
  rcases hp with rfl | rfl | rfl <;>
    exact ⟨⟨_, rfl⟩, ⟨_, rfl⟩, Or.inr ⟨_, rfl⟩, Or.inr ⟨_, rfl⟩, Or.inr ⟨_, rfl⟩⟩

/-- C13: on a collection whose reports have the text fields of the data model
(reporter and date strings; content, blocker, plan strings or falsy), the
sequence that the list query sorts and paginates is exactly the stored reports,
in stored order, that satisfy every filter given (a parameter that is absent or
empty gives no filter): projectCode equal, reporter containing the text,
startDate ≤ date ≤ endDate in string order, needHelp equal, the search word
without regard to case in content, blocker, plan or reporter.  With no filter
given it is the whole collection, whatever the reports hold. -/
theorem filters_compose (eng : Engine) (st : Store) (q : ProgressQuery)
    (htyped : ∀ p ∈ st.progress, reportTyped p) :
    filterProgress eng q st.progress = Except.ok (st.progress.filter (matchesQuery eng q)) ∧
    (listProgress eng st q).status = 200 ∧
    (listProgress eng st q).data =
      paginate q (sortProgress eng q (st.progress.filter (matchesQuery eng q))) ∧
    (listProgress eng st q).pagination.map (fun p => p.total) =
      some (st.progress.filter (matchesQuery eng q)).length ∧
    ∀ st' : Store, given q.projectCode = false → given q.reporter = false →
      given q.startDate = false → given q.endDate = false → given q.needHelp = false →
      given q.search = false →
      filterProgress eng q st'.progress = Except.ok st'.progress ∧
      st'.progress.filter (matchesQuery eng q) = st'.progress := by
  have hf := filterProgress_typed eng q st.progress htyped
  refine ⟨hf, ?_, ?_, ?_, ?_⟩
  · rw [listProgress_ok hf]
  · rw [listProgress_ok hf]
  · rw [listProgress_ok hf]
    simp [paginationOf, sortProgress_length]
  · intro st' h1 h2 h3 h4 h5 h6
    constructor
    · simp [filterProgress, h1, h2, h3, h4, h5, h6, Except.bind]
    · simp [matchesQuery, h1, h2, h3, h4, h5, h6]

theorem filters_compose_witness :
    filterProgress sampleEngine
        { noQuery with reporter := some "am", search := some "BUG", startDate := some "2025-06-02" }
        reportStore.progress =
      Except.ok (reportStore.progress.filter (matchesQuery sampleEngine
        { noQuery with reporter := some "am", search := some "BUG",
                       startDate := some "2025-06-02" })) ∧
    reportStore.progress.filter (matchesQuery sampleEngine
        { noQuery with reporter := some "am", search := some "BUG",
                       startDate := some "2025-06-02" }) =
      [sampleReport 3 "amy" "PRJ-001" "2025-06-02" 4 "否"] :=
  ⟨(filters_compose sampleEngine reportStore
      { noQuery with reporter := some "am", search := some "BUG", startDate := some "2025-06-02" }
      reportStore_typed).1, by decide⟩

/-! ## The default order of the report list -/

theorem notAfter_date_desc (eng : Engine) (a b : Obj) (x y : Int)
    (ha : toDate (getField a "date") = some x) (hb : toDate (getField b "date") = some y) :
    notAfter (sortCompare eng "date" (-1)) a b = decide (y ≤ x) := by
  simp only [notAfter, sortCompare, if_true, ha, hb, dateLt]
  by_cases h1 : x < y
  · have : ¬ y ≤ x := by omega
    simp [h1, this, intNum, JsNum.lt]
  · by_cases h2 : y < x
    · have : y ≤ x := by omega
      simp [h1, h2, this, intNum, JsNum.lt]
    · have : y ≤ x := by omega
      simp [h1, h2, this, JsNum.lt]

theorem notAfter_date_asc (eng : Engine) (a b : Obj) (x y : Int)
    (ha : toDate (getField a "date") = some x) (hb : toDate (getField b "date") = some y) :
    notAfter (sortCompare eng "date" 1) a b = decide (x ≤ y) := by
  simp only [notAfter, sortCompare, if_true, ha, hb, dateLt]
  by_cases h1 : x < y
  · have : x ≤ y := by omega
    simp [h1, this, intNum, JsNum.lt]
  · by_cases h2 : y < x
    · have : ¬ x ≤ y := by omega
      simp [h1, h2, this, intNum, JsNum.lt]
    · have : x ≤ y := by omega
      simp [h1, h2, this, JsNum.lt]

theorem sort_date_asc (eng : Engine) (l : List Obj)
    (hdates : ∀ p ∈ l, ∃ t, toDate (getField p "date") = some t) :
    (jsSort (sortCompare eng "date" 1) l).Pairwise notLater := by
  apply jsSort_pairwise _ notLater (fun p => ∃ t, toDate (getField p "date") = some t)
  · rintro a b ⟨x, hx⟩ ⟨y, hy⟩ h x' y' hx' hy'
    rw [notAfter_date_asc eng a b x y hx hy] at h
    rw [hx] at hx'; rw [hy] at hy'
    cases hx'; cases hy'
    simpa using h
  · rintro a b ⟨x, hx⟩ ⟨y, hy⟩ h y' x' hy' hx'
    rw [notAfter_date_asc eng a b x y hx hy] at h
    rw [hx] at hx'; rw [hy] at hy'
    cases hx'; cases hy'
    have : ¬ x ≤ y := by simpa using h
    omega
  · rintro a b c ⟨x, hx⟩ ⟨y, hy⟩ ⟨z, hz⟩ hab hbc x' z' hx' hz'
    rw [hx] at hx'; rw [hz] at hz'
    cases hx'; cases hz'
    exact le_trans (hab x y hx hy) (hbc y z hy hz)
  · exact hdates

theorem sort_date_desc (eng : Engine) (l : List Obj)
    (hdates : ∀ p ∈ l, ∃ t, toDate (getField p "date") = some t) :
    (jsSort (sortCompare eng "date" (-1)) l).Pairwise (fun a b => notLater b a) := by
  apply jsSort_pairwise _ (fun a b => notLater b a)
    (fun p => ∃ t, toDate (getField p "date") = some t)
  · rintro a b ⟨x, hx⟩ ⟨y, hy⟩ h y' x' hy' hx'
    rw [notAfter_date_desc eng a b x y hx hy] at h
    rw [hx] at hx'; rw [hy] at hy'
    cases hx'; cases hy'
    simpa using h
  · rintro a b ⟨x, hx⟩ ⟨y, hy⟩ h x' y' hx' hy'
    rw [notAfter_date_desc eng a b x y hx hy] at h
    rw [hx] at hx'; rw [hy] at hy'
    cases hx'; cases hy'
    have : ¬ y ≤ x := by simpa using h
    omega
  · rintro a b c ⟨x, hx⟩ ⟨y, hy⟩ ⟨z, hz⟩ hab hbc z' x' hz' hx'
    rw [hx] at hx'; rw [hz] at hz'
    cases hx'; cases hz'
    exact le_trans (hbc z y hz hy) (hab y x hy hx)
  · exact hdates

/-- C14, as the claim states it, fails on a collection that holds a date that
does not parse, which `POST /api/progress` of server.js stores like any other
non-empty `date`.  For the five reports posted with the dates 2025-06-05, 2025-06-01, `bad`,
2025-06-03, 2025-06-02 the list query with no parameter returns them in that
order: the comparator answers 0 next to `bad`, and the report of 2025-06-01
comes before the later ones of 2025-06-03 and 2025-06-02, so the data is not
non-increasing by parsed date. -/
theorem default_sort_unparseable_date :
    (∀ d ∈ ["2025-06-05", "2025-06-01", "bad", "2025-06-03", "2025-06-02"],
      (serverPostProgress sampleEnv twoProjects (datedBody d)).2.status = 201) ∧
    (unsortedDates.progress.map fun p => getField p "date") =
      [JsVal.str "2025-06-05", JsVal.str "2025-06-01", JsVal.str "bad",
        JsVal.str "2025-06-03", JsVal.str "2025-06-02"] ∧
    toDate (JsVal.str "bad") = Option.none ∧
    given noQuery.sortBy = false ∧
    filterProgress sampleEngine noQuery unsortedDates.progress =
      Except.ok unsortedDates.progress ∧
    (listProgress sampleEngine unsortedDates noQuery).status = 200 ∧
    (listProgress sampleEngine unsortedDates noQuery).data = unsortedDates.progress ∧
    ((listProgress sampleEngine unsortedDates noQuery).data.map fun p => getField p "date") =
      [JsVal.str "2025-06-05", JsVal.str "2025-06-01", JsVal.str "bad",
        JsVal.str "2025-06-03", JsVal.str "2025-06-02"] ∧
    ¬ (listProgress sampleEngine unsortedDates noQuery).data.Pairwise
      (fun a b => notLater b a) := by
  refine ⟨by decide, by decide, by decide, by decide, by decide, by decide, by decide,
    by decide, ?_⟩
  intro h
  have h13 := List.pairwise_iff_getElem.mp h 1 3 (by decide) (by decide) (by decide)
  exact absurd (h13 1748908800000 1748736000000 (by decide) (by decide)) (by decide)

/-- C14, amended: with no `sortBy` given, and the dates of the filtered reports
all parseable, the sequence that the list query paginates (its whole `data` when no
limit is given) is a permutation of the filtered reports ordered by parsed date:
non-increasing unless `sortOrder` is `asc`, non-decreasing when it is `asc`. -/
theorem default_sort_by_date (eng : Engine) (st : Store) (q : ProgressQuery)
    (filtered : List Obj) (hf : filterProgress eng q st.progress = Except.ok filtered)
    (hsort : given q.sortBy = false)
    (hdates : ∀ p ∈ filtered, ∃ t, toDate (getField p "date") = some t) :
    (sortProgress eng q filtered).Perm filtered ∧
    (q.sortOrder ≠ some "asc" →
      (sortProgress eng q filtered).Pairwise (fun a b => notLater b a)) ∧
    (q.sortOrder = some "asc" → (sortProgress eng q filtered).Pairwise notLater) ∧
    (listProgress eng st q).data = paginate q (sortProgress eng q filtered) ∧
    (given q.limit = false → (listProgress eng st q).data = sortProgress eng q filtered) := by
  have hfield : sortFieldOf q.sortBy = "date" := by simp [sortFieldOf, hsort]
  refine ⟨jsSort_perm _ _, ?_, ?_, ?_, ?_⟩
  · intro h
    have : sortOrderOf q.sortOrder = -1 := by simp [sortOrderOf, h]
    unfold sortProgress
    rw [hfield, this]
    exact sort_date_desc eng filtered hdates
  · intro h
    have : sortOrderOf q.sortOrder = 1 := by simp [sortOrderOf, h]
    unfold sortProgress
    rw [hfield, this]
    exact sort_date_asc eng filtered hdates
  · rw [listProgress_ok hf]
  · intro hl
    rw [listProgress_ok hf]
    exact paginate_all q _ hl

theorem default_sort_by_date_witness :
    (sortProgress sampleEngine noQuery reportStore.progress).Perm reportStore.progress ∧
    (listProgress sampleEngine reportStore noQuery).data =
      sortProgress sampleEngine noQuery reportStore.progress ∧
    ((listProgress sampleEngine reportStore noQuery).data.map fun p => getField p "date") =
      [JsVal.str "2025-06-03", JsVal.str "2025-06-02", JsVal.str "2025-06-01"] :=
  let h := default_sort_by_date sampleEngine reportStore noQuery reportStore.progress
    (by decide) (by decide) (by
      intro p hp
      simp only [reportStore, List.mem_cons, List.mem_singleton, List.not_mem_nil,
        or_false] at hp
      rcases hp with rfl | rfl | rfl
      · exact ⟨1748736000000, by decide⟩
      · exact ⟨1748908800000, by decide⟩
      · exact ⟨1748822400000, by decide⟩)
  ⟨h.1, h.2.2.2.2 (by decide), by decide⟩

/-! ## The total of the by-project and by-reporter queries -/

/-- C15 (defect in both handlers): `total` is `progress.length` taken after
`progress = progress.slice(0, parseInt(limit))`.  Three reports match project
`PRJ-001` and two match reporter `amy`; with `limit=1` both handlers answer
`total: 1`, with no limit 3 and 2.  The list query `router.get('/')` takes its
total before slicing and answers 3 for `limit=1`. -/
theorem total_counts_after_slicing :
    (reportStore.progress.filter fun p =>
      strictEq (getField p "projectCode") (JsVal.str "PRJ-001")).length = 3 ∧
    (progressByProject reportStore "PRJ-001" Option.none Option.none).total = some 3 ∧
    (progressByProject reportStore "PRJ-001" (some "1") Option.none).status = 200 ∧
    (progressByProject reportStore "PRJ-001" (some "1") Option.none).total = some 1 ∧
    (progressByReporter reportStore "amy" Option.none Option.none Option.none Option.none).total =
      some 2 ∧
    (progressByReporter reportStore "amy" (some "1") Option.none Option.none Option.none).total =
      some 1 ∧
    (listProgress sampleEngine reportStore
      { noQuery with projectCode := some "PRJ-001", limit := some "1" }).pagination.map
        (fun p => p.total) = some 3 := by
  decide

/-! ## The scalar statistics -/

theorem hours_read (p : Obj) (h : hoursNumeric p) :
    jsOr (getField p "workHours") (JsVal.num (JsNum.fin 0)) =
      JsVal.num (JsNum.fin (hoursOf p)) := by
  unfold hoursNumeric at h
  unfold hoursOf jsOr
  generalize getField p "workHours" = v at h
  rcases h with ⟨x, rfl⟩ | hf
  · by_cases h0 : x = 0
    · simp [truthy, h0]
    · simp [truthy, h0]
  · rw [hf]
    cases v with
    | num n =>
      cases n with
      | fin q =>
        have hq : q = 0 := by simpa [truthy] using hf
        simp [hq]
      | nan => simp
      | inf s => simp [truthy] at hf
    | _ => simp

theorem jsAdd_hours (eng : Engine) (s : JsNum) (p : Obj) (h : hoursNumeric p) :
    jsAdd eng (JsVal.num s) (jsOr (getField p "workHours") (JsVal.num (JsNum.fin 0))) =
      JsVal.num (JsNum.addDouble s (JsNum.fin (hoursOf p))) := by
  rw [hours_read p h]
  simp [jsAdd, primString, toNumber]

theorem foldHours_numeric (eng : Engine) (progress : List Obj)
    (h : ∀ p ∈ progress, hoursNumeric p) (s : JsNum) :
    progress.foldl
        (fun sum p => jsAdd eng sum (jsOr (getField p "workHours") (JsVal.num (JsNum.fin 0))))
        (JsVal.num s) =
      JsVal.num ((progress.map hoursOf).foldl
        (fun sum x => JsNum.addDouble sum (JsNum.fin x)) s) := by
  induction progress generalizing s with
  | nil => rfl
  | cons p l ih =>
    rw [List.foldl_cons, jsAdd_hours eng s p (h p (List.mem_cons_self _ _)),
      ih (fun x hx => h x (List.mem_cons_of_mem _ hx))]
    rfl

theorem sumHours_numeric (eng : Engine) (progress : List Obj)
    (h : ∀ p ∈ progress, hoursNumeric p) :
    sumHours eng progress = JsVal.num (sumDouble (progress.map hoursOf)) := by
  unfold sumHours sumDouble
  exact foldHours_numeric eng progress h (JsNum.fin 0)

theorem natAbs_div_den (q : Rat) : ((q.num.natAbs : Rat) / (q.den : Rat)) = |q| := by
  conv_rhs => rw [← Rat.num_div_den q]
  rw [abs_div, Nat.abs_cast, Nat.cast_natAbs, Int.cast_abs]

theorem toFixed1_spec (eng : Engine) (q : Rat) (hq : |q| < 1000000000000000000000) :
    ∃ t : Nat, toFixed1 eng (JsNum.fin q) =
        (if q < 0 then "-" else "") ++ toString (t / 10) ++ "." ++ toString (t % 10) ∧
      (t : Rat) ≤ 10 * |q| + 1 / 2 ∧ 10 * |q| + 1 / 2 < (t : Rat) + 1 := by
  have hden : (0 : Rat) < (q.den : Rat) := by exact_mod_cast q.den_pos
  have habs := natAbs_div_den q
  have hsmall : ¬ 1000000000000000000000 ≤ q.num.natAbs / q.den := by
    intro hle
    have h1 : 1000000000000000000000 * q.den ≤ q.num.natAbs :=
      (Nat.le_div_iff_mul_le q.den_pos).mp hle
    have h2 : ((1000000000000000000000 * q.den : Nat) : Rat) ≤ (q.num.natAbs : Rat) := by
      exact_mod_cast h1
    have h3 : (1000000000000000000000 : Rat) ≤ (q.num.natAbs : Rat) / (q.den : Rat) := by
      rw [le_div_iff₀ hden]
      push_cast at h2
      exact h2
    rw [habs] at h3
    exact absurd hq (not_lt.mpr h3)
  refine ⟨(20 * q.num.natAbs + q.den) / (2 * q.den), ?_, ?_, ?_⟩
  · simp only [toFixed1, if_neg hsmall]
  · have h1 : (20 * q.num.natAbs + q.den) / (2 * q.den) * (2 * q.den) ≤
        20 * q.num.natAbs + q.den := Nat.div_mul_le_self _ _
    have h2 : (((20 * q.num.natAbs + q.den) / (2 * q.den) * (2 * q.den) : Nat) : Rat) ≤
        ((20 * q.num.natAbs + q.den : Nat) : Rat) := by exact_mod_cast h1
    push_cast at h2
    rw [← habs]
    have h3 : 10 * ((q.num.natAbs : Rat) / (q.den : Rat)) + 1 / 2 =
        (20 * (q.num.natAbs : Rat) + (q.den : Rat)) / (2 * (q.den : Rat)) := by
      field_simp
      ring
    rw [h3, le_div_iff₀ (by positivity)]
    exact_mod_cast h1
  · have h1 : 20 * q.num.natAbs + q.den <
        ((20 * q.num.natAbs + q.den) / (2 * q.den) + 1) * (2 * q.den) :=
      Nat.lt_mul_of_div_lt (Nat.lt_succ_self _) (by have := q.den_pos; omega)
    rw [← habs]
    have h3 : 10 * ((q.num.natAbs : Rat) / (q.den : Rat)) + 1 / 2 =
        (20 * (q.num.natAbs : Rat) + (q.den : Rat)) / (2 * (q.den : Rat)) := by
      field_simp
      ring
    rw [h3, div_lt_iff₀ (by positivity)]
    exact_mod_cast h1

theorem reportStore_hours : ∀ p ∈ reportStore.progress, hoursNumeric p := by
  intro p hp
  simp only [reportStore, List.mem_cons, List.mem_singleton, List.not_mem_nil, or_false] at hp
  rcases hp with rfl | rfl | rfl <;> exact Or.inl ⟨_, rfl⟩

/-- C16: `averageWorkHours` is the number 0 for an empty collection.  For a
non-empty collection of reports whose `workHours` are finite numbers (or falsy,
read as 0) it is the text that
`toFixed(1)` writes for the quotient of the code, the sum of the hours (added
from 0 in stored order) divided by their number, both in binary64 arithmetic;
when that quotient is a finite `q` below 10^21 in size the text is the sign,
then `t / 10`, a point and `t % 10`, where `t` is the whole number nearest to
`10 * |q|` (a half goes up): `q` rounded to one decimal. -/
theorem averageWorkHours_rounded (eng : Engine) (progress : List Obj)
    (hnum : ∀ p ∈ progress, hoursNumeric p) :
    averageWorkHours eng [] = JsVal.num (JsNum.fin 0) ∧
    (progress ≠ [] →
      averageWorkHours eng progress = JsVal.str (toFixed1 eng (meanDouble progress))) ∧
    (progress ≠ [] → ∀ q : Rat, meanDouble progress = JsNum.fin q →
      |q| < 1000000000000000000000 →
      ∃ t : Nat, averageWorkHours eng progress =
          JsVal.str ((if q < 0 then "-" else "") ++ toString (t / 10) ++ "." ++
            toString (t % 10)) ∧
        (t : Rat) ≤ 10 * |q| + 1 / 2 ∧ 10 * |q| + 1 / 2 < (t : Rat) + 1) := by
  have hmean : progress ≠ [] → averageWorkHours eng progress =
      JsVal.str (toFixed1 eng (meanDouble progress)) := by
    intro hne
    have hlen : 0 < progress.length := List.length_pos.mpr hne
    unfold averageWorkHours meanDouble
    rw [if_pos (by simpa using hlen), sumHours_numeric eng progress hnum]
    rfl
  refine ⟨by simp [averageWorkHours], hmean, ?_⟩
  intro hne q hq hsmall
  obtain ⟨t, ht, hlo, hhi⟩ := toFixed1_spec eng q hsmall
  exact ⟨t, by rw [hmean hne, hq, ht], hlo, hhi⟩

theorem averageWorkHours_rounded_witness :
    averageWorkHours sampleEngine reportStore.progress = JsVal.str "6.8" ∧
    averageWorkHours sampleEngine decimalHours = JsVal.str "2.3" ∧
    meanDouble reportStore.progress =
      JsNum.fin (mkRat 7693649363424597 1125899906842624) ∧
    ∃ t : Nat, averageWorkHours sampleEngine reportStore.progress =
        JsVal.str ((if mkRat 7693649363424597 1125899906842624 < 0 then "-" else "") ++
          toString (t / 10) ++ "." ++ toString (t % 10)) ∧
      (t : Rat) ≤ 10 * |mkRat 7693649363424597 1125899906842624| + 1 / 2 ∧
      10 * |mkRat 7693649363424597 1125899906842624| + 1 / 2 < (t : Rat) + 1 :=
  ⟨by decide, by decide, by decide,
    (averageWorkHours_rounded sampleEngine reportStore.progress reportStore_hours).2.2
      (by decide) (mkRat 7693649363424597 1125899906842624) (by decide)
      (by
        have h : mkRat 7693649363424597 1125899906842624 =
            (7693649363424597 : Rat) / 1125899906842624 := by
          rw [Rat.mkRat_eq_div]
          norm_num
        rw [h, abs_of_pos (by norm_num)]
        norm_num)⟩

/-! ## The statistics by project -/

theorem reportsOf_pos_iff (progress : List Obj) (project : Obj) :
    0 < (reportsOf progress project).length ↔
      ∃ r ∈ progress,
        strictEq (getField r "projectCode") (getField project "projectCode") = true := by
  rw [List.length_pos_iff_exists_mem]
  simp [reportsOf, List.mem_filter]

/-- C17: `byProject` is, in the order of the stored projects, the entry of every
project that at least one report carries the code of (compared with `===`), and
of no other; an entry holds the number of those reports, their `needHelp === 是`
count and as `totalHours` the reduce of the code over them, which, when their
`workHours` are finite numbers (or falsy, read as 0), is the sum of these added
from 0 in stored order in binary64 arithmetic; no entry has `reportCount` 0. -/
theorem byProject_entries (eng : Engine) (st : Store) :
    statsByProject eng st =
      (st.projects.filter fun pr => decide (0 < (reportsOf st.progress pr).length)).map
        (projectEntry eng st.progress) ∧
    (∀ e ∈ statsByProject eng st, 0 < e.reportCount) ∧
    (∀ pr ∈ st.projects, (projectEntry eng st.progress pr ∈ statsByProject eng st ↔
      ∃ r ∈ st.progress,
        strictEq (getField r "projectCode") (getField pr "projectCode") = true)) ∧
    (∀ e ∈ statsByProject eng st, ∃ pr ∈ st.projects, e = projectEntry eng st.progress pr ∧
      ∃ r ∈ st.progress,
        strictEq (getField r "projectCode") (getField pr "projectCode") = true) ∧
    ∀ pr : Obj,
      (projectEntry eng st.progress pr).projectCode = getField pr "projectCode" ∧
      (projectEntry eng st.progress pr).reportCount = (reportsOf st.progress pr).length ∧
      (projectEntry eng st.progress pr).needHelpCount =
        ((reportsOf st.progress pr).filter fun r =>
          strictEq (getField r "needHelp") (JsVal.str "是")).length ∧
      (projectEntry eng st.progress pr).totalHours =
        sumHours eng (reportsOf st.progress pr) ∧
      ((∀ r ∈ reportsOf st.progress pr, hoursNumeric r) →
        (projectEntry eng st.progress pr).totalHours =
          JsVal.num (sumDouble ((reportsOf st.progress pr).map hoursOf))) := by
  refine ⟨?_, ?_, ?_, ?_, ?_⟩
  · unfold statsByProject
    rw [List.filter_map]
    rfl
  · intro e he
    simpa [statsByProject] using (List.mem_filter.mp he).2
  · intro pr hpr
    rw [← reportsOf_pos_iff]
    constructor
    · intro h
      simpa [projectEntry] using (List.mem_filter.mp h).2
    · intro h
      exact List.mem_filter.mpr ⟨List.mem_map_of_mem _ hpr, by simpa [projectEntry] using h⟩
  · intro e he
    obtain ⟨hmem, hpos⟩ := List.mem_filter.mp he
    obtain ⟨pr, hpr, rfl⟩ := List.mem_map.mp hmem
    refine ⟨pr, hpr, rfl, ?_⟩
    rw [← reportsOf_pos_iff]
    simpa [projectEntry] using hpos
  · intro pr
    exact ⟨rfl, rfl, rfl, rfl, fun h => sumHours_numeric eng _ h⟩

theorem byProject_entries_witness :
    statsByProject sampleEngine reportStore =
      [{ projectCode := JsVal.str "PRJ-001", projectName := getField
          (reportStore.projects.headD []) "name", reportCount := 3,
         totalHours := JsVal.num (JsNum.fin (mkRat 41 2)), needHelpCount := 1,
         lastReportDate := JsVal.str "2025-06-03" }] ∧
    (statsByProject sampleEngine decimalStore).map (fun e => e.totalHours) =
      [JsVal.num (JsNum.fin (mkRat 1322932390540083 281474976710656))] ∧
    ∀ e ∈ statsByProject sampleEngine reportStore, 0 < e.reportCount :=
  ⟨by decide, by decide, (byProject_entries sampleEngine reportStore).2.1⟩

/-! ## The accumulator of the statistics by reporter -/

theorem lookupKey_setKey {β : Type} (acc : List (String × β)) (k k' : String) (v : β) :
    lookupKey (setKey acc k v) k' = if k = k' then some v else lookupKey acc k' := by
  induction acc with
  | nil => simp [setKey, lookupKey]
  | cons kv rest ih =>
    obtain ⟨k0, v0⟩ := kv
    by_cases h0 : k0 = k
    · subst h0
      by_cases h1 : k0 = k'
      · simp [setKey, lookupKey, h1]
      · simp [setKey, lookupKey, h1]
    · by_cases h1 : k0 = k'
      · subst h1
        have hne : k ≠ k0 := fun h => h0 h.symm
        simp [setKey, lookupKey, h0, hne]
      · simp [setKey, lookupKey, h0, h1, ih]

theorem mem_keys_setKey {β : Type} (acc : List (String × β)) (k x : String) (v : β) :
    x ∈ (setKey acc k v).map Prod.fst ↔ x ∈ acc.map Prod.fst ∨ x = k := by
  induction acc with
  | nil => simp [setKey]
  | cons kv rest ih =>
    obtain ⟨k0, v0⟩ := kv
    by_cases h0 : k0 = k
    · subst h0
      simp only [setKey, if_true, List.map_cons, List.mem_cons]
      tauto
    · simp only [setKey, if_neg h0, List.map_cons, List.mem_cons, ih]
      tauto

theorem nodup_setKey {β : Type} (acc : List (String × β)) (k : String) (v : β)
    (h : (acc.map Prod.fst).Nodup) : ((setKey acc k v).map Prod.fst).Nodup := by
  induction acc with
  | nil => simp [setKey]
  | cons kv rest ih =>
    obtain ⟨k0, v0⟩ := kv
    rw [List.map_cons, List.nodup_cons] at h
    by_cases h0 : k0 = k
    · subst h0
      simp only [setKey, if_true, List.map_cons, List.nodup_cons]
      exact h
    · simp only [setKey, if_neg h0, List.map_cons, List.nodup_cons, mem_keys_setKey]
      exact ⟨fun hx => hx.elim h.1 h0, ih h.2⟩

theorem mem_iff_lookupKey {β : Type} (acc : List (String × β)) (k : String) (v : β)
    (h : (acc.map Prod.fst).Nodup) : (k, v) ∈ acc ↔ lookupKey acc k = some v := by
  induction acc with
  | nil => simp [lookupKey]
  | cons kv rest ih =>
    obtain ⟨k0, v0⟩ := kv
    rw [List.map_cons, List.nodup_cons] at h
    by_cases h0 : k0 = k
    · subst h0
      have hnot : (k0, v) ∉ rest := fun hm => h.1 (List.mem_map.mpr ⟨(k0, v), hm, rfl⟩)
      simp only [lookupKey, if_true, List.mem_cons, Option.some.injEq, Prod.mk.injEq, true_and]
      constructor
      · rintro (rfl | hm)
        · rfl
        · exact absurd hm hnot
      · intro hv
        exact Or.inl hv.symm
    · have hne : (k, v) ≠ (k0, v0) := fun hh => h0 (Prod.mk.inj hh).1.symm
      simp only [lookupKey, if_neg h0, List.mem_cons, hne, false_or]
      exact ih h.2

theorem nodup_fold (eng : Engine) (l : List Obj) (acc : List (String × ReporterStats))
    (h : (acc.map Prod.fst).Nodup) : ((l.foldl (reporterStep eng) acc).map Prod.fst).Nodup := by
  induction l generalizing acc with
  | nil => exact h
  | cons r l ih =>
    rw [List.foldl_cons]
    apply ih
    unfold reporterStep
    split
    · exact h
    · exact nodup_setKey _ _ _ h

theorem reportsBy_cons (eng : Engine) (r : Obj) (l : List Obj) (k : String) :
    reportsBy eng (r :: l) k =
      if reporterKey eng r = k then r :: reportsBy eng l k else reportsBy eng l k := by
  by_cases h : reporterKey eng r = k <;> simp [reportsBy, List.filter_cons, h]

theorem lookupKey_fold (eng : Engine) (l : List Obj) (acc : List (String × ReporterStats))
    (k : String) :
    lookupKey (l.foldl (reporterStep eng) acc) k =
      if k ∈ protoKeys then lookupKey acc k
      else match reportsBy eng l k with
        | [] => lookupKey acc k
        | p :: g => some ((p :: g).foldl (countReport eng)
            ((lookupKey acc k).getD (freshReporter p))) := by
  induction l generalizing acc with
  | nil => simp [reportsBy]
  | cons r l ih =>
    rw [List.foldl_cons, ih, reportsBy_cons]
    by_cases hk : k ∈ protoKeys
    · rw [if_pos hk, if_pos hk]
      unfold reporterStep
      split
      · rfl
      · rename_i hr
        have hne : toStr eng (getField r "reporter") ≠ k := fun h => hr (h ▸ hk)
        rw [lookupKey_setKey, if_neg hne]
    · rw [if_neg hk, if_neg hk]
      by_cases hr : reporterKey eng r ∈ protoKeys
      · have hne : reporterKey eng r ≠ k := fun h => hk (h ▸ hr)
        have hstep : reporterStep eng acc r = acc := by
          unfold reporterStep
          exact if_pos hr
        rw [hstep, if_neg hne]
      · have hstep : reporterStep eng acc r = setKey acc (reporterKey eng r)
            (countReport eng ((lookupKey acc (reporterKey eng r)).getD (freshReporter r)) r) := by
          unfold reporterStep
          exact if_neg hr
        rw [hstep, lookupKey_setKey]
        by_cases hrk : reporterKey eng r = k
        · subst hrk
          rw [if_pos rfl, if_pos rfl]
          cases reportsBy eng l (reporterKey eng r) with
          | nil => simp
          | cons p g => simp
        · rw [if_neg hrk, if_neg hrk]

theorem lookupKey_stats (eng : Engine) (l : List Obj) (k : String) :
    lookupKey (l.foldl (reporterStep eng) []) k =
      if k ∈ protoKeys then Option.none
      else match reportsBy eng l k with
        | [] => Option.none
        | p :: g => some ((p :: g).foldl (countReport eng) (freshReporter p)) := by
  rw [lookupKey_fold]
  by_cases hk : k ∈ protoKeys
  · simp [hk, lookupKey]
  · simp only [if_neg hk, lookupKey, Option.getD_none]

theorem insertIndexed_perm {β : Type} (a : Nat × β) (l : List (Nat × β)) :
    (insertIndexed a l).Perm (a :: l) := by
  induction l with
  | nil => exact List.Perm.refl _
  | cons b l ih =>
    unfold insertIndexed
    split
    · exact List.Perm.refl _
    · exact (List.Perm.cons b ih).trans (List.Perm.swap a b l)

theorem foldr_insertIndexed_perm {β : Type} (l : List (Nat × β)) :
    (l.foldr insertIndexed []).Perm l := by
  induction l with
  | nil => exact List.Perm.refl _
  | cons a l ih =>
    rw [List.foldr_cons]
    exact (insertIndexed_perm a _).trans (List.Perm.cons a ih)

theorem objectValues_perm {β : Type} (acc : List (String × β)) :
    (objectValues acc).Perm (acc.map Prod.snd) := by
  unfold objectValues
  refine ((((foldr_insertIndexed_perm _).map _).append_right _)).trans ?_
  induction acc with
  | nil => exact List.Perm.refl _
  | cons kv rest ih =>
    cases h : arrayIndex kv.1 with
    | none =>
      simp only [List.filterMap_cons, h, Option.map_none', List.filter_cons, Option.isNone_none,
        if_true, List.map_cons]
      exact List.perm_middle.trans (List.Perm.cons _ ih)
    | some n =>
      simp only [List.filterMap_cons, h, Option.map_some', List.filter_cons, Option.isNone_some,
        List.map_cons]
      exact List.Perm.cons _ ih

theorem mem_objectValues {β : Type} (acc : List (String × β)) (v : β) :
    v ∈ objectValues acc ↔ ∃ k, (k, v) ∈ acc := by
  rw [(objectValues_perm acc).mem_iff]
  simp

/-! ## The entries of the statistics by reporter -/

theorem fold_reporter (eng : Engine) (g : List Obj) (e : ReporterStats) :
    (g.foldl (countReport eng) e).reporter = e.reporter := by
  induction g generalizing e with
  | nil => rfl
  | cons r g ih => rw [List.foldl_cons, ih]; rfl

theorem fold_count (eng : Engine) (g : List Obj) (e : ReporterStats) :
    (g.foldl (countReport eng) e).reportCount = e.reportCount + g.length := by
  induction g generalizing e with
  | nil => rfl
  | cons r g ih =>
    rw [List.foldl_cons, ih]
    simp only [countReport, List.length_cons]
    omega

theorem fold_needHelp (eng : Engine) (g : List Obj) (e : ReporterStats) :
    (g.foldl (countReport eng) e).needHelpCount = e.needHelpCount + countNeedHelp g := by
  induction g generalizing e with
  | nil => rfl
  | cons r g ih =>
    rw [List.foldl_cons, ih]
    by_cases h : strictEq (getField r "needHelp") (JsVal.str "是") = true
    · simp only [countReport, countNeedHelp, List.filter_cons, h, if_true, List.length_cons]
      omega
    · simp only [countReport, countNeedHelp, List.filter_cons, h, if_false]
      simp

theorem fold_hours (eng : Engine) (g : List Obj) (e : ReporterStats) :
    (g.foldl (countReport eng) e).totalHours =
      g.foldl
        (fun sum p => jsAdd eng sum (jsOr (getField p "workHours") (JsVal.num (JsNum.fin 0))))
        e.totalHours := by
  induction g generalizing e with
  | nil => rfl
  | cons r g ih => rw [List.foldl_cons, ih]; rfl

theorem entry_of_mem (eng : Engine) (progress : List Obj) (k : String) (e : ReporterStats)
    (h : (k, e) ∈ progress.foldl (reporterStep eng) []) :
    k ∉ protoKeys ∧ ∃ p g, reportsBy eng progress k = p :: g ∧
      e = (p :: g).foldl (countReport eng) (freshReporter p) := by
  rw [mem_iff_lookupKey _ _ _ (nodup_fold eng progress [] List.nodup_nil), lookupKey_stats] at h
  by_cases hk : k ∈ protoKeys
  · simp [hk] at h
  · rw [if_neg hk] at h
    refine ⟨hk, ?_⟩
    cases hg : reportsBy eng progress k with
    | nil => simp [hg] at h
    | cons p g =>
      rw [hg] at h
      exact ⟨p, g, rfl, (Option.some.inj h).symm⟩

theorem mem_of_entry (eng : Engine) (progress : List Obj) (k : String) (p : Obj) (g : List Obj)
    (hk : k ∉ protoKeys) (hg : reportsBy eng progress k = p :: g) :
    (k, (p :: g).foldl (countReport eng) (freshReporter p)) ∈
      progress.foldl (reporterStep eng) [] := by
  rw [mem_iff_lookupKey _ _ _ (nodup_fold eng progress [] List.nodup_nil), lookupKey_stats,
    if_neg hk, hg]

theorem entry_key (eng : Engine) (progress : List Obj) (k : String) (e : ReporterStats)
    (h : (k, e) ∈ progress.foldl (reporterStep eng) []) : toStr eng e.reporter = k := by
  obtain ⟨_, p, g, hg, rfl⟩ := entry_of_mem eng progress k e h
  rw [fold_reporter]
  have hp : p ∈ reportsBy eng progress k := by rw [hg]; exact List.mem_cons_self _ _
  simpa [reportsBy, reporterKey] using (List.mem_filter.mp hp).2

theorem entry_group (eng : Engine) (progress : List Obj) (e : ReporterStats)
    (h : e ∈ statsByReporter eng progress) :
    toStr eng e.reporter ∉ protoKeys ∧
    ∃ p g, reportsBy eng progress (toStr eng e.reporter) = p :: g ∧
      e = (p :: g).foldl (countReport eng) (freshReporter p) := by
  obtain ⟨k, hk⟩ := (mem_objectValues _ e).mp h
  have hkey := entry_key eng progress k e hk
  rw [hkey]
  exact entry_of_mem eng progress k e hk

theorem sum_counts_setKey (eng : Engine) (acc : List (String × ReporterStats)) (r : Obj) :
    ((setKey acc (reporterKey eng r)
        (countReport eng ((lookupKey acc (reporterKey eng r)).getD (freshReporter r)) r)).map
          fun kv => kv.2.reportCount).sum =
      (acc.map fun kv => kv.2.reportCount).sum + 1 := by
  induction acc with
  | nil => simp [setKey, lookupKey, countReport, freshReporter]
  | cons kv rest ih =>
    obtain ⟨k0, v0⟩ := kv
    by_cases h0 : k0 = reporterKey eng r
    · simp only [setKey, lookupKey, if_pos h0, Option.getD_some, List.map_cons, List.sum_cons,
        countReport]
      omega
    · simp only [setKey, lookupKey, if_neg h0, List.map_cons, List.sum_cons, ih]
      omega

theorem sum_counts_fold (eng : Engine) (l : List Obj) (acc : List (String × ReporterStats)) :
    ((l.foldl (reporterStep eng) acc).map fun kv => kv.2.reportCount).sum =
      (acc.map fun kv => kv.2.reportCount).sum +
        (l.filter fun p => decide (reporterKey eng p ∉ protoKeys)).length := by
  induction l generalizing acc with
  | nil => simp
  | cons r l ih =>
    rw [List.foldl_cons, ih]
    by_cases hr : reporterKey eng r ∈ protoKeys
    · have hstep : reporterStep eng acc r = acc := by
        unfold reporterStep
        exact if_pos hr
      simp [hstep, List.filter_cons, hr]
    · have hstep : reporterStep eng acc r = setKey acc (reporterKey eng r)
          (countReport eng ((lookupKey acc (reporterKey eng r)).getD (freshReporter r)) r) := by
        unfold reporterStep
        exact if_neg hr
      rw [hstep, sum_counts_setKey]
      simp only [List.filter_cons, hr, not_false_eq_true, decide_True, if_true, List.length_cons]
      omega

/-! ## The last report date of a group -/

theorem truthy_of_dateOk (p : Obj) (h : dateOk p) : truthy (getField p "date") = true := by
  obtain ⟨d, t, hd, ht⟩ := h
  rw [hd]
  have hne : d ≠ "" := by
    rintro rfl
    have : toDate (JsVal.str "") = Option.none := by decide
    rw [this] at ht
    exact Option.noConfusion ht
  simp [truthy, hne]

theorem parse_of_dateOk (p : Obj) (h : dateOk p) : ∃ t, toDate (getField p "date") = some t := by
  obtain ⟨d, t, hd, ht⟩ := h
  exact ⟨t, hd ▸ ht⟩

theorem countReport_latest (eng : Engine) (e : ReporterStats) (r : Obj) (seen : List Obj)
    (hr : dateOk r) (htruthy : truthy e.lastReportDate = true)
    (hinv : latestIn seen e.lastReportDate) :
    truthy (countReport eng e r).lastReportDate = true ∧
    latestIn (seen ++ [r]) (countReport eng e r).lastReportDate := by
  obtain ⟨tr, htr⟩ := parse_of_dateOk r hr
  obtain ⟨r0, hr0, t, hv, ht, hall⟩ := hinv
  have hlast : (countReport eng e r).lastReportDate =
      if t < tr then getField r "date" else e.lastReportDate := by
    simp only [countReport, htruthy, ht, htr, dateLt]
    by_cases h : t < tr <;> simp [h]
  rw [hlast]
  by_cases h : t < tr
  · rw [if_pos h]
    refine ⟨truthy_of_dateOk r hr, r, by simp, tr, rfl, htr, ?_⟩
    intro r' hr'
    rcases List.mem_append.mp hr' with hs | hs
    · obtain ⟨t', ht', hle⟩ := hall r' hs
      exact ⟨t', ht', by omega⟩
    · rw [List.mem_singleton] at hs
      subst hs
      exact ⟨tr, htr, le_refl _⟩
  · rw [if_neg h]
    refine ⟨htruthy, r0, List.mem_append_left _ hr0, t, hv, ht, ?_⟩
    intro r' hr'
    rcases List.mem_append.mp hr' with hs | hs
    · exact hall r' hs
    · rw [List.mem_singleton] at hs
      subst hs
      exact ⟨tr, htr, by omega⟩

theorem fold_latest (eng : Engine) (g : List Obj) (e : ReporterStats) (seen : List Obj)
    (hg : ∀ p ∈ g, dateOk p) (htruthy : truthy e.lastReportDate = true)
    (hinv : latestIn seen e.lastReportDate) :
    latestIn (seen ++ g) (g.foldl (countReport eng) e).lastReportDate := by
  induction g generalizing e seen with
  | nil => simpa using hinv
  | cons r g ih =>
    obtain ⟨h1, h2⟩ := countReport_latest eng e r seen (hg r (List.mem_cons_self _ _)) htruthy hinv
    have := ih (countReport eng e r) (seen ++ [r])
      (fun p hp => hg p (List.mem_cons_of_mem _ hp)) h1 h2
    rw [List.foldl_cons]
    simpa using this

theorem group_latest (eng : Engine) (p : Obj) (g : List Obj) (hg : ∀ r ∈ p :: g, dateOk r) :
    latestIn (p :: g) ((p :: g).foldl (countReport eng) (freshReporter p)).lastReportDate := by
  have hp := hg p (List.mem_cons_self _ _)
  obtain ⟨tp, htp⟩ := parse_of_dateOk p hp
  have hfirst : (countReport eng (freshReporter p) p).lastReportDate = getField p "date" := by
    simp [countReport, freshReporter, truthy]
  have := fold_latest eng g (countReport eng (freshReporter p) p) [p]
    (fun r hr => hg r (List.mem_cons_of_mem _ hr))
    (by rw [hfirst]; exact truthy_of_dateOk p hp)
    (by
      rw [hfirst]
      refine ⟨p, List.mem_singleton.mpr rfl, tp, rfl, htp, ?_⟩
      intro r' hr'
      rw [List.mem_singleton] at hr'
      subst hr'
      exact ⟨tp, htp, le_refl _⟩)
  rw [List.foldl_cons]
  simpa using this

theorem notAfter_newestFirst (a b : Obj) (x y : Int)
    (ha : toDate (getField a "date") = some x) (hb : toDate (getField b "date") = some y) :
    notAfter newestFirst a b = decide (y ≤ x) := by
  simp only [notAfter, newestFirst, ha, hb, dateDiff, intNum, JsNum.lt]
  by_cases h : y ≤ x
  · have : ¬ (0 : Rat) < ((y - x : Int) : Rat) := by
      have : y - x ≤ 0 := by omega
      exact not_lt.mpr (by exact_mod_cast this)
    simp [h, this]
  · have : (0 : Rat) < ((y - x : Int) : Rat) := by
      have : 0 < y - x := by omega
      exact_mod_cast this
    have hxy : x < y := by omega
    simp [h, this, hxy]

theorem sort_newestFirst (l : List Obj)
    (hdates : ∀ p ∈ l, ∃ t, toDate (getField p "date") = some t) :
    (jsSort newestFirst l).Pairwise (fun a b => notLater b a) := by
  apply jsSort_pairwise _ (fun a b => notLater b a)
    (fun p => ∃ t, toDate (getField p "date") = some t)
  · rintro a b ⟨x, hx⟩ ⟨y, hy⟩ h y' x' hy' hx'
    rw [notAfter_newestFirst a b x y hx hy] at h
    rw [hx] at hx'; rw [hy] at hy'
    cases hx'; cases hy'
    simpa using h
  · rintro a b ⟨x, hx⟩ ⟨y, hy⟩ h x' y' hx' hy'
    rw [notAfter_newestFirst a b x y hx hy] at h
    rw [hx] at hx'; rw [hy] at hy'
    cases hx'; cases hy'
    have : ¬ y ≤ x := by simpa using h
    omega
  · rintro a b c ⟨x, hx⟩ ⟨y, hy⟩ ⟨z, hz⟩ hab hbc z' x' hz' hx'
    rw [hx] at hx'; rw [hz] at hz'
    cases hx'; cases hz'
    exact le_trans (hbc z y hz hy) (hab y x hy hx)
  · exact hdates

theorem head_latest (g : List Obj) (hne : 0 < g.length) (hg : ∀ r ∈ g, dateOk r) :
    latestIn g (getField ((jsSort newestFirst g).headD []) "date") := by
  have hparse : ∀ r ∈ g, ∃ t, toDate (getField r "date") = some t :=
    fun r hr => parse_of_dateOk r (hg r hr)
  have hsorted := sort_newestFirst g hparse
  cases hs : jsSort newestFirst g with
  | nil =>
    have := jsSort_length newestFirst g
    rw [hs] at this
    simp at this
    omega
  | cons a rest =>
    rw [hs] at hsorted
    have ha : a ∈ g := (mem_jsSort newestFirst g a).mp (by rw [hs]; exact List.mem_cons_self _ _)
    obtain ⟨ta, hta⟩ := hparse a ha
    refine ⟨a, ha, ta, rfl, hta, ?_⟩
    intro r' hr'
    obtain ⟨t', ht'⟩ := hparse r' hr'
    refine ⟨t', ht', ?_⟩
    have hr'' : r' ∈ a :: rest := by rw [← hs]; exact (mem_jsSort newestFirst g r').mpr hr'
    rcases List.mem_cons.mp hr'' with rfl | hrest
    · rw [hta] at ht'
      cases ht'
      exact le_refl _
    · exact (List.pairwise_cons.mp hsorted).1 r' hrest t' ta ht' hta

theorem reportStore_dates : ∀ p ∈ reportStore.progress, dateOk p := by
  intro p hp
  simp only [reportStore, List.mem_cons, List.mem_singleton, List.not_mem_nil, or_false] at hp
  rcases hp with rfl | rfl | rfl
  · exact ⟨"2025-06-01", 1748736000000, rfl, by decide⟩
  · exact ⟨"2025-06-03", 1748908800000, rfl, by decide⟩
  · exact ⟨"2025-06-02", 1748822400000, rfl, by decide⟩

/-- C18, as the claim states it, fails on a store that holds a date that does
not parse, which `POST /api/progress` of server.js stores like any other
non-empty `date`.  For the three reports of amy on `PRJ-001` posted
with the dates `bad`, 2025-06-01 and 2025-06-03, the entry of `PRJ-001` in
`byProject` and the entry of amy in `byReporter` both have `lastReportDate`
`bad`, which does not parse, while their group holds the reports of 2025-06-01
and 2025-06-03: the difference that the sort compares by is `NaN` next to
`bad`, which leaves it first, and the running maximum never replaces it. -/
theorem lastReportDate_unparseable_first :
    (∀ d ∈ ["bad", "2025-06-01", "2025-06-03"],
      (serverPostProgress sampleEnv twoProjects (datedBody d)).2.status = 201) ∧
    (badDateFirst.progress.map fun p => getField p "date") =
      [JsVal.str "bad", JsVal.str "2025-06-01", JsVal.str "2025-06-03"] ∧
    toDate (JsVal.str "bad") = Option.none ∧
    toDate (JsVal.str "2025-06-03") = some 1748908800000 ∧
    ((statsByProject sampleEngine badDateFirst).map fun e =>
      (e.projectCode, e.reportCount, e.lastReportDate)) =
      [(JsVal.str "PRJ-001", 3, JsVal.str "bad")] ∧
    ((statsByReporter sampleEngine badDateFirst.progress).map fun e =>
      (e.reporter, e.reportCount, e.lastReportDate)) =
      [(JsVal.str "amy", 3, JsVal.str "bad")] ∧
    reportsOf badDateFirst.progress (badDateFirst.projects.headD []) =
      badDateFirst.progress ∧
    reportsBy sampleEngine badDateFirst.progress "amy" = badDateFirst.progress ∧
    ¬ latestIn (reportsOf badDateFirst.progress (badDateFirst.projects.headD []))
      (JsVal.str "bad") ∧
    ¬ latestIn (reportsBy sampleEngine badDateFirst.progress "amy") (JsVal.str "bad") := by
  refine ⟨by decide, by decide, by decide, by decide, by decide, by decide, by decide,
    by decide, ?_, ?_⟩
  · rintro ⟨_, _, t, _, ht, _⟩
    have hbad : toDate (JsVal.str "bad") = Option.none := by decide
    rw [hbad] at ht
    cases ht
  · rintro ⟨_, _, t, _, ht, _⟩
    have hbad : toDate (JsVal.str "bad") = Option.none := by decide
    rw [hbad] at ht
    cases ht

/-- C18, amended: when the dates of the stored reports are strings that parse, the
`lastReportDate` of every entry of `byProject` and of `byReporter` is the date
of a report of its group (the reports with the code of the project; the reports
counted under the reporter of the entry), and no report of the group has a later
parsed date. -/
theorem lastReportDate_latest (eng : Engine) (st : Store)
    (hdates : ∀ p ∈ st.progress, dateOk p) :
    (∀ e ∈ statsByProject eng st, ∃ pr ∈ st.projects, e = projectEntry eng st.progress pr ∧
      latestIn (reportsOf st.progress pr) e.lastReportDate) ∧
    (∀ e ∈ statsByReporter eng st.progress,
      latestIn (reportsBy eng st.progress (toStr eng e.reporter)) e.lastReportDate) := by
  constructor
  · intro e he
    obtain ⟨hmem, hpos⟩ := List.mem_filter.mp he
    obtain ⟨pr, hpr, rfl⟩ := List.mem_map.mp hmem
    have hpos' : 0 < (reportsOf st.progress pr).length := by simpa [projectEntry] using hpos
    refine ⟨pr, hpr, rfl, ?_⟩
    have hlast : (projectEntry eng st.progress pr).lastReportDate =
        getField ((jsSort newestFirst (reportsOf st.progress pr)).headD []) "date" := by
      simp only [projectEntry]
      rw [if_pos (by simpa using hpos')]
    rw [hlast]
    exact head_latest _ hpos' (fun r hr => hdates r (List.mem_filter.mp hr).1)
  · intro e he
    obtain ⟨_, p, g, hg, rfl⟩ := entry_group eng st.progress e he
    rw [fold_reporter] at hg ⊢
    rw [hg]
    apply group_latest
    intro r hr
    rw [← hg] at hr
    exact hdates r (List.mem_filter.mp hr).1

theorem lastReportDate_latest_witness :
    ((statsByProject sampleEngine reportStore).map fun e => e.lastReportDate) =
      [JsVal.str "2025-06-03"] ∧
    ((statsByReporter sampleEngine reportStore.progress).map fun e =>
      (e.reporter, e.lastReportDate)) =
      [(JsVal.str "amy", JsVal.str "2025-06-02"), (JsVal.str "bob", JsVal.str "2025-06-03")] ∧
    ∀ e ∈ statsByReporter sampleEngine reportStore.progress,
      latestIn (reportsBy sampleEngine reportStore.progress (toStr sampleEngine e.reporter))
        e.lastReportDate :=
  ⟨by decide, by decide, (lastReportDate_latest sampleEngine reportStore reportStore_dates).2⟩

/-! ## The statistics by reporter -/

theorem statsByReporter_keys (eng : Engine) (progress : List Obj) :
    ((statsByReporter eng progress).map fun e => toStr eng e.reporter).Perm
      ((progress.foldl (reporterStep eng) []).map Prod.fst) := by
  have h1 := (objectValues_perm (progress.foldl (reporterStep eng) [])).map
    (fun e => toStr eng e.reporter)
  have h2 : ((progress.foldl (reporterStep eng) []).map Prod.snd).map
      (fun e => toStr eng e.reporter) = (progress.foldl (reporterStep eng) []).map Prod.fst := by
    rw [List.map_map]
    apply List.map_congr_left
    intro kv hkv
    exact entry_key eng progress kv.1 kv.2 hkv
  rw [h2] at h1
  exact h1

/-- C19 (defect): the accumulator of `byReporter` is a plain object, so a
reporter whose name every object inherits (`constructor`, `toString`, ...) is
read as present, gets no entry and is counted nowhere.  For every collection the
entries have distinct reporter names, which are the names occurring in the
collection other than the inherited ones; an entry holds the number, the summed
`workHours` and the `needHelp === 是` count of the reports under its name; and
the `reportCount`s add up to the number of reports whose reporter is not an
inherited name.  With one report by `constructor` and one by `amy` there is one
entry, with `reportCount` 1, for two reports. -/
theorem byReporter_skips_inherited_names (eng : Engine) (progress : List Obj) :
    ((statsByReporter eng progress).map fun e => toStr eng e.reporter).Nodup ∧
    (∀ k, (∃ e ∈ statsByReporter eng progress, toStr eng e.reporter = k) ↔
      k ∉ protoKeys ∧ ∃ p ∈ progress, reporterKey eng p = k) ∧
    (∀ e ∈ statsByReporter eng progress,
      e.reportCount = (reportsBy eng progress (toStr eng e.reporter)).length ∧
      e.totalHours = sumHours eng (reportsBy eng progress (toStr eng e.reporter)) ∧
      e.needHelpCount = countNeedHelp (reportsBy eng progress (toStr eng e.reporter))) ∧
    ((statsByReporter eng progress).map fun e => e.reportCount).sum =
      (progress.filter fun p => decide (reporterKey eng p ∉ protoKeys)).length ∧
    inheritedNameReports.length = 2 ∧
    ((statsByReporter sampleEngine inheritedNameReports).map fun e =>
      (e.reporter, e.reportCount)) = [(JsVal.str "amy", 1)] := by
  refine ⟨?_, ?_, ?_, ?_, by decide, by decide⟩
  · exact (statsByReporter_keys eng progress).nodup_iff.mpr
      (nodup_fold eng progress [] List.nodup_nil)
  · intro k
    constructor
    · rintro ⟨e, he, rfl⟩
      obtain ⟨hk, p, g, hg, _⟩ := entry_group eng progress e he
      have hp : p ∈ reportsBy eng progress (toStr eng e.reporter) := by
        rw [hg]
        exact List.mem_cons_self _ _
      obtain ⟨hp1, hp2⟩ := List.mem_filter.mp hp
      exact ⟨hk, p, hp1, by simpa using hp2⟩
    · rintro ⟨hk, p, hp, rfl⟩
      have hp' : p ∈ reportsBy eng progress (reporterKey eng p) :=
        List.mem_filter.mpr ⟨hp, by simp⟩
      cases hg : reportsBy eng progress (reporterKey eng p) with
      | nil => rw [hg] at hp'; exact absurd hp' (List.not_mem_nil _)
      | cons p0 g =>
        have hmem := mem_of_entry eng progress _ p0 g hk hg
        exact ⟨_, (mem_objectValues _ _).mpr ⟨_, hmem⟩, entry_key eng progress _ _ hmem⟩
  · intro e he
    obtain ⟨_, p, g, hg, he'⟩ := entry_group eng progress e he
    rw [hg]
    subst he'
    refine ⟨?_, ?_, ?_⟩
    · rw [fold_count]
      simp [freshReporter]
    · rw [fold_hours]
      rfl
    · rw [fold_needHelp]
      simp [freshReporter]
  · have h := ((objectValues_perm (progress.foldl (reporterStep eng) [])).map
      (fun e => e.reportCount)).sum_eq
    unfold statsByReporter
    rw [h, List.map_map]
    have := sum_counts_fold eng progress []
    simpa using this

/-! ## The upcoming deadlines of the project statistics -/

theorem notAfter_earliestEnd (a b : Obj) (x y : Int)
    (ha : toDate (getField a "endDate") = some x) (hb : toDate (getField b "endDate") = some y) :
    notAfter earliestEnd a b = decide (x ≤ y) := by
  simp only [notAfter, earliestEnd, ha, hb, dateDiff, intNum, JsNum.lt]
  by_cases h : x ≤ y
  · have : ¬ (0 : Rat) < ((x - y : Int) : Rat) := by
      have : x - y ≤ 0 := by omega
      exact not_lt.mpr (by exact_mod_cast this)
    simp [h, this]
  · have : (0 : Rat) < ((x - y : Int) : Rat) := by
      have : 0 < x - y := by omega
      exact_mod_cast this
    have hxy : y < x := by omega
    simp [h, this, hxy]

theorem sort_earliestEnd (l : List Obj)
    (hdates : ∀ p ∈ l, ∃ t, toDate (getField p "endDate") = some t) :
    (jsSort earliestEnd l).Pairwise endNotLater := by
  apply jsSort_pairwise _ endNotLater (fun p => ∃ t, toDate (getField p "endDate") = some t)
  · rintro a b ⟨x, hx⟩ ⟨y, hy⟩ h x' y' hx' hy'
    rw [notAfter_earliestEnd a b x y hx hy] at h
    rw [hx] at hx'; rw [hy] at hy'
    cases hx'; cases hy'
    simpa using h
  · rintro a b ⟨x, hx⟩ ⟨y, hy⟩ h y' x' hy' hx'
    rw [notAfter_earliestEnd a b x y hx hy] at h
    rw [hx] at hx'; rw [hy] at hy'
    cases hx'; cases hy'
    have : ¬ x ≤ y := by simpa using h
    omega
  · rintro a b c ⟨x, hx⟩ ⟨y, hy⟩ ⟨z, hz⟩ hab hbc x' z' hx' hz'
    rw [hx] at hx'; rw [hz] at hz'
    cases hx'; cases hz'
    exact le_trans (hab x y hx hy) (hbc y z hy hz)
  · exact hdates

theorem mem_candidates (st : Store) (p : Obj) :
    p ∈ jsSort earliestEnd ((jsSort newestCreated st.projects).filter hasOpenDeadline) ↔
      p ∈ st.projects ∧ hasOpenDeadline p = true := by
  rw [mem_jsSort, List.mem_filter, mem_jsSort]

/-- C20, counterexample: on 2025-06-10 a project that was due on 2020-01-01 and
is still active is listed first, with `daysUntilDeadline` -1987. -/
theorem upcomingDeadlines_lists_overdue :
    ((upcomingDeadlines sampleEnv overdueStore).map fun e =>
      (getField e "projectCode", getField e "endDate", getField e "daysUntilDeadline")) =
      [(JsVal.str "OLD-001", JsVal.str "2020-01-01", JsVal.num (intNum (-1987))),
        (JsVal.str "NEW-001", JsVal.str "2025-12-31", JsVal.num (intNum 204))] ∧
    dateLt (toDate (JsVal.str "2020-01-01")) (some sampleEnv.now) = true := by
  decide

/-- C20, amended: `upcomingDeadlines` lists stored projects that have a truthy
`endDate` and a status other than `completed`, whether that date is past or
future, each with its `daysUntilDeadline`; it has 5 entries, or all such
projects when they are fewer; and when the `endDate` of each of them parses, the
list is in ascending order of parsed `endDate`. -/
theorem upcomingDeadlines_open (env : Env) (st : Store) :
    (upcomingDeadlines env st).length = min 5 (st.projects.filter hasOpenDeadline).length ∧
    (∀ e ∈ upcomingDeadlines env st, ∃ p ∈ st.projects,
      e = setField p "daysUntilDeadline" (JsVal.num (daysUntilDeadline env.now p)) ∧
      truthy (getField e "endDate") = true ∧
      strictEq (getField e "status") (JsVal.str "completed") = false) ∧
    ((∀ p ∈ st.projects, hasOpenDeadline p = true →
        ∃ t, toDate (getField p "endDate") = some t) →
      (upcomingDeadlines env st).Pairwise endNotLater) := by
  refine ⟨?_, ?_, ?_⟩
  · unfold upcomingDeadlines
    rw [List.length_map, List.length_take, jsSort_length,
      ((jsSort_perm newestCreated st.projects).filter hasOpenDeadline).length_eq]
  · intro e he
    obtain ⟨p, hp, rfl⟩ := List.mem_map.mp he
    obtain ⟨hmem, hopen⟩ := (mem_candidates st p).mp (List.mem_of_mem_take hp)
    refine ⟨p, hmem, rfl, ?_, ?_⟩
    · rw [getField_setField_ne _ _ _ _ (by decide)]
      simp only [hasOpenDeadline, Bool.and_eq_true] at hopen
      exact hopen.1
    · rw [getField_setField_ne _ _ _ _ (by decide)]
      simp only [hasOpenDeadline, Bool.and_eq_true, Bool.not_eq_true'] at hopen
      exact hopen.2
  · intro hdates
    have hsorted := sort_earliestEnd ((jsSort newestCreated st.projects).filter hasOpenDeadline)
      (fun p hp => by
        obtain ⟨h1, h2⟩ := List.mem_filter.mp hp
        exact hdates p ((mem_jsSort _ _ _).mp h1) h2)
    unfold upcomingDeadlines
    rw [List.pairwise_map]
    refine (hsorted.sublist (List.take_sublist 5 _)).imp ?_
    intro a b hab
    unfold endNotLater
    rw [getField_setField_ne _ _ _ _ (by decide), getField_setField_ne _ _ _ _ (by decide)]
    exact hab

theorem upcomingDeadlines_open_witness :
    (upcomingDeadlines sampleEnv overdueStore).length = 2 ∧
    (upcomingDeadlines sampleEnv overdueStore).Pairwise endNotLater :=
  ⟨by decide, (upcomingDeadlines_open sampleEnv overdueStore).2.2 (by
    intro p hp hopen
    simp only [overdueStore, List.mem_cons, List.mem_singleton, List.not_mem_nil,
      or_false] at hp
    rcases hp with rfl | rfl | rfl
    · exact ⟨1767139200000, by decide⟩
    · exact ⟨1577836800000, by decide⟩
    · exact absurd hopen (by decide))⟩

/-! ## The batch updates -/

theorem strictEq_eq {a b : JsVal} (h : strictEq a b = true) : a = b := by
  cases a <;> cases b <;> simp [strictEq] at h ⊢
  · exact h
  · rename_i x y
    cases x <;> cases y <;> simp [strictEq] at h ⊢ <;> exact h
  · exact h

theorem getField_setField_same (o : Obj) (k : String) (v : JsVal) :
    getField (setField o k v) k = v := by
  induction o with
  | nil => simp [setField, getField]
  | cons kv rest ih =>
    obtain ⟨a, b⟩ := kv
    by_cases h : a = k
    · simp [setField, getField, h]
    · simp [setField, getField, h, ih]

theorem setField_present (o : Obj) (k : String) (v : JsVal) (hk : k ∈ o.map Prod.fst)
    (hv : getField o k = v) : setField o k v = o := by
  induction o with
  | nil => simp at hk
  | cons kv rest ih =>
    obtain ⟨a, b⟩ := kv
    by_cases h : a = k
    · simp only [getField, if_pos h] at hv
      simp [setField, h, hv]
    · simp only [getField, if_neg h] at hv
      have hk' : k ∈ rest.map Prod.fst := by
        simp only [List.map_cons, List.mem_cons] at hk
        rcases hk with hk | hk
        · exact absurd hk.symm h
        · exact hk
      simp [setField, h, ih hk' hv]

theorem mem_keys_setField (o : Obj) (k k' : String) (v : JsVal) :
    k' ∈ (setField o k v).map Prod.fst ↔ k' ∈ o.map Prod.fst ∨ k' = k := by
  induction o with
  | nil => simp [setField]
  | cons kv rest ih =>
    obtain ⟨a, b⟩ := kv
    by_cases h : a = k
    · subst h
      simp only [setField, if_true, List.map_cons, List.mem_cons]
      tauto
    · simp only [setField, if_neg h, List.map_cons, List.mem_cons, ih]
      tauto

theorem stamped_idem (now : Int) (field : String) (value : JsVal) (hf : field ≠ "updatedAt")
    (p : Obj) : stamped now field value (stamped now field value p) = stamped now field value p := by
  unfold stamped
  have h1 : setField (setField (setField p field value) "updatedAt" (JsVal.str (toISOString now)))
      field value = setField (setField p field value) "updatedAt" (JsVal.str (toISOString now)) := by
    apply setField_present
    · rw [mem_keys_setField, mem_keys_setField]
      exact Or.inl (Or.inr rfl)
    · rw [getField_setField_ne _ _ _ _ (Ne.symm hf), getField_setField_same]
  rw [h1]
  apply setField_present
  · rw [mem_keys_setField]
    exact Or.inr rfl
  · rw [getField_setField_same]

theorem stamped_id (now : Int) (field : String) (value : JsVal) (hf : field ≠ "id") (p : Obj) :
    getField (stamped now field value p) "id" = getField p "id" := by
  unfold stamped
  rw [getField_setField_ne _ _ _ _ (by decide), getField_setField_ne _ _ _ _ hf]

theorem idMatches_stamped (now : Int) (field : String) (value : JsVal) (hf : field ≠ "id")
    (p : Obj) (id : JsVal) : idMatches (stamped now field value p) id = idMatches p id := by
  unfold idMatches
  rw [stamped_id now field value hf]

theorem findIndex_none {f : Obj → Bool} {l : List Obj} (h : findIndex f l = Option.none) :
    ∀ p ∈ l, f p = false := by
  induction l with
  | nil => simp
  | cons x xs ih =>
    unfold findIndex at h
    by_cases hx : f x = true
    · simp [hx] at h
    · simp only [hx, Bool.false_eq_true, if_false, Option.map_eq_none'] at h
      intro p hp
      rcases List.mem_cons.mp hp with rfl | hp
      · simpa using hx
      · exact ih h p hp

theorem set_first_match (f : Obj → Bool) (g : Obj → Obj) (l : List Obj) (i : Nat)
    (hi : findIndex f l = some i)
    (huniq : l.Pairwise fun a b => ¬ (f a = true ∧ f b = true)) :
    l.set i (g (l.getD i [])) = l.map (fun p => if f p then g p else p) ∧
    l.filter f = [l.getD i []] := by
  induction l generalizing i with
  | nil => simp [findIndex] at hi
  | cons x xs ih =>
    rw [List.pairwise_cons] at huniq
    unfold findIndex at hi
    by_cases hx : f x = true
    · simp only [hx, if_true, Option.some.injEq] at hi
      subst hi
      have hrest : ∀ q ∈ xs, f q = false := fun q hq => by
        have := huniq.1 q hq
        simpa [hx] using this
      have hmap : xs.map (fun p => if f p then g p else p) = xs := by
        conv_rhs => rw [← List.map_id xs]
        apply List.map_congr_left
        intro q hq
        simp [hrest q hq]
      have hfil : xs.filter f = [] := by
        rw [List.filter_eq_nil_iff]
        intro q hq
        simp [hrest q hq]
      simp [hx, hmap, hfil]
    · simp only [hx, Bool.false_eq_true, if_false, Option.map_eq_some'] at hi
      obtain ⟨j, hj, rfl⟩ := hi
      obtain ⟨h1, h2⟩ := ih j hj huniq.2
      rw [List.getD_eq_getElem?_getD] at h1 h2
      simp [hx, h1, h2]

theorem distinctIds_unique (l : List Obj) (id : JsVal) (hd : distinctIds l) :
    l.Pairwise fun a b => ¬ (idMatches a id = true ∧ idMatches b id = true) := by
  unfold distinctIds at hd
  rw [List.pairwise_map] at hd
  refine hd.imp ?_
  intro a b hab ⟨ha, hb⟩
  unfold idMatches at ha hb
  have hb' := strictEq_eq hb
  rw [hb', ha] at hab
  exact Bool.noConfusion hab

theorem batchStep_eq (now : Int) (field : String) (value : JsVal) (l out : List Obj)
    (id : JsVal) (hd : distinctIds l) :
    batchStep now field value (l, out) id =
      (l.map (fun p => if idMatches p id then stamped now field value p else p),
        out ++ (l.filter fun p => idMatches p id).map (stamped now field value)) := by
  unfold batchStep
  cases hi : findIndex (fun p => strictEq (getField p "id") (JsVal.num (parseInt id))) l with
  | none =>
    have hnone := findIndex_none hi
    have hmap : l.map (fun p => if idMatches p id then stamped now field value p else p) = l := by
      conv_rhs => rw [← List.map_id l]
      apply List.map_congr_left
      intro q hq
      have := hnone q hq
      simp only [idMatches, this]
      rfl
    have hfil : (l.filter fun p => idMatches p id) = [] := by
      rw [List.filter_eq_nil_iff]
      intro q hq
      have := hnone q hq
      simp only [idMatches, this]
      simp
    simp only [hmap, hfil, List.map_nil, List.append_nil]
  | some i =>
    obtain ⟨h1, h2⟩ := set_first_match (fun p => idMatches p id) (stamped now field value) l i hi
      (distinctIds_unique l id hd)
    simp only
    rw [← h1, h2]
    rfl

theorem distinctIds_map (now : Int) (field : String) (value : JsVal) (hf : field ≠ "id")
    (c : Obj → Bool) (l : List Obj) (hd : distinctIds l) :
    distinctIds (l.map fun p => if c p then stamped now field value p else p) := by
  unfold distinctIds at hd ⊢
  have : ((l.map fun p => if c p then stamped now field value p else p).map
      fun p => getField p "id") = l.map fun p => getField p "id" := by
    rw [List.map_map]
    apply List.map_congr_left
    intro p _
    by_cases h : c p = true
    · simp [h, stamped_id now field value hf]
    · simp [h]
  rw [this]
  exact hd

theorem batchFold_eq (now : Int) (field : String) (value : JsVal) (hf : field ≠ "id")
    (hu : field ≠ "updatedAt") (ids : List JsVal) (l out : List Obj) (hd : distinctIds l) :
    ids.foldl (batchStep now field value) (l, out) =
      (batchUpdated now field value ids l, out ++ batchData now field value ids l) := by
  induction ids generalizing l out with
  | nil => simp [batchUpdated, batchData, idListed]
  | cons id rest ih =>
    rw [List.foldl_cons, batchStep_eq now field value l out id hd,
      ih _ _ (distinctIds_map now field value hf _ l hd)]
    congr 1
    · unfold batchUpdated
      rw [List.map_map]
      apply List.map_congr_left
      intro p _
      by_cases hm : idMatches p id = true
      · simp [hm, idListed, idMatches_stamped now field value hf, stamped_idem now field value hu]
      · simp [hm, idListed]
    · unfold batchData
      rw [List.flatMap_cons, List.append_assoc]
      congr 1
      congr 1
      apply List.flatMap_congr
      intro id' _
      rw [List.filter_map, List.map_map]
      have hfil : (l.filter ((fun p => idMatches p id') ∘
          fun p => if idMatches p id then stamped now field value p else p)) =
          l.filter fun p => idMatches p id' := by
        apply List.filter_congr
        intro p _
        by_cases hm : idMatches p id = true
        · simp [hm, idMatches_stamped now field value hf]
        · simp [hm]
      rw [hfil]
      apply List.map_congr_left
      intro p _
      by_cases hm : idMatches p id = true
      · simp [hm, stamped_idem now field value hu]
      · simp [hm]

theorem filter_match_length (l : List Obj) (id : JsVal) (hd : distinctIds l) :
    (l.filter fun p => idMatches p id).length = if l.any (fun p => idMatches p id) then 1 else 0 := by
  cases hi : findIndex (fun p => idMatches p id) l with
  | none =>
    have hnone := findIndex_none hi
    have hfil : (l.filter fun p => idMatches p id) = [] := by
      rw [List.filter_eq_nil_iff]
      intro q hq
      simp [hnone q hq]
    have hany : l.any (fun p => idMatches p id) = false := by
      rw [List.any_eq_false]
      intro q hq
      simp [hnone q hq]
    simp [hfil, hany]
  | some i =>
    obtain ⟨_, h2⟩ := set_first_match (fun p => idMatches p id) (fun q => q) l i hi
      (distinctIds_unique l id hd)
    have hany : l.any (fun p => idMatches p id) = true := by
      rw [List.any_eq_true]
      have hmem : l.getD i [] ∈ l.filter fun p => idMatches p id := by
        rw [h2]
        exact List.mem_singleton.mpr rfl
      exact ⟨_, (List.mem_filter.mp hmem).1, (List.mem_filter.mp hmem).2⟩
    simp [h2, hany]

theorem batchData_length (now : Int) (field : String) (value : JsVal) (ids : List JsVal)
    (l : List Obj) (hd : distinctIds l) :
    (batchData now field value ids l).length = matchingEntries ids l := by
  unfold batchData matchingEntries
  induction ids with
  | nil => rfl
  | cons id rest ih =>
    rw [List.flatMap_cons, List.length_append, ih, List.length_map,
      filter_match_length l id hd, List.filter_cons]
    by_cases h : l.any (fun p => idMatches p id) = true
    · simp [h]
      omega
    · simp [h]

theorem filter_or_length (l : List Obj) (a b : Obj → Bool)
    (hdisj : ∀ p ∈ l, a p = true → b p = false) :
    (l.filter fun p => a p || b p).length = (l.filter a).length + (l.filter b).length := by
  induction l with
  | nil => rfl
  | cons x xs ih =>
    have ih' := ih fun p hp => hdisj p (List.mem_cons_of_mem _ hp)
    have hx := hdisj x (List.mem_cons_self _ _)
    by_cases ha : a x = true
    · simp [List.filter_cons, ha, hx ha, ih']
      omega
    · by_cases hb : b x = true
      · simp [List.filter_cons, ha, hb, ih']
        omega
      · simp [List.filter_cons, ha, hb, ih']

theorem matchingEntries_records (ids : List JsVal) (l : List Obj) (hd : distinctIds l)
    (he : distinctEntries ids) :
    matchingEntries ids l = (l.filter (idListed ids)).length := by
  unfold matchingEntries
  induction ids with
  | nil =>
    have hfil : l.filter (idListed []) = [] := by
      rw [List.filter_eq_nil_iff]
      intro p _
      simp [idListed]
    simp [hfil]
  | cons id rest ih =>
    unfold distinctEntries at he
    rw [List.map_cons, List.nodup_cons] at he
    have hsplit : (l.filter (idListed (id :: rest))) =
        l.filter fun p => idMatches p id || idListed rest p := by
      apply List.filter_congr
      intro p _
      simp [idListed]
    rw [hsplit, filter_or_length l (fun p => idMatches p id) (idListed rest), ← ih he.2,
      filter_match_length l id hd, List.filter_cons]
    · by_cases h : l.any (fun p => idMatches p id) = true
      · simp [h]
        omega
      · simp [h]
    · intro p _ hm
      by_contra hl
      have hl' : idListed rest p = true := by simpa using hl
      unfold idListed at hl'
      rw [List.any_eq_true] at hl'
      obtain ⟨id', hid', hm'⟩ := hl'
      unfold idMatches at hm hm'
      have e1 := strictEq_eq hm
      have e2 := strictEq_eq hm'
      rw [e1] at e2
      have e3 : parseInt id = parseInt id' := by
        injection e2
      exact he.1 (e3 ▸ List.mem_map_of_mem parseInt hid')

theorem batchFold_result (now : Int) (field : String) (value : JsVal) (hf : field ≠ "id")
    (hu : field ≠ "updatedAt") (ids : List JsVal) (l : List Obj) (hd : distinctIds l) :
    ids.foldl (batchStep now field value) (l, []) =
      (batchUpdated now field value ids l, batchData now field value ids l) := by
  rw [batchFold_eq now field value hf hu ids l [] hd, List.nil_append]

/-- C21, as the claim states it, fails on a list that names a record twice:
with the ids `[1, 1]` one record is updated and the answer counts 2.  And of two
stored records with the same id (two creations in one millisecond) only the
first is updated. -/
theorem batch_counts_repeated_ids :
    (batchStatus sampleEnv threeProjects (some [timeNum 1, timeNum 1]) (JsVal.str "active")).2.message =
      some "成功更新 2 個專案狀態" ∧
    ((batchStatus sampleEnv threeProjects (some [timeNum 1, timeNum 1])
      (JsVal.str "active")).1.projects.map fun p => getField p "status") =
      [JsVal.str "active", JsVal.str "planning", JsVal.str "planning"] ∧
    (threeProjects.projects.filter (idListed [timeNum 1, timeNum 1])).length = 1 ∧
    (twinStore.projects.filter (idListed [timeNum 1])).length = 2 ∧
    ((batchStatus sampleEnv twinStore (some [timeNum 1])
      (JsVal.str "active")).1.projects.map fun p => getField p "status") =
      [JsVal.str "active", JsVal.str "planning"] := by
  decide

/-- C21, amended: for every collection with distinct ids and every non-empty id
list, a batch update that is written (`/batch/status` with a valid status,
`/batch/help-status` with 是 or 否) leaves the collection with exactly the
records whose id is `parseInt` of a list entry updated and the others as they
were; an updated record differs from the stored one in the given field and
`updatedAt` only; `data` holds, for every list entry that matches a record, that
record, and the count in `message` is the number of those entries, which is the
number of records updated when no two entries parse to the same number. -/
theorem batch_update_frame (env : Env) (st : Store) (ids : List JsVal) (value : JsVal)
    (hids : ids ≠ []) (hw : env.writeOk = true) :
    (distinctIds st.projects → includesStr validStatuses value = true →
      (batchStatus env st (some ids) value).1 =
        { st with projects := batchUpdated env.now "status" value ids st.projects } ∧
      (batchStatus env st (some ids) value).2.status = 200 ∧
      (batchStatus env st (some ids) value).2.data =
        Payload.records (batchData env.now "status" value ids st.projects) ∧
      (batchStatus env st (some ids) value).2.message =
        some ("成功更新 " ++ toString (matchingEntries ids st.projects) ++ " 個專案狀態") ∧
      (distinctEntries ids →
        matchingEntries ids st.projects = (st.projects.filter (idListed ids)).length)) ∧
    (distinctIds st.progress → includesStr validHelpOptions value = true →
      (batchHelpStatus env st (some ids) value).1 =
        { st with progress := batchUpdated env.now "needHelp" value ids st.progress } ∧
      (batchHelpStatus env st (some ids) value).2.status = 200 ∧
      (batchHelpStatus env st (some ids) value).2.data =
        Payload.records (batchData env.now "needHelp" value ids st.progress) ∧
      (batchHelpStatus env st (some ids) value).2.message =
        some ("成功更新 " ++ toString (matchingEntries ids st.progress) ++
          " 個進度回報的協助狀態") ∧
      (distinctEntries ids →
        matchingEntries ids st.progress = (st.progress.filter (idListed ids)).length)) ∧
    ∀ (field : String) (p : Obj), field ≠ "updatedAt" →
      getField (stamped env.now field value p) field = value ∧
      getField (stamped env.now field value p) "updatedAt" = JsVal.str (toISOString env.now) ∧
      ∀ k, k ≠ field → k ≠ "updatedAt" →
        getField (stamped env.now field value p) k = getField p k := by
  have hlen : ¬ ids.length = 0 := fun h => hids (List.length_eq_zero.mp h)
  refine ⟨?_, ?_, ?_⟩
  · intro hd hv
    have hfold := batchFold_result env.now "status" value (by decide) (by decide) ids
      st.projects hd
    have hcount := batchData_length env.now "status" value ids st.projects hd
    refine ⟨?_, ?_, ?_, ?_, fun he => matchingEntries_records ids st.projects hd he⟩ <;>
      simp [batchStatus, hlen, hv, hw, hfold, hcount]
  · intro hd hv
    have hfold := batchFold_result env.now "needHelp" value (by decide) (by decide) ids
      st.progress hd
    have hcount := batchData_length env.now "needHelp" value ids st.progress hd
    refine ⟨?_, ?_, ?_, ?_, fun he => matchingEntries_records ids st.progress hd he⟩ <;>
      simp [batchHelpStatus, hlen, hv, hw, hfold, hcount]
  · intro field p hf
    refine ⟨?_, ?_, ?_⟩
    · unfold stamped
      rw [getField_setField_ne _ _ _ _ (Ne.symm hf), getField_setField_same]
    · unfold stamped
      rw [getField_setField_same]
    · intro k hk hku
      unfold stamped
      rw [getField_setField_ne _ _ _ _ (Ne.symm hku), getField_setField_ne _ _ _ _ (Ne.symm hk)]

theorem batch_update_frame_witness :
    (batchStatus sampleEnv threeProjects (some [timeNum 1, timeNum 2, timeNum 999])
      (JsVal.str "active")).2.message = some "成功更新 2 個專案狀態" ∧
    ((batchStatus sampleEnv threeProjects (some [timeNum 1, timeNum 2, timeNum 999])
      (JsVal.str "active")).1.projects.map fun p => getField p "status") =
      [JsVal.str "active", JsVal.str "active", JsVal.str "planning"] ∧
    (batchStatus sampleEnv threeProjects (some [timeNum 1, timeNum 2, timeNum 999])
      (JsVal.str "active")).1 =
      { threeProjects with projects := (batchUpdated sampleEnv.now "status" (JsVal.str "active")
          [timeNum 1, timeNum 2, timeNum 999] threeProjects.projects) } :=
  ⟨by decide, by decide,
    ((batch_update_frame sampleEnv threeProjects [timeNum 1, timeNum 2, timeNum 999]
      (JsVal.str "active") (by decide) rfl).1 (by unfold distinctIds; decide) (by decide)).1⟩

/-! ## What the write handlers store -/

theorem bind_ok {α β : Type} {x : Except JsError α} {f : α → Except JsError β} {r : β}
    (h : x.bind f = Except.ok r) : ∃ a, x = Except.ok a ∧ f a = Except.ok r := by
  cases x with
  | error e => simp [Except.bind] at h
  | ok a => exact ⟨a, rfl, h⟩

theorem map_ok {α β : Type} {x : Except JsError α} {f : α → β} {r : β}
    (h : x.map f = Except.ok r) : ∃ a, x = Except.ok a ∧ f a = r := by
  cases x with
  | error e => simp [Except.map] at h
  | ok a => exact ⟨a, rfl, by simpa [Except.map] using h⟩

theorem getField_spread_absent (a b : Obj) (k : String) (hk : k ∉ b.map Prod.fst) :
    getField (spread a b) k = getField a k := by
  unfold spread
  induction b generalizing a with
  | nil => rfl
  | cons kv rest ih =>
    rw [List.map_cons, List.mem_cons, not_or] at hk
    rw [List.foldl_cons, ih _ hk.2, getField_setField_ne _ _ _ _ (Ne.symm hk.1)]

theorem trimInto_other {o o' updateData : Obj} {field : String} {present : Bool}
    (h : trimInto o updateData field present = Except.ok o') (k : String) (hk : field ≠ k) :
    getField o' k = getField o k := by
  unfold trimInto at h
  cases present with
  | false =>
    simp only [Bool.false_eq_true, if_false, Except.ok.injEq] at h
    rw [← h]
  | true =>
    simp only [if_true] at h
    obtain ⟨t, _, ht⟩ := map_ok h
    rw [← ht, getField_setField_ne _ _ _ _ hk]

theorem updatedProgress_other {now : Int} {old updateData r : Obj}
    (h : updatedProgress now old updateData = Except.ok r) (k : String)
    (h1 : "reporter" ≠ k) (h2 : "projectCode" ≠ k) (h3 : "content" ≠ k) (h4 : "blocker" ≠ k)
    (h5 : "plan" ≠ k) :
    getField r k = getField (setField (setField (spread old updateData) "workHours"
      (numOr (parseFloat (getField updateData "workHours")) (getField old "workHours")))
      "updatedAt" (JsVal.str (toISOString now))) k := by
  unfold updatedProgress at h
  simp only at h
  obtain ⟨o1, e1, h⟩ := bind_ok h
  obtain ⟨o2, e2, h⟩ := bind_ok h
  obtain ⟨o3, e3, h⟩ := bind_ok h
  obtain ⟨o4, e4, h⟩ := bind_ok h
  rw [trimInto_other h k h5, trimInto_other e4 k h4, trimInto_other e3 k h3,
    trimInto_other e2 k h2, trimInto_other e1 k h1]

theorem updatedProgress_fields {now : Int} {old updateData r : Obj}
    (h : updatedProgress now old updateData = Except.ok r) :
    getField r "workHours" =
      numOr (parseFloat (getField updateData "workHours")) (getField old "workHours") ∧
    getField r "updatedAt" = JsVal.str (toISOString now) ∧
    getField r "needHelp" = getField (spread old updateData) "needHelp" ∧
    ("id" ∉ updateData.map Prod.fst → getField r "id" = getField old "id") ∧
    ("createdAt" ∉ updateData.map Prod.fst → getField r "createdAt" = getField old "createdAt") := by
  refine ⟨?_, ?_, ?_, ?_, ?_⟩
  · rw [updatedProgress_other h _ (by decide) (by decide) (by decide) (by decide) (by decide),
      getField_setField_ne _ _ _ _ (by decide), getField_setField_same]
  · rw [updatedProgress_other h _ (by decide) (by decide) (by decide) (by decide) (by decide),
      getField_setField_same]
  · rw [updatedProgress_other h _ (by decide) (by decide) (by decide) (by decide) (by decide),
      getField_setField_ne _ _ _ _ (by decide), getField_setField_ne _ _ _ _ (by decide)]
  · intro hk
    rw [updatedProgress_other h _ (by decide) (by decide) (by decide) (by decide) (by decide),
      getField_setField_ne _ _ _ _ (by decide), getField_setField_ne _ _ _ _ (by decide),
      getField_spread_absent _ _ _ hk]
  · intro hk
    rw [updatedProgress_other h _ (by decide) (by decide) (by decide) (by decide) (by decide),
      getField_setField_ne _ _ _ _ (by decide), getField_setField_ne _ _ _ _ (by decide),
      getField_spread_absent _ _ _ hk]

theorem updatedProject_fields {now : Int} {old updateData r : Obj}
    (h : updatedProject now old updateData = Except.ok r) :
    getField r "updatedAt" = JsVal.str (toISOString now) ∧
    ("id" ∉ updateData.map Prod.fst → getField r "id" = getField old "id") ∧
    ("createdAt" ∉ updateData.map Prod.fst → getField r "createdAt" = getField old "createdAt") := by
  have key : ∀ k, "name" ≠ k → "owner" ≠ k → "description" ≠ k →
      getField r k = getField (setField (spread old updateData) "updatedAt"
        (JsVal.str (toISOString now))) k := by
    intro k h1 h2 h3
    unfold updatedProject at h
    simp only at h
    obtain ⟨o1, e1, h⟩ := bind_ok h
    obtain ⟨o2, e2, h⟩ := bind_ok h
    have s3 : getField r k = getField o2 k := by
      split at h
      · obtain ⟨t, _, ht⟩ := map_ok h
        rw [← ht, getField_setField_ne _ _ _ _ h3]
      · simp only [Except.ok.injEq] at h
        rw [h]
    have s2 : getField o2 k = getField o1 k := by
      split at e2
      · obtain ⟨t, _, ht⟩ := map_ok e2
        rw [← ht, getField_setField_ne _ _ _ _ h2]
      · simp only [Except.ok.injEq] at e2
        rw [e2]
    have s1 : getField o1 k = getField (setField (spread old updateData) "updatedAt"
        (JsVal.str (toISOString now))) k := by
      split at e1
      · obtain ⟨t, _, ht⟩ := map_ok e1
        rw [← ht, getField_setField_ne _ _ _ _ h1]
      · simp only [Except.ok.injEq] at e1
        rw [e1]
    rw [s3, s2, s1]
  refine ⟨?_, ?_, ?_⟩
  · rw [key _ (by decide) (by decide) (by decide), getField_setField_same]
  · intro hk
    rw [key _ (by decide) (by decide) (by decide), getField_setField_ne _ _ _ _ (by decide),
      getField_spread_absent _ _ _ hk]
  · intro hk
    rw [key _ (by decide) (by decide) (by decide), getField_setField_ne _ _ _ _ (by decide),
      getField_spread_absent _ _ _ hk]

theorem findIndex_some {f : Obj → Bool} {l : List Obj} {i : Nat}
    (h : findIndex f l = some i) : f (l.getD i []) = true ∧ l.getD i [] ∈ l := by
  induction l generalizing i with
  | nil => simp [findIndex] at h
  | cons x xs ih =>
    unfold findIndex at h
    by_cases hx : f x = true
    · simp only [hx, if_true, Option.some.injEq] at h
      subst h
      simp [hx]
    · simp only [hx, Bool.false_eq_true, if_false, Option.map_eq_some'] at h
      obtain ⟨j, hj, rfl⟩ := h
      obtain ⟨h1, h2⟩ := ih hj
      rw [List.getD_eq_getElem?_getD] at h1 h2
      simp [h1, h2]

theorem updateProject_cases (env : Env) (st : Store) (projectCode : String) (updateData : Obj) :
    ((updateProject env st projectCode updateData).1 = st ∧
      (updateProject env st projectCode updateData).2.status ≠ 200) ∨
    ∃ i r, findIndex (fun p => strictEq (getField p "projectCode") (JsVal.str projectCode))
        st.projects = some i ∧
      updatedProject env.now (st.projects.getD i []) updateData = Except.ok r ∧
      updateProject env st projectCode updateData =
        ({ st with projects := st.projects.set i r }, success 200 (some "專案更新成功") r) := by
  unfold updateProject
  cases validateProjectData (setField updateData "projectCode" (JsVal.str projectCode)) with
  | error e => exact Or.inl ⟨rfl, by simp [failure]⟩
  | ok errs =>
    simp only
    split
    · exact Or.inl ⟨rfl, by simp [validationFailure]⟩
    · cases hi : findIndex (fun p => strictEq (getField p "projectCode") (JsVal.str projectCode))
          st.projects with
      | none => exact Or.inl ⟨rfl, by simp [failure]⟩
      | some i =>
        simp only
        split
        · exact Or.inl ⟨rfl, by simp [failure]⟩
        · cases hr : updatedProject env.now (st.projects.getD i []) updateData with
          | error e => exact Or.inl ⟨rfl, by simp [failure]⟩
          | ok r =>
            simp only
            cases hw : env.writeOk with
            | false => exact Or.inl ⟨rfl, by simp [failure]⟩
            | true => exact Or.inr ⟨i, r, rfl, hr, by simp⟩

theorem updateProgress_cases (env : Env) (st : Store) (id : String) (updateData : Obj) :
    ((updateProgress env st id updateData).1 = st ∧
      (updateProgress env st id updateData).2.status ≠ 200) ∨
    ∃ i r errs, validateProgressData env.now updateData = Except.ok errs ∧ errs.length = 0 ∧
      findIndex (fun p => strictEq (getField p "id") (JsVal.num (parseInt (JsVal.str id))))
        st.progress = some i ∧
      updatedProgress env.now (st.progress.getD i []) updateData = Except.ok r ∧
      updateProgress env st id updateData =
        ({ st with progress := st.progress.set i r }, success 200 (some "進度回報更新成功") r) := by
  unfold updateProgress
  simp only
  split
  · exact Or.inl ⟨rfl, by simp [failure]⟩
  · cases hv : validateProgressData env.now updateData with
    | error e => exact Or.inl ⟨rfl, by simp [failure]⟩
    | ok errs =>
      simp only
      split
      · exact Or.inl ⟨rfl, by simp [validationFailure]⟩
      · rename_i hlen
        split
        · exact Or.inl ⟨rfl, by simp [failure]⟩
        · cases hi : findIndex
              (fun p => strictEq (getField p "id") (JsVal.num (parseInt (JsVal.str id))))
              st.progress with
          | none => exact Or.inl ⟨rfl, by simp [failure]⟩
          | some i =>
            simp only
            cases hr : updatedProgress env.now (st.progress.getD i []) updateData with
            | error e => exact Or.inl ⟨rfl, by simp [failure]⟩
            | ok r =>
              simp only
              cases hw : env.writeOk with
              | false => exact Or.inl ⟨rfl, by simp [failure]⟩
              | true => exact Or.inr ⟨i, r, errs, rfl, by omega, rfl, hr, by simp⟩

theorem createProgress_cases (env : Env) (st : Store) (progressData : Obj) :
    ((createProgress env st progressData).1 = st ∧
      (createProgress env st progressData).2.status ≠ 201) ∨
    ∃ r errs, validateProgressData env.now progressData = Except.ok errs ∧ errs.length = 0 ∧
      newProgress env.now progressData = Except.ok r ∧
      createProgress env st progressData =
        ({ st with progress := st.progress ++ [r] }, success 201 (some "進度回報建立成功") r) := by
  unfold createProgress
  cases hv : validateProgressData env.now progressData with
  | error e => exact Or.inl ⟨rfl, by simp [failure]⟩
  | ok errs =>
    simp only
    split
    · exact Or.inl ⟨rfl, by simp [validationFailure]⟩
    · split
      · exact Or.inl ⟨rfl, by simp [failure]⟩
      · cases hr : newProgress env.now progressData with
        | error e => exact Or.inl ⟨rfl, by simp [failure]⟩
        | ok r =>
          simp only
          cases hw : env.writeOk with
          | false => exact Or.inl ⟨rfl, by simp [failure]⟩
          | true => exact Or.inr ⟨r, errs, rfl, by omega, rfl, by simp⟩

theorem newProgress_fields {now : Int} {progressData r : Obj}
    (h : newProgress now progressData = Except.ok r) :
    getField r "workHours" =
      numOr (parseFloat (getField progressData "workHours")) (JsVal.num (JsNum.fin 0)) ∧
    getField r "needHelp" = jsOr (getField progressData "needHelp") (JsVal.str "否") := by
  unfold newProgress at h
  obtain ⟨a1, _, h⟩ := bind_ok h
  obtain ⟨a2, _, h⟩ := bind_ok h
  obtain ⟨a3, _, h⟩ := bind_ok h
  obtain ⟨a4, _, h⟩ := bind_ok h
  obtain ⟨a5, _, h⟩ := bind_ok h
  simp only [Except.ok.injEq] at h
  rw [← h]
  constructor <;> simp [getField]

/-! ## Deleting a project -/

theorem deleteProject_progress (env : Env) (st : Store) (id : String) :
    (deleteProject env st id).1.progress = st.progress := by
  unfold deleteProject
  simp only
  split
  · rfl
  · split
    · rfl
    · split <;> rfl

theorem deleteProject_projects_subset (env : Env) (st : Store) (id : String) (p : Obj)
    (h : p ∈ (deleteProject env st id).1.projects) : p ∈ st.projects := by
  unfold deleteProject at h
  simp only at h
  split at h
  · exact h
  · split at h
    · exact h
    · split at h
      · exact List.mem_of_mem_eraseIdx h
      · exact h

/-- C22, as the claim states it, fails: after the project `PRJ-001` is deleted
its three reports are still stored, but the fetch by project code is answered
404, because that handler first checks that the project exists.  The list query
with `projectCode=PRJ-001` still returns the three reports. -/
theorem deleted_project_reports_not_found :
    (deleteProject sampleEnv reportStore "1717200000000").2.status = 200 ∧
    ((deleteProject sampleEnv reportStore "1717200000000").1.projects.map fun p =>
      getField p "projectCode") = [JsVal.str "PRJ-002"] ∧
    (deleteProject sampleEnv reportStore "1717200000000").1.progress = reportStore.progress ∧
    (progressByProject reportStore "PRJ-001" Option.none Option.none).status = 200 ∧
    (progressByProject reportStore "PRJ-001" Option.none Option.none).data.length = 3 ∧
    progressByProject (deleteProject sampleEnv reportStore "1717200000000").1 "PRJ-001"
      Option.none Option.none = listFailure 404 "專案不存在" ∧
    (listProgress sampleEngine (deleteProject sampleEnv reportStore "1717200000000").1
      (codeQuery "PRJ-001")).data.length = 3 := by
  decide

/-- C22, amended: the delete handler of routes/projects.js never changes the
progress collection, so every list query (`GET /`, also with `projectCode=C`)
returns after the deletion what it returned before; the fetch by project code
`GET /project/C` returns what it returned before while a stored project still
carries the code `C`, and answers 404 once none does. -/
theorem delete_project_keeps_reports (env : Env) (st : Store) (id : String) :
    (deleteProject env st id).1.progress = st.progress ∧
    (∀ (eng : Engine) (q : ProgressQuery),
      listProgress eng (deleteProject env st id).1 q = listProgress eng st q) ∧
    (∀ (c : String) (limit sortOrder : Option String),
      checkProjectExists (deleteProject env st id).1 (JsVal.str c) = true →
      progressByProject (deleteProject env st id).1 c limit sortOrder =
        progressByProject st c limit sortOrder) ∧
    (∀ (c : String) (limit sortOrder : Option String),
      checkProjectExists (deleteProject env st id).1 (JsVal.str c) = false →
      progressByProject (deleteProject env st id).1 c limit sortOrder =
        listFailure 404 "專案不存在") := by
  have hp := deleteProject_progress env st id
  refine ⟨hp, ?_, ?_, ?_⟩
  · intro eng q
    unfold listProgress
    rw [hp]
  · intro c limit sortOrder hc
    have hbefore : checkProjectExists st (JsVal.str c) = true := by
      unfold checkProjectExists at hc ⊢
      rw [List.any_eq_true] at hc ⊢
      obtain ⟨p, hp1, hp2⟩ := hc
      exact ⟨p, deleteProject_projects_subset env st id p hp1, hp2⟩
    unfold progressByProject
    rw [hp]
    simp [hc, hbefore]
  · intro c limit sortOrder hc
    unfold progressByProject
    simp [hc]

theorem delete_project_keeps_reports_witness :
    (deleteProject sampleEnv reportStore "1717300000000").1.progress = reportStore.progress ∧
    checkProjectExists (deleteProject sampleEnv reportStore "1717300000000").1
      (JsVal.str "PRJ-001") = true ∧
    progressByProject (deleteProject sampleEnv reportStore "1717300000000").1 "PRJ-001"
      Option.none Option.none = progressByProject reportStore "PRJ-001" Option.none Option.none :=
  ⟨(delete_project_keeps_reports sampleEnv reportStore "1717300000000").1, by decide,
    (delete_project_keeps_reports sampleEnv reportStore "1717300000000").2.2.1 "PRJ-001"
      Option.none Option.none (by decide)⟩

/-! ## The server-assigned members under an update -/

/-- C23, as the claim states it, fails: the update handlers spread the request
body over the stored record, so a body with an `id` or a `createdAt` member
replaces the stored values (project `PRJ-001`, report 1). -/
theorem update_overwrites_id :
    (updateProject sampleEnv sampleStore "PRJ-001"
      [("name", JsVal.str "Website"), ("id", timeNum 5),
        ("createdAt", JsVal.str "2000-01-01T00:00:00.000Z")]).2.status = 200 ∧
    ((updateProject sampleEnv sampleStore "PRJ-001"
      [("name", JsVal.str "Website"), ("id", timeNum 5),
        ("createdAt", JsVal.str "2000-01-01T00:00:00.000Z")]).1.projects.map fun p =>
      (getField p "id", getField p "createdAt")) =
      [(timeNum 5, JsVal.str "2000-01-01T00:00:00.000Z")] ∧
    (sampleStore.projects.map fun p => (getField p "id", getField p "createdAt")) =
      [(timeNum 1717200000000, JsVal.str "2024-06-01T00:00:00.000Z")] ∧
    (updateProgress sampleEnv reportStore "1" (reportUpdate [("id", timeNum 5),
      ("createdAt", JsVal.str "2000-01-01T00:00:00.000Z")])).2.status = 200 ∧
    ((updateProgress sampleEnv reportStore "1" (reportUpdate [("id", timeNum 5),
      ("createdAt", JsVal.str "2000-01-01T00:00:00.000Z")])).1.progress.map fun p =>
      (getField p "id", getField p "createdAt")).head? =
      some (timeNum 5, JsVal.str "2000-01-01T00:00:00.000Z") := by
  decide

/-- C23, amended: for every stored record and every update request that
succeeds, the update handlers of routes/projects.js and routes/progress.js store
the record with `updatedAt` set to the update instant, whatever the body
carries, and leave its `id` unchanged when the body has no `id` member and its
`createdAt` unchanged when the body has no `createdAt` member.  The stored
record is the one sent in the answer, and no other record changes. -/
theorem update_keeps_id (env : Env) (st : Store) (updateData : Obj) :
    (∀ projectCode : String,
      (updateProject env st projectCode updateData).2.status = 200 →
      ∃ i r, findIndex (fun p => strictEq (getField p "projectCode") (JsVal.str projectCode))
          st.projects = some i ∧
        (updateProject env st projectCode updateData).1 =
          { st with projects := st.projects.set i r } ∧
        (updateProject env st projectCode updateData).2.data = Payload.record r ∧
        getField r "updatedAt" = JsVal.str (toISOString env.now) ∧
        ("id" ∉ updateData.map Prod.fst →
          getField r "id" = getField (st.projects.getD i []) "id") ∧
        ("createdAt" ∉ updateData.map Prod.fst →
          getField r "createdAt" = getField (st.projects.getD i []) "createdAt")) ∧
    (∀ id : String,
      (updateProgress env st id updateData).2.status = 200 →
      ∃ i r, findIndex
          (fun p => strictEq (getField p "id") (JsVal.num (parseInt (JsVal.str id))))
          st.progress = some i ∧
        (updateProgress env st id updateData).1 =
          { st with progress := st.progress.set i r } ∧
        (updateProgress env st id updateData).2.data = Payload.record r ∧
        getField r "updatedAt" = JsVal.str (toISOString env.now) ∧
        ("id" ∉ updateData.map Prod.fst →
          getField r "id" = getField (st.progress.getD i []) "id") ∧
        ("createdAt" ∉ updateData.map Prod.fst →
          getField r "createdAt" = getField (st.progress.getD i []) "createdAt")) := by
  constructor
  · intro projectCode hok
    rcases updateProject_cases env st projectCode updateData with ⟨_, hne⟩ | ⟨i, r, hi, hr, he⟩
    · exact absurd hok hne
    · obtain ⟨h1, h2, h3⟩ := updatedProject_fields hr
      exact ⟨i, r, hi, by rw [he], by rw [he]; rfl, h1, h2, h3⟩
  · intro id hok
    rcases updateProgress_cases env st id updateData with
      ⟨_, hne⟩ | ⟨i, r, errs, _, _, hi, hr, he⟩
    · exact absurd hok hne
    · obtain ⟨_, h1, _, h2, h3⟩ := updatedProgress_fields hr
      exact ⟨i, r, hi, by rw [he], by rw [he]; rfl, h1, h2, h3⟩

theorem update_keeps_id_witness :
    (updateProgress sampleEnv reportStore "1" (reportUpdate [])).2.status = 200 ∧
    ∃ i r, findIndex (fun p => strictEq (getField p "id") (JsVal.num (parseInt (JsVal.str "1"))))
        reportStore.progress = some i ∧
      (updateProgress sampleEnv reportStore "1" (reportUpdate [])).1 =
        { reportStore with progress := reportStore.progress.set i r } ∧
      (updateProgress sampleEnv reportStore "1" (reportUpdate [])).2.data = Payload.record r ∧
      getField r "updatedAt" = JsVal.str (toISOString sampleEnv.now) ∧
      ("id" ∉ (reportUpdate []).map Prod.fst →
        getField r "id" = getField (reportStore.progress.getD i []) "id") ∧
      ("createdAt" ∉ (reportUpdate []).map Prod.fst →
        getField r "createdAt" = getField (reportStore.progress.getD i []) "createdAt") :=
  ⟨by decide, (update_keeps_id sampleEnv reportStore (reportUpdate [])).2 "1" (by decide)⟩

/-! ## The stored invariants of a report -/

theorem batchStep_field (now : Int) (field : String) (value : JsVal) (k : String)
    (hf : field ≠ k) (hu : "updatedAt" ≠ k) (acc : List Obj × List Obj) (id : JsVal) :
    (batchStep now field value acc id).1.map (fun p => getField p k) =
      acc.1.map (fun p => getField p k) := by
  unfold batchStep
  cases findIndex (fun p => strictEq (getField p "id") (JsVal.num (parseInt id))) acc.1 with
  | none => rfl
  | some i =>
    apply map_set_same
    rw [getField_setField_ne _ _ _ _ hu, getField_setField_ne _ _ _ _ hf]

theorem batchFold_field (now : Int) (field : String) (value : JsVal) (k : String)
    (hf : field ≠ k) (hu : "updatedAt" ≠ k) (ids : List JsVal) (acc : List Obj × List Obj) :
    (ids.foldl (batchStep now field value) acc).1.map (fun p => getField p k) =
      acc.1.map (fun p => getField p k) := by
  induction ids generalizing acc with
  | nil => rfl
  | cons id ids ih => rw [List.foldl_cons, ih, batchStep_field now field value k hf hu]

theorem forall_of_map_eq {l l' : List Obj} (k : String) (P : JsVal → Prop)
    (h : l'.map (fun p => getField p k) = l.map (fun p => getField p k))
    (hl : ∀ p ∈ l, P (getField p k)) : ∀ p ∈ l', P (getField p k) := by
  intro p hp
  have hm : getField p k ∈ l'.map (fun p => getField p k) := List.mem_map_of_mem _ hp
  rw [h] at hm
  obtain ⟨q, hq, he⟩ := List.mem_map.mp hm
  rw [← he]
  exact hl q hq

theorem validate_nil {now : Int} {progress : Obj} {errs : List String}
    (h : validateProgressData now progress = Except.ok errs) (hlen : errs.length = 0) :
    ¬ (getField progress "workHours" ≠ JsVal.undefined ∧
        hoursOutOfRange (parseFloat (getField progress "workHours")) = true) ∧
    ¬ (truthy (getField progress "needHelp") = true ∧
        includesStr validHelpOptions (getField progress "needHelp") = false) := by
  have hnil : errs = [] := List.length_eq_zero.mp hlen
  subst hnil
  unfold validateProgressData at h
  obtain ⟨b1, _, h⟩ := bind_ok h
  obtain ⟨b3, _, h⟩ := bind_ok h
  simp only [Except.ok.injEq, List.append_eq_nil] at h
  obtain ⟨⟨_, h4⟩, h5⟩ := h
  constructor
  · intro hc
    rw [if_pos hc] at h4
    exact List.cons_ne_nil _ _ h4
  · rintro ⟨c1, c2⟩
    rw [if_pos (by simp [c1, c2])] at h5
    exact List.cons_ne_nil _ _ h5

theorem numOr_hours (v old : JsVal)
    (hold : ∃ h : Rat, old = JsVal.num (JsNum.fin h) ∧ 0 ≤ h ∧ h ≤ 24)
    (hv : ¬ (v ≠ JsVal.undefined ∧ hoursOutOfRange (parseFloat v) = true)) :
    ∃ h : Rat, numOr (parseFloat v) old = JsVal.num (JsNum.fin h) ∧ 0 ≤ h ∧ h ≤ 24 := by
  by_cases hu : v = JsVal.undefined
  · subst hu
    simpa [numOr, jsOr, parseFloat, truthy] using hold
  · have hin : parsesInRange v := by
      by_contra hc
      exact hv ⟨hu, (hoursOutOfRange_iff v).mpr hc⟩
    obtain ⟨h, hp, h0, h24⟩ := hin
    rw [hp]
    by_cases hz : h = 0
    · subst hz
      simpa [numOr, jsOr, truthy] using hold
    · exact ⟨h, by simp [numOr, jsOr, truthy, hz], h0, h24⟩

theorem deleteProgress_subset (env : Env) (st : Store) (id : String) (p : Obj)
    (h : p ∈ (deleteProgress env st id).1.progress) : p ∈ st.progress := by
  unfold deleteProgress at h
  simp only at h
  split at h
  · exact h
  · split at h
    · exact h
    · split at h
      · exact List.mem_of_mem_eraseIdx h
      · exact h

theorem batchHelpStatus_field (env : Env) (st : Store) (ids : Option (List JsVal))
    (value : JsVal) (k : String) (hf : "needHelp" ≠ k) (hu : "updatedAt" ≠ k) :
    (batchHelpStatus env st ids value).1.progress.map (fun p => getField p k) =
      st.progress.map (fun p => getField p k) := by
  unfold batchHelpStatus
  cases ids with
  | none => rfl
  | some l =>
    simp only
    split
    · rfl
    · split
      · rfl
      · split
        · exact batchFold_field env.now "needHelp" value k hf hu l (st.progress, [])
        · rfl

theorem reportStore_hoursInRange : ∀ p ∈ reportStore.progress, hoursInRange p := by
  intro p hp
  simp only [reportStore, List.mem_cons, List.mem_singleton, List.not_mem_nil, or_false] at hp
  rcases hp with rfl | rfl | rfl
  · exact ⟨8, rfl, by norm_num, by norm_num⟩
  · exact ⟨mkRat 17 2, rfl, by decide, by decide⟩
  · exact ⟨4, rfl, by norm_num, by norm_num⟩

/-- C24: if every stored report has a numeric `workHours` in [0, 24], then so
has every report stored after a create, an update, a delete or a batch
help-status request of routes/progress.js, whatever the request and its
outcome; and a report created from a body without `workHours` has `workHours`
0. -/
theorem workHours_invariant (env : Env) (st : Store)
    (hinv : ∀ p ∈ st.progress, hoursInRange p) :
    (∀ progressData : Obj,
      ∀ p ∈ (createProgress env st progressData).1.progress, hoursInRange p) ∧
    (∀ (id : String) (updateData : Obj),
      ∀ p ∈ (updateProgress env st id updateData).1.progress, hoursInRange p) ∧
    (∀ id : String, ∀ p ∈ (deleteProgress env st id).1.progress, hoursInRange p) ∧
    (∀ (ids : Option (List JsVal)) (needHelp : JsVal),
      ∀ p ∈ (batchHelpStatus env st ids needHelp).1.progress, hoursInRange p) ∧
    (∀ progressData : Obj, getField progressData "workHours" = JsVal.undefined →
      (createProgress env st progressData).2.status = 201 →
      ∃ r, (createProgress env st progressData).1.progress = st.progress ++ [r] ∧
        (createProgress env st progressData).2.data = Payload.record r ∧
        getField r "workHours" = JsVal.num (JsNum.fin 0)) := by
  refine ⟨?_, ?_, ?_, ?_, ?_⟩
  · intro progressData p hp
    rcases createProgress_cases env st progressData with ⟨hst, _⟩ | ⟨r, errs, hv, hlen, hr, he⟩
    · rw [hst] at hp
      exact hinv p hp
    · rw [he] at hp
      rcases List.mem_append.mp hp with hp | hp
      · exact hinv p hp
      · rw [List.mem_singleton] at hp
        subst hp
        unfold hoursInRange
        rw [(newProgress_fields hr).1]
        exact numOr_hours _ _ ⟨0, rfl, le_refl _, by norm_num⟩ (validate_nil hv hlen).1
  · intro id updateData p hp
    rcases updateProgress_cases env st id updateData with
      ⟨hst, _⟩ | ⟨i, r, errs, hv, hlen, hi, hr, he⟩
    · rw [hst] at hp
      exact hinv p hp
    · rw [he] at hp
      rcases List.mem_or_eq_of_mem_set hp with hp | hp
      · exact hinv p hp
      · subst hp
        unfold hoursInRange
        rw [(updatedProgress_fields hr).1]
        obtain ⟨h, hh, h0, h24⟩ := hinv _ (findIndex_some hi).2
        exact numOr_hours _ _ ⟨h, hh, h0, h24⟩ (validate_nil hv hlen).1
  · intro id p hp
    exact hinv p (deleteProgress_subset env st id p hp)
  · intro ids needHelp
    exact forall_of_map_eq "workHours"
      (fun v => ∃ h : Rat, v = JsVal.num (JsNum.fin h) ∧ 0 ≤ h ∧ h ≤ 24)
      (batchHelpStatus_field env st ids needHelp "workHours" (by decide) (by decide)) hinv
  · intro progressData hundef hok
    rcases createProgress_cases env st progressData with ⟨_, hne⟩ | ⟨r, errs, hv, hlen, hr, he⟩
    · exact absurd hok hne
    · refine ⟨r, by rw [he], by rw [he]; rfl, ?_⟩
      rw [(newProgress_fields hr).1, hundef]
      simp [numOr, jsOr, parseFloat, truthy]

theorem workHours_invariant_witness :
    (∀ p ∈ (updateProgress sampleEnv reportStore "1"
      (reportUpdate [("workHours", JsVal.str "7.5")])).1.progress, hoursInRange p) ∧
    ((updateProgress sampleEnv reportStore "1"
      (reportUpdate [("workHours", JsVal.str "7.5")])).1.progress.map fun p =>
        getField p "workHours") =
      [JsVal.num (JsNum.fin (mkRat 15 2)), JsVal.num (JsNum.fin (mkRat 17 2)),
        JsVal.num (JsNum.fin 4)] ∧
    ∃ r, (createProgress sampleEnv reportStore (reportUpdate [])).1.progress =
        reportStore.progress ++ [r] ∧
      (createProgress sampleEnv reportStore (reportUpdate [])).2.data = Payload.record r ∧
      getField r "workHours" = JsVal.num (JsNum.fin 0) :=
  ⟨(workHours_invariant sampleEnv reportStore reportStore_hoursInRange).2.1 "1"
      (reportUpdate [("workHours", JsVal.str "7.5")]),
    by decide,
    (workHours_invariant sampleEnv reportStore reportStore_hoursInRange).2.2.2.2
      (reportUpdate []) (by decide) (by decide)⟩

/-! ## The two values of needHelp -/

theorem helpOk_of_includes {v : JsVal} (h : includesStr validHelpOptions v = true) :
    v = JsVal.str "是" ∨ v = JsVal.str "否" := by
  obtain ⟨s, hs, rfl⟩ := (includesStr_iff _ _).mp h
  simp only [validHelpOptions, List.mem_cons, List.mem_singleton, List.not_mem_nil,
    or_false] at hs
  rcases hs with rfl | rfl
  · exact Or.inl rfl
  · exact Or.inr rfl

theorem batchStep_helpOk (now : Int) (value : JsVal)
    (hv : value = JsVal.str "是" ∨ value = JsVal.str "否") (acc : List Obj × List Obj)
    (id : JsVal) (h : ∀ p ∈ acc.1, helpOk p) :
    ∀ p ∈ (batchStep now "needHelp" value acc id).1, helpOk p := by
  unfold batchStep
  cases findIndex (fun p => strictEq (getField p "id") (JsVal.num (parseInt id))) acc.1 with
  | none => exact h
  | some i =>
    intro p hp
    rcases List.mem_or_eq_of_mem_set hp with hp | hp
    · exact h p hp
    · subst hp
      unfold helpOk
      rw [getField_setField_ne _ _ _ _ (by decide), getField_setField_same]
      exact hv

theorem batchFold_helpOk (now : Int) (value : JsVal)
    (hv : value = JsVal.str "是" ∨ value = JsVal.str "否") (ids : List JsVal)
    (acc : List Obj × List Obj) (h : ∀ p ∈ acc.1, helpOk p) :
    ∀ p ∈ (ids.foldl (batchStep now "needHelp" value) acc).1, helpOk p := by
  induction ids generalizing acc with
  | nil => exact h
  | cons id ids ih =>
    rw [List.foldl_cons]
    exact ih _ (batchStep_helpOk now value hv acc id h)

/-- C25 (defect in the update handler): the validator lets a falsy `needHelp`
pass (`progress.needHelp && ...`); the create handler then stores 否 for it, but
the update handler spreads the body over the record and stores it as sent.  On
a collection whose reports all have 是 or 否, `PUT /1` with `needHelp: ""` is
answered 200 and leaves report 1 with `needHelp` `""`.  Create and batch
help-status do keep the two values, for every collection and request, and a
report created without `needHelp` gets 否. -/
theorem update_stores_empty_needHelp :
    (∀ (env : Env) (st : Store), (∀ p ∈ st.progress, helpOk p) →
      (∀ progressData : Obj,
        ∀ p ∈ (createProgress env st progressData).1.progress, helpOk p) ∧
      (∀ (ids : Option (List JsVal)) (needHelp : JsVal),
        ∀ p ∈ (batchHelpStatus env st ids needHelp).1.progress, helpOk p) ∧
      (∀ progressData : Obj, getField progressData "needHelp" = JsVal.undefined →
        (createProgress env st progressData).2.status = 201 →
        ∃ r, (createProgress env st progressData).1.progress = st.progress ++ [r] ∧
          getField r "needHelp" = JsVal.str "否")) ∧
    (∀ p ∈ reportStore.progress, helpOk p) ∧
    validateProgressData sampleEnv.now (reportUpdate [("needHelp", JsVal.str "")]) =
      Except.ok [] ∧
    (updateProgress sampleEnv reportStore "1"
      (reportUpdate [("needHelp", JsVal.str "")])).2.status = 200 ∧
    ((updateProgress sampleEnv reportStore "1"
      (reportUpdate [("needHelp", JsVal.str "")])).1.progress.map fun p =>
        getField p "needHelp") = [JsVal.str "", JsVal.str "是", JsVal.str "否"] ∧
    ((createProgress sampleEnv reportStore
      (reportUpdate [("needHelp", JsVal.str "")])).1.progress.map fun p =>
        getField p "needHelp") =
      [JsVal.str "否", JsVal.str "是", JsVal.str "否", JsVal.str "否"] := by
  refine ⟨?_, by decide, by decide, by decide, by decide, by decide⟩
  intro env st hinv
  refine ⟨?_, ?_, ?_⟩
  · intro progressData p hp
    rcases createProgress_cases env st progressData with ⟨hst, _⟩ | ⟨r, errs, hv, hlen, hr, he⟩
    · rw [hst] at hp
      exact hinv p hp
    · rw [he] at hp
      rcases List.mem_append.mp hp with hp | hp
      · exact hinv p hp
      · rw [List.mem_singleton] at hp
        subst hp
        unfold helpOk
        rw [(newProgress_fields hr).2]
        by_cases ht : truthy (getField progressData "needHelp") = true
        · have hin : includesStr validHelpOptions (getField progressData "needHelp") = true := by
            by_contra hc
            exact (validate_nil hv hlen).2 ⟨ht, by simpa using hc⟩
          simpa [jsOr, ht] using helpOk_of_includes hin
        · simp [jsOr, ht]
  · intro ids needHelp p hp
    unfold batchHelpStatus at hp
    cases ids with
    | none => exact hinv p hp
    | some l =>
      simp only at hp
      split at hp
      · exact hinv p hp
      · split at hp
        · exact hinv p hp
        · rename_i hvalid
          split at hp
          · exact batchFold_helpOk env.now needHelp
              (helpOk_of_includes (by simpa using hvalid)) l (st.progress, []) hinv p hp
          · exact hinv p hp
  · intro progressData hundef hok
    rcases createProgress_cases env st progressData with ⟨_, hne⟩ | ⟨r, errs, hv, hlen, hr, he⟩
    · exact absurd hok hne
    · refine ⟨r, by rw [he], ?_⟩
      rw [(newProgress_fields hr).2, hundef]
      simp [jsOr, truthy]

/-! ## The routes of the progress router -/

/-- C26 (defect): `router.get('/:id')` is declared at line 210 and
`router.get('/need-help')` at line 685, so the request `GET /need-help` is taken
by the first, with `id = "need-help"`, and answered 400 "無效的回報 ID" for every
store; the need-help handler, which would answer 200 with the reports that need
help, is never reached.  The paths of two segments (`/stats/summary`,
`/project/:projectCode`) do reach their handlers. -/
theorem need_help_route_shadowed :
    dispatch progressRoutes Method.get ["need-help"] =
      some (ProgressHandler.byId, "need-help") ∧
    (∀ st : Store, getProgress st "need-help" = failure 400 "無效的回報 ID") ∧
    (needHelpReports reportStore (some "5") Option.none).status = 200 ∧
    ((needHelpReports reportStore (some "5") Option.none).data.map fun p =>
      (getField p "id", getField p "needHelp", getField p "projectName")) =
      [(timeNum 2, JsVal.str "是", JsVal.str "Website")] ∧
    dispatch progressRoutes Method.get ["stats", "summary"] =
      some (ProgressHandler.statsSummary, "") ∧
    dispatch progressRoutes Method.get ["project", "PRJ-001"] =
      some (ProgressHandler.byProject, "PRJ-001") := by
  refine ⟨by decide, ?_, by decide, by decide, by decide, by decide⟩
  intro st
  have h : (parseInt (JsVal.str "need-help")).isNaN = true := by decide
  simp [getProgress, h]

/-! ## The work hours stored by an update -/

/-- C27 (defect): the update handler stores
`parseFloat(updateData.workHours) || progress[reportIndex].workHours`, and 0 is
falsy.  For every update that succeeds with `workHours` a number `h` in
[0, 24], the stored report has `workHours` `h` when `h ≠ 0` and keeps the stored
`workHours` when `h = 0`: `PUT /1` with `workHours: 0` on a report with 8 hours
is answered 200 and leaves 8. -/
theorem update_ignores_zero_hours :
    (∀ (env : Env) (st : Store) (id : String) (updateData : Obj) (h : Rat),
      getField updateData "workHours" = JsVal.num (JsNum.fin h) →
      (updateProgress env st id updateData).2.status = 200 →
      ∃ i r, findIndex
          (fun p => strictEq (getField p "id") (JsVal.num (parseInt (JsVal.str id))))
          st.progress = some i ∧
        (updateProgress env st id updateData).1.progress = st.progress.set i r ∧
        0 ≤ h ∧ h ≤ 24 ∧
        getField r "workHours" =
          if h = 0 then getField (st.progress.getD i []) "workHours"
          else JsVal.num (JsNum.fin h)) ∧
    validateProgressData sampleEnv.now (reportUpdate [("workHours", JsVal.num (JsNum.fin 0))]) =
      Except.ok [] ∧
    (updateProgress sampleEnv reportStore "1"
      (reportUpdate [("workHours", JsVal.num (JsNum.fin 0))])).2.status = 200 ∧
    ((updateProgress sampleEnv reportStore "1"
      (reportUpdate [("workHours", JsVal.num (JsNum.fin 0))])).1.progress.map fun p =>
        getField p "workHours") =
      [JsVal.num (JsNum.fin 8), JsVal.num (JsNum.fin (mkRat 17 2)), JsVal.num (JsNum.fin 4)] ∧
    ((updateProgress sampleEnv reportStore "1"
      (reportUpdate [("workHours", JsVal.num (JsNum.fin 2))])).1.progress.map fun p =>
        getField p "workHours") =
      [JsVal.num (JsNum.fin 2), JsVal.num (JsNum.fin (mkRat 17 2)), JsVal.num (JsNum.fin 4)] := by
  refine ⟨?_, by decide, by decide, by decide, by decide⟩
  intro env st id updateData h hh hok
  rcases updateProgress_cases env st id updateData with
    ⟨_, hne⟩ | ⟨i, r, errs, hv, hlen, hi, hr, he⟩
  · exact absurd hok hne
  · have hrange : parsesInRange (getField updateData "workHours") := by
      by_contra hc
      exact (validate_nil hv hlen).1
        ⟨by rw [hh]; exact JsVal.noConfusion, (hoursOutOfRange_iff _).mpr hc⟩
    obtain ⟨q, hq, h0, h24⟩ := hrange
    rw [hh] at hq
    simp only [parseFloat, JsNum.fin.injEq] at hq
    subst hq
    refine ⟨i, r, hi, by rw [he], h0, h24, ?_⟩
    rw [(updatedProgress_fields hr).1, hh]
    by_cases hz : h = 0
    · simp [numOr, jsOr, parseFloat, truthy, hz]
    · simp [numOr, jsOr, parseFloat, truthy, hz]

/-! ## The frontend validator and the backend validator -/

/-- C28, as the claim states it, fails in three ways: the frontend accepts a
date that does not parse (`Invalid Date > futureLimit` is false), a project code
of white space only (it tests `!data.projectCode`, without `trim`), and any
`needHelp` (it has no rule for it); the backend rejects each. -/
theorem front_accepts_backend_rejects :
    frontValidateProgressData sampleEnv.now (reportForm "abc" "PRJ-001" "否") =
      Except.ok { isValid := true, errors := [] } ∧
    validateProgressData sampleEnv.now (reportForm "abc" "PRJ-001" "否") =
      Except.ok [msgDateInvalid] ∧
    frontValidateProgressData sampleEnv.now (reportForm "2025-06-10" "  " "否") =
      Except.ok { isValid := true, errors := [] } ∧
    validateProgressData sampleEnv.now (reportForm "2025-06-10" "  " "否") =
      Except.ok [msgCodeRequired] ∧
    frontValidateProgressData sampleEnv.now (reportForm "2025-06-10" "PRJ-001" "maybe") =
      Except.ok { isValid := true, errors := [] } ∧
    validateProgressData sampleEnv.now (reportForm "2025-06-10" "PRJ-001" "maybe") =
      Except.ok [msgHelpInvalid] := by
  decide

/-- C28, amended: for every report input whose date parses, whose projectCode is
a string with something other than white space in it, and whose needHelp is
falsy or one of 是 / 否, and for every instant: if the frontend
`validateProgressData` returns `isValid = true`, the backend
`validateProgressData` returns the empty list at the same instant. -/
theorem front_valid_backend_valid (now : Int) (data : Obj) (v : Validation)
    (hfront : frontValidateProgressData now data = Except.ok v) (hvalid : v.isValid = true)
    (hdate : ∃ t, toDate (getField data "date") = some t)
    (hcode : nonBlank (getField data "projectCode"))
    (hhelp : truthy (getField data "needHelp") = false ∨
      includesStr validHelpOptions (getField data "needHelp") = true) :
    validateProgressData now data = Except.ok [] := by
  unfold frontValidateProgressData at hfront
  obtain ⟨b1, hb1, hfront⟩ := bind_ok hfront
  simp only [Except.ok.injEq] at hfront
  rw [← hfront] at hvalid
  simp only [decide_eq_true_eq, List.length_eq_zero, List.append_eq_nil] at hvalid
  obtain ⟨⟨⟨⟨h1, h2⟩, _⟩, h4⟩, _⟩ := hvalid
  have hr : b1 = false := by
    cases b1 with
    | false => rfl
    | true => simp at h1
  subst hr
  obtain ⟨t, ht⟩ := hdate
  obtain ⟨s, hs, hne⟩ := hcode
  have hd : dateErrors now (getField data "date") = [] := by
    by_cases htr : truthy (getField data "date") = true
    · simp only [htr, Bool.not_true, Bool.false_eq_true, if_false, ht, dateLt] at h2
      have hle : ¬ (now + 24 * 60 * 60 * 1000 < t) := by
        intro hlt
        simp [hlt] at h2
        omega
      simp [dateErrors, htr, ht]
      omega
    · simp [htr] at h2
  have hc : isBlank (getField data "projectCode") = Except.ok false := by
    rw [hs, isBlank_str]
    simp [hne]
  have hh : ¬ (getField data "workHours" ≠ JsVal.undefined ∧
      hoursOutOfRange (parseFloat (getField data "workHours")) = true) := by
    intro hcnd
    rw [if_pos hcnd] at h4
    exact List.cons_ne_nil _ _ h4
  have hn : (truthy (getField data "needHelp") &&
      !includesStr validHelpOptions (getField data "needHelp")) = false := by
    rcases hhelp with h | h <;> simp [h]
  unfold validateProgressData
  rw [hb1, hc]
  simp only [Except.bind, Bool.false_eq_true, if_false, hd, if_neg hh, hn, List.append_nil]

theorem front_valid_backend_valid_witness :
    frontValidateProgressData sampleEnv.now (reportForm "2025-06-10" "PRJ-001" "否") =
      Except.ok { isValid := true, errors := [] } ∧
    validateProgressData sampleEnv.now (reportForm "2025-06-10" "PRJ-001" "否") = Except.ok [] :=
  ⟨by decide,
    front_valid_backend_valid sampleEnv.now (reportForm "2025-06-10" "PRJ-001" "否")
      { isValid := true, errors := [] } (by decide) rfl ⟨1749513600000, by decide⟩
      ⟨"PRJ-001", rfl, by decide⟩ (Or.inr (by decide))⟩

/-! ## The two overdue tests of the Projects module -/

theorem diffDays_parsed (now : Int) (project : Obj) (t : Int)
    (ht : toDate (getField project "endDate") = some t) :
    diffDays now project = intNum ⌈((t - now : Int) : Rat) / 86400000⌉ := by
  have h0 : (86400000 : Rat) ≠ 0 := by norm_num
  simp only [diffDays, ht, dateDiff, intNum, JsNum.div, if_neg h0, JsNum.ceil, ratDiv_eq _ _ h0,
    ceilRat_eq]

theorem diffDays_invalid (now : Int) (project : Obj)
    (ht : toDate (getField project "endDate") = Option.none) :
    diffDays now project = JsNum.nan := by
  simp [diffDays, ht, dateDiff, JsNum.div, JsNum.ceil]

theorem diffDays_neg_iff (now : Int) (project : Obj) :
    (diffDays now project).lt (JsNum.fin 0) = true ↔
      ∃ t, toDate (getField project "endDate") = some t ∧ t + 86400000 ≤ now := by
  cases ht : toDate (getField project "endDate") with
  | none => simp [diffDays_invalid now project ht, JsNum.lt]
  | some t =>
    rw [diffDays_parsed now project t ht]
    simp only [intNum, JsNum.lt, decide_eq_true_eq, Option.some.injEq, exists_eq_left']
    have h1 : ((⌈((t - now : Int) : Rat) / 86400000⌉ : Int) : Rat) < 0 ↔
        ⌈((t - now : Int) : Rat) / 86400000⌉ ≤ -1 := by
      constructor
      · intro h
        have : ⌈((t - now : Int) : Rat) / 86400000⌉ < 0 := by exact_mod_cast h
        omega
      · intro h
        have : ⌈((t - now : Int) : Rat) / 86400000⌉ < 0 := by omega
        exact_mod_cast this
    rw [h1, Int.ceil_le, div_le_iff₀ (by norm_num)]
    constructor
    · intro h
      have h2 : ((t - now : Int) : Rat) ≤ ((-86400000 : Int) : Rat) := by
        push_cast at h ⊢
        linarith
      have h3 : t - now ≤ -86400000 := by exact_mod_cast h2
      omega
    · intro h
      have h3 : t - now ≤ -86400000 := by omega
      have h2 : ((t - now : Int) : Rat) ≤ ((-86400000 : Int) : Rat) := by exact_mod_cast h3
      push_cast at h2 ⊢
      linarith

theorem isOverdue_iff (eng : Engine) (now : Int) (project : Obj) :
    (calculateProgressDays eng now project).isOverdue = true ↔
      truthy (getField project "endDate") = true ∧
      strictEq (getField project "status") (JsVal.str "completed") = false ∧
      ∃ t, toDate (getField project "endDate") = some t ∧ t + 86400000 ≤ now := by
  rw [← diffDays_neg_iff]
  unfold calculateProgressDays
  by_cases h1 : truthy (getField project "endDate") = true
  · by_cases h2 : strictEq (getField project "status") (JsVal.str "completed") = true
    · simp [h1, h2]
    · by_cases h3 : (diffDays now project).lt (JsNum.fin 0) = true
      · simp [h1, h2, h3]
      · simp only [h1, h2, h3, Bool.not_true, Bool.false_eq_true, if_false]
        split <;> [simp; (split <;> simp)]
  · simp [h1]

theorem countsOverdue_iff (now : Int) (project : Obj) :
    countsOverdue now project = true ↔
      truthy (getField project "endDate") = true ∧
      strictEq (getField project "status") (JsVal.str "completed") = false ∧
      ∃ t, toDate (getField project "endDate") = some t ∧ t < now := by
  unfold countsOverdue
  by_cases h1 : truthy (getField project "endDate") = true
  · by_cases h2 : strictEq (getField project "status") (JsVal.str "completed") = true
    · simp [h1, h2]
    · cases ht : toDate (getField project "endDate") with
      | none => simp [h1, h2, dateLt]
      | some t => simp [h1, h2, dateLt]
  · simp [h1]

/-- C29, as the claim states it, fails: at 2025-06-10T12:34:56Z an active
project whose `endDate` is 2025-06-10 is counted in `overdue` by
`calculateStats` (its end, midnight UTC, is before the instant), while
`calculateProgressDays` gives `diffDays = 0`, "今天截止" and `isOverdue = false`. -/
theorem overdue_tests_disagree :
    countsOverdue sampleEnv.now (sampleProject 1 "P-1" "2025-06-10" "active") = true ∧
    overdueCount sampleEnv.now [sampleProject 1 "P-1" "2025-06-10" "active"] = 1 ∧
    diffDays sampleEnv.now (sampleProject 1 "P-1" "2025-06-10" "active") = JsNum.fin 0 ∧
    calculateProgressDays sampleEngine sampleEnv.now
      (sampleProject 1 "P-1" "2025-06-10" "active") =
        { daysText := some "今天截止", isOverdue := false } := by
  decide

/-- C29, amended: for every project and instant, `calculateProgressDays` returns
`isOverdue = true` exactly when the project has an `endDate`, is not completed
and its end lies one day or more before the instant; `calculateStats` counts it
in `overdue` exactly when it has an `endDate`, is not completed and its end lies
before the instant.  So every project with `isOverdue = true` is counted in
`overdue`, and the two differ exactly on the projects whose end passed less than
a day ago. -/
theorem overdue_tests_related (eng : Engine) (now : Int) (project : Obj) :
    ((calculateProgressDays eng now project).isOverdue = true →
      countsOverdue now project = true) ∧
    ((calculateProgressDays eng now project).isOverdue = true ↔
      truthy (getField project "endDate") = true ∧
      strictEq (getField project "status") (JsVal.str "completed") = false ∧
      ∃ t, toDate (getField project "endDate") = some t ∧ t + 86400000 ≤ now) ∧
    (countsOverdue now project = true ↔
      truthy (getField project "endDate") = true ∧
      strictEq (getField project "status") (JsVal.str "completed") = false ∧
      ∃ t, toDate (getField project "endDate") = some t ∧ t < now) ∧
    ((countsOverdue now project = true ∧
        (calculateProgressDays eng now project).isOverdue = false) ↔
      truthy (getField project "endDate") = true ∧
      strictEq (getField project "status") (JsVal.str "completed") = false ∧
      ∃ t, toDate (getField project "endDate") = some t ∧ t < now ∧ now < t + 86400000) := by
  have h1 := isOverdue_iff eng now project
  have h2 := countsOverdue_iff now project
  refine ⟨?_, h1, h2, ?_⟩
  · intro h
    obtain ⟨a, b, t, ht, hle⟩ := h1.mp h
    exact h2.mpr ⟨a, b, t, ht, by omega⟩
  · constructor
    · rintro ⟨hc, hn⟩
      obtain ⟨a, b, t, ht, hlt⟩ := h2.mp hc
      refine ⟨a, b, t, ht, hlt, ?_⟩
      by_contra hge
      have : (calculateProgressDays eng now project).isOverdue = true :=
        h1.mpr ⟨a, b, t, ht, by omega⟩
      rw [hn] at this
      exact Bool.noConfusion this
    · rintro ⟨a, b, t, ht, hlt, hgt⟩
      refine ⟨h2.mpr ⟨a, b, t, ht, hlt⟩, ?_⟩
      by_contra hne
      have hov : (calculateProgressDays eng now project).isOverdue = true := by
        simpa using hne
      obtain ⟨_, _, t', ht', hle⟩ := h1.mp hov
      rw [ht] at ht'
      cases ht'
      omega

theorem overdue_tests_related_witness :
    (calculateProgressDays sampleEngine sampleEnv.now
      (sampleProject 2 "OLD-001" "2020-01-01" "active")).isOverdue = true ∧
    countsOverdue sampleEnv.now (sampleProject 2 "OLD-001" "2020-01-01" "active") = true :=
  ⟨by decide,
    (overdue_tests_related sampleEngine sampleEnv.now
      (sampleProject 2 "OLD-001" "2020-01-01" "active")).1 (by decide)⟩

/-! ## The page state of the Reports module -/

theorem pageReports_ne (s : Reports) (p : Nat) (hp : 1 ≤ p) (hcp : s.currentPage = (p : Int))
    (hsize : s.pageSize = 20) (hlt : (p - 1) * 20 < s.filteredReports.length) :
    pageReports s ≠ [] := by
  unfold pageReports
  have h1 : (s.currentPage - 1) * (s.pageSize : Int) = (((p - 1) * 20 : Nat) : Int) := by
    rw [hcp, hsize]
    push_cast
    rw [Nat.cast_sub hp]
    simp
  have h2 : min ((s.currentPage - 1) * (s.pageSize : Int) + (s.pageSize : Int))
      (s.filteredReports.length : Int) =
      ((min ((p - 1) * 20 + 20) s.filteredReports.length : Nat) : Int) := by
    rw [h1, hsize]
    push_cast
    rfl
  rw [h2, h1]
  have h3 := jsSlice_natNum s.filteredReports ((p - 1) * 20)
    (min ((p - 1) * 20 + 20) s.filteredReports.length)
  unfold natNum at h3
  rw [h3, ← List.length_pos, List.length_take, List.length_drop]
  omega

theorem ceil_pages (len : Nat) :
    JsNum.ceil (JsNum.div (natNum len) (natNum 20)) = intNum ⌈(len : ℚ) / ((20 : Nat) : ℚ)⌉ := by
  have h0 : (((20 : Nat) : Int) : Rat) ≠ 0 := by norm_num
  simp only [natNum, intNum, JsNum.div, if_neg h0, JsNum.ceil, ratDiv_eq _ _ h0, ceilRat_eq]
  push_cast
  rfl

theorem valid_initial : Reports.valid Reports.initial := by
  refine ⟨by decide, rfl, Or.inr ⟨rfl, rfl⟩, ?_⟩
  intro h
  exact absurd rfl h

theorem valid_applyFilters (eng : Engine) (s s' : Reports) (hs : Reports.valid s)
    (h : applyFilters eng s = Except.ok s') : Reports.valid s' := by
  unfold applyFilters at h
  obtain ⟨filtered, _, rfl⟩ := map_ok h
  obtain ⟨_, hsize, _, _⟩ := hs
  refine ⟨le_refl _, hsize, Or.inl ?_, ?_⟩
  · simp only [hsize]
    exact ceil_pages _
  · intro hne
    have hpos : 0 < (jsSort (frontCompare s.currentFilters) filtered).length :=
      List.length_pos.mpr hne
    constructor
    · simp only [hsize]
      have := (le_ceil_div_iff (jsSort (frontCompare s.currentFilters) filtered).length 1 20
        (le_refl _) (by norm_num)).mpr (by simpa using hpos)
      exact_mod_cast this
    · exact pageReports_ne _ 1 (le_refl _) rfl hsize (by simpa using hpos)

theorem valid_goToPage (s : Reports) (page : Int) (hs : Reports.valid s) :
    Reports.valid (goToPage s page) := by
  unfold goToPage
  split
  · exact hs
  · rename_i hcond
    rw [not_or] at hcond
    obtain ⟨hp1, hp2⟩ := hcond
    have hp : 1 ≤ page := by omega
    obtain ⟨_, hsize, htotal, hshown⟩ := hs
    refine ⟨hp, hsize, htotal, ?_⟩
    intro hne
    have hne' : s.filteredReports ≠ [] := hne
    have hceil : s.totalPages =
        intNum ⌈(s.filteredReports.length : ℚ) / (s.pageSize : ℚ)⌉ := by
      rcases htotal with h | ⟨h, _⟩
      · exact h
      · exact absurd h hne'
    have hle : page ≤ ⌈(s.filteredReports.length : ℚ) / (s.pageSize : ℚ)⌉ := by
      rw [hceil] at hp2
      simp only [intNum, JsNum.lt, decide_eq_true_eq, not_lt] at hp2
      exact_mod_cast hp2
    refine ⟨hle, ?_⟩
    obtain ⟨n, hn⟩ := Int.eq_ofNat_of_zero_le (by omega : 0 ≤ page)
    have hn1 : 1 ≤ n := by omega
    have hle' : (n : Int) ≤ ⌈(s.filteredReports.length : ℚ) / ((20 : Nat) : ℚ)⌉ := by
      rw [← hn, ← hsize]
      exact hle
    exact pageReports_ne { s with currentPage := page } n hn1 hn hsize
      ((le_ceil_div_iff s.filteredReports.length n 20 hn1 (by norm_num)).mp hle')

theorem valid_step (eng : Engine) (s : Reports) (c : Call) (hs : Reports.valid s) :
    Reports.valid (Reports.step eng s c) := by
  cases c with
  | setReports reports => exact hs
  | setFilters f => exact hs
  | applyFilters =>
    unfold Reports.step
    cases h : applyFilters eng s with
    | error e => exact hs
    | ok s' => exact valid_applyFilters eng s s' hs h
  | goToPage page => exact valid_goToPage s page hs

theorem valid_fold (eng : Engine) (calls : List Call) (s : Reports) (hs : Reports.valid s) :
    Reports.valid (calls.foldl (Reports.step eng) s) := by
  induction calls generalizing s with
  | nil => exact hs
  | cons c calls ih => exact ih _ (valid_step eng s c hs)

/-- C30, as the claim states it, fails in the initial state and until
`applyFilters` has run: the constructor sets `totalPages` to 1 with no report
filtered, and `ceil(0 / 20)` is 0; `goToPage` does not change it. -/
theorem initial_totalPages_is_one :
    (Reports.run sampleEngine []).totalPages = JsNum.fin 1 ∧
    (Reports.run sampleEngine [Call.goToPage 1]).totalPages = JsNum.fin 1 ∧
    (Reports.run sampleEngine [Call.goToPage 1]).filteredReports.length = 0 ∧
    (Reports.run sampleEngine [Call.goToPage 1]).pageSize = 20 ∧
    JsNum.ceil (JsNum.div (natNum 0) (natNum 20)) = JsNum.fin 0 ∧
    (Reports.run sampleEngine [Call.goToPage 1]).totalPages ≠
      JsNum.ceil (JsNum.div
        (natNum (Reports.run sampleEngine [Call.goToPage 1]).filteredReports.length)
        (natNum (Reports.run sampleEngine [Call.goToPage 1]).pageSize)) := by
  decide

/-- C30, amended: starting from the initial state, after any sequence of
`applyFilters` and `goToPage` calls (the data and the filters may change in
between), `currentPage ≥ 1`, `pageSize` is 20, `totalPages` is
`ceil(filteredReports.length / pageSize)` or, with no report filtered yet, the 1
of the constructor, and whenever `filteredReports` is not empty
`currentPage ≤ totalPages` and the slice shown by `updateReportsDisplay` is not
empty. -/
theorem page_state_valid (eng : Engine) (calls : List Call) :
    Reports.valid (Reports.run eng calls) :=
  valid_fold eng calls Reports.initial valid_initial

end PM
